import Mathlib

/-!
# Verification of the school-records manager core

This development shallowly embeds the core of the school management system
(validation/normalization helpers, the in-memory entity graph of students,
instructors and courses, the JSON codec, and the SQLite repository) and
proves properties of the embedded operations.

Python strings are modelled as lists of Unicode code points (`PyStr`); the
string helpers used by the source (`str.strip`, `str.lower`, `str.upper`,
`str.title`, `str.split`, `" ".join`) are modelled on the ASCII fragment the
system actually manipulates.  Python objects are modelled in an arena: a heap
mapping references (`Nat`) to entity records, with Python `is`/`in` identity
tests becoming reference equality/membership.
-/

namespace School

/-- A Python string, as its list of Unicode code points. -/
abbrev PyStr := List Nat

/-- Embed a Lean string literal as a `PyStr` (for concrete test inputs). -/
def strOf (s : String) : PyStr := s.toList.map Char.toNat

/-- ASCII whitespace recognised by `str.strip` / `str.split`
(the source data never contains non-ASCII whitespace). -/
def isWS (n : Nat) : Bool := n = 32 || n = 9 || n = 10 || n = 13 || n = 11 || n = 12

/-- `[A-Z]` -/
def isUpperA (n : Nat) : Bool := 65 ≤ n && n ≤ 90

/-- `[a-z]` -/
def isLowerA (n : Nat) : Bool := 97 ≤ n && n ≤ 122

/-- `[A-Za-z]` -/
def isAlphaA (n : Nat) : Bool := isUpperA n || isLowerA n

/-- `[0-9]` -/
def isDigitA (n : Nat) : Bool := 48 ≤ n && n ≤ 57

/-- `str.lower` on one character (ASCII). -/
def lowerA (n : Nat) : Nat := if isUpperA n then n + 32 else n

/-- `str.upper` on one character (ASCII). -/
def upperA (n : Nat) : Nat := if isLowerA n then n - 32 else n

/-- `str.lstrip()` -/
def lstrip (l : PyStr) : PyStr := l.dropWhile isWS

/-- `str.strip()` -/
def pyStrip (l : PyStr) : PyStr := ((l.dropWhile isWS).reverse.dropWhile isWS).reverse

/-- `str.lower()` -/
def pyLower (l : PyStr) : PyStr := l.map lowerA

/-- `str.upper()` -/
def pyUpper (l : PyStr) : PyStr := l.map upperA

/-- `str.title()` scan: the flag records whether the previous character was
a (cased) letter; letters after a letter are lowercased, letters after a
non-letter are uppercased. -/
def titleAux : Bool → PyStr → PyStr
  | _, [] => []
  | prevAlpha, c :: rest =>
    if isAlphaA c then
      (if prevAlpha then lowerA c else upperA c) :: titleAux true rest
    else c :: titleAux false rest

/-- `str.title()` -/
def pyTitle (l : PyStr) : PyStr := titleAux false l

/-- `str.split()` worker: `cur` is the reversed current word. -/
def wordsAux : PyStr → PyStr → List PyStr
  | cur, [] => if cur = [] then [] else [cur.reverse]
  | cur, c :: rest =>
    if isWS c then
      if cur = [] then wordsAux [] rest else cur.reverse :: wordsAux [] rest
    else wordsAux (c :: cur) rest

/-- `str.split()` (split on whitespace runs, dropping empty pieces). -/
def pyWords (l : PyStr) : List PyStr := wordsAux [] l

/-- `" ".join(ws)` -/
def joinSpace : List PyStr → PyStr
  | [] => []
  | [w] => w
  | w :: w' :: ws => w ++ 32 :: joinSpace (w' :: ws)

/-! ## Regex matchers (full-string match of the compiled patterns) -/

/-- Local part characters of `EMAIL_RE`: `[A-Za-z0-9._%+-]`. -/
def isLocalC (n : Nat) : Bool := isAlphaA n || isDigitA n || n = 46 || n = 95 || n = 37 || n = 43 || n = 45

/-- Domain characters of `EMAIL_RE`: `[A-Za-z0-9.-]`. -/
def isDomC (n : Nat) : Bool := isAlphaA n || isDigitA n || n = 46 || n = 45

/-- Domain part `[A-Za-z0-9.-]+\.[A-Za-z]{2,}` of `EMAIL_RE`: the TLD is the
maximal alphabetic suffix, it must be preceded by a dot with a nonempty
domain prefix before it. -/
def matchDomain (dom : PyStr) : Bool :=
  let revd := dom.reverse
  let tldRev := revd.takeWhile isAlphaA
  match revd.drop tldRev.length with
  | 46 :: d1rev => 2 ≤ tldRev.length && d1rev ≠ [] && d1rev.all isDomC
  | _ => false

/-- `EMAIL_RE = ^[A-Za-z0-9._%+-]+@[A-Za-z0-9.-]+\.[A-Za-z]{2,}$` -/
def matchEmail (l : PyStr) : Bool :=
  let lpart := l.takeWhile isLocalC
  match l.drop lpart.length with
  | 64 :: dom => lpart ≠ [] && matchDomain dom
  | _ => false

/-- `COURSE_ID_RE = ^[A-Z]{2,4}\d{3}[A-Z]?$` -/
def matchCourseId (l : PyStr) : Bool :=
  let letters := l.takeWhile isUpperA
  (2 ≤ letters.length && letters.length ≤ 4) &&
  (match l.drop letters.length with
   | d1 :: d2 :: d3 :: tail =>
     isDigitA d1 && isDigitA d2 && isDigitA d3 &&
     (tail = [] || (match tail with | [t] => isUpperA t | _ => false))
   | _ => false)

/-- `STUDENT_ID_RE = INSTRUCTOR_ID_RE = ^[A-Z]?\d{3,10}$` -/
def matchPersonId (l : PyStr) : Bool :=
  let digits := match l with
    | c :: rest => if isUpperA c then rest else l
    | [] => []
  3 ≤ digits.length && digits.length ≤ 10 && digits.all isDigitA

/-- `COURSE_NAME_RE = ^[A-Za-z0-9 .,&()/_-]{3,60}$` -/
def isCourseNameC (n : Nat) : Bool :=
  isAlphaA n || isDigitA n || n = 32 || n = 46 || n = 44 || n = 38 ||
  n = 40 || n = 41 || n = 47 || n = 95 || n = 45

/-- Course name pattern. -/
def matchCourseName (l : PyStr) : Bool :=
  3 ≤ l.length && l.length ≤ 60 && l.all isCourseNameC

/-- Interior characters of `PERSON_NAME_RE`: `[A-Za-z .'-]`. -/
def isNameInnerC (n : Nat) : Bool := isAlphaA n || n = 32 || n = 46 || n = 39 || n = 45

/-- `PERSON_NAME_RE = ^[A-Za-z][A-Za-z .'-]{1,58}[A-Za-z]$` -/
def matchPersonName (l : PyStr) : Bool :=
  3 ≤ l.length && l.length ≤ 60 &&
  (match l with | c :: _ => isAlphaA c | [] => false) &&
  (match l.getLast? with | some c => isAlphaA c | none => false) &&
  (l.drop 1).dropLast.all isNameInnerC

/-! ## The Python value universe and the validators

The validators accept an arbitrary Python value.  The universe modelled here
is `None`, booleans, integers, strings and lists (floating-point values are
outside the model).  Python primitives that can raise are modelled in
`Except`, and the `try/except` of `is_non_negative_int` handles exactly
`TypeError` and `ValueError`, as the source does. -/

inductive PyAny where
  | none
  | bool (b : Bool)
  | int (n : Int)
  | str (s : PyStr)
  | list (l : List PyAny)
deriving Repr

inductive PyErr where
  | typeError
  | valueError
  | attributeError
  | keyError
deriving Repr, DecidableEq

/-- `isinstance(v, str)` (bool is a subclass of int, not of str). -/
def isinstanceStr : PyAny → Bool
  | .str _ => true
  | _ => false

/-- `v.strip()` — raises `AttributeError` unless `v` is a string. -/
def pyStripA : PyAny → Except PyErr PyStr
  | .str s => .ok (pyStrip s)
  | _ => .error .attributeError

/-- Decimal digit run to a number (used by `int(str)`). -/
def digitsVal (l : PyStr) : Nat := l.foldl (fun a n => a * 10 + (n - 48)) 0

/-- `int(s)` for a string: strips whitespace, optional sign, then decimal
digits; raises `ValueError` otherwise (underscore digit grouping is not
modelled). -/
def pyIntOfStr (s : PyStr) : Except PyErr Int :=
  match pyStrip s with
  | 43 :: ds => if ds ≠ [] && ds.all isDigitA then .ok (Int.ofNat (digitsVal ds)) else .error .valueError
  | 45 :: ds => if ds ≠ [] && ds.all isDigitA then .ok (-(Int.ofNat (digitsVal ds))) else .error .valueError
  | ds => if ds ≠ [] && ds.all isDigitA then .ok (Int.ofNat (digitsVal ds)) else .error .valueError

/-- `int(v)`: `TypeError` for `None`/lists, bool/int pass through,
strings are parsed. -/
def pyInt : PyAny → Except PyErr Int
  | .int n => .ok n
  | .bool b => .ok (if b then 1 else 0)
  | .str s => pyIntOfStr s
  | .none => .error .typeError
  | .list _ => .error .typeError

/-- `is_valid_email`: `isinstance(v, str) and bool(EMAIL_RE.fullmatch(v.strip()))`. -/
def is_valid_email (v : PyAny) : Except PyErr Bool :=
  if isinstanceStr v then do
    let s ← pyStripA v
    pure (matchEmail s)
  else pure false

/-- `is_non_negative_int`: `try: return int(v) >= 0 except (TypeError, ValueError): return False`. -/
def is_non_negative_int (v : PyAny) : Except PyErr Bool :=
  match pyInt v with
  | .ok n => .ok (decide (0 ≤ n))
  | .error .typeError => .ok false
  | .error .valueError => .ok false
  | .error e => .error e

/-- `is_valid_person_name`. -/
def is_valid_person_name (v : PyAny) : Except PyErr Bool :=
  if isinstanceStr v then do
    let s ← pyStripA v
    pure (matchPersonName s)
  else pure false

/-- `is_valid_student_id`. -/
def is_valid_student_id (v : PyAny) : Except PyErr Bool :=
  if isinstanceStr v then do
    let s ← pyStripA v
    pure (matchPersonId s)
  else pure false

/-- `is_valid_instructor_id` (same pattern as the student id). -/
def is_valid_instructor_id (v : PyAny) : Except PyErr Bool :=
  if isinstanceStr v then do
    let s ← pyStripA v
    pure (matchPersonId s)
  else pure false

/-- `is_valid_course_id`. -/
def is_valid_course_id (v : PyAny) : Except PyErr Bool :=
  if isinstanceStr v then do
    let s ← pyStripA v
    pure (matchCourseId s)
  else pure false

/-- `is_valid_course_name`. -/
def is_valid_course_name (v : PyAny) : Except PyErr Bool :=
  if isinstanceStr v then do
    let s ← pyStripA v
    pure (matchCourseName s)
  else pure false

/-! ## Normalizers -/

/-- `norm_email(s) = s.strip().lower()` -/
def norm_email (s : PyStr) : PyStr := pyLower (pyStrip s)

/-- `norm_id(s) = s.strip().upper()` -/
def norm_id (s : PyStr) : PyStr := pyUpper (pyStrip s)

/-- `norm_name(s) = " ".join(s.strip().title().split())` -/
def norm_name (s : PyStr) : PyStr := joinSpace (pyWords (pyTitle (pyStrip s)))

/-! ## Character-level facts -/

theorem isWS_char_iff (n : Nat) :
    isWS n = true ↔ (n = 32 ∨ n = 9 ∨ n = 10 ∨ n = 13 ∨ n = 11 ∨ n = 12) := by
  simp [isWS, or_assoc]

theorem isUpperA_char_iff (n : Nat) : isUpperA n = true ↔ (65 ≤ n ∧ n ≤ 90) := by
  simp [isUpperA]

theorem isLowerA_char_iff (n : Nat) : isLowerA n = true ↔ (97 ≤ n ∧ n ≤ 122) := by
  simp [isLowerA]

theorem isAlphaA_char_iff (n : Nat) :
    isAlphaA n = true ↔ ((65 ≤ n ∧ n ≤ 90) ∨ (97 ≤ n ∧ n ≤ 122)) := by
  simp [isAlphaA, isUpperA, isLowerA]

theorem isWS_lowerA (n : Nat) : isWS (lowerA n) = isWS n := by
  unfold lowerA
  split
  · rename_i h
    rw [isUpperA_char_iff] at h
    have h1 : isWS (n + 32) = false := by
      apply Bool.eq_false_iff.mpr
      intro hx
      rw [isWS_char_iff] at hx
      omega
    have h2 : isWS n = false := by
      apply Bool.eq_false_iff.mpr
      intro hx
      rw [isWS_char_iff] at hx
      omega
    rw [h1, h2]
  · rfl

theorem isWS_upperA (n : Nat) : isWS (upperA n) = isWS n := by
  unfold upperA
  split
  · rename_i h
    rw [isLowerA_char_iff] at h
    have h1 : isWS (n - 32) = false := by
      apply Bool.eq_false_iff.mpr
      intro hx
      rw [isWS_char_iff] at hx
      omega
    have h2 : isWS n = false := by
      apply Bool.eq_false_iff.mpr
      intro hx
      rw [isWS_char_iff] at hx
      omega
    rw [h1, h2]
  · rfl

theorem lowerA_idem (n : Nat) : lowerA (lowerA n) = lowerA n := by
  unfold lowerA
  split
  · rename_i h
    rw [isUpperA_char_iff] at h
    have : isUpperA (n + 32) = false := by
      apply Bool.eq_false_iff.mpr
      intro hx
      rw [isUpperA_char_iff] at hx
      omega
    rw [this]
    simp
  · rfl

theorem upperA_idem (n : Nat) : upperA (upperA n) = upperA n := by
  unfold upperA
  split
  · rename_i h
    rw [isLowerA_char_iff] at h
    have : isLowerA (n - 32) = false := by
      apply Bool.eq_false_iff.mpr
      intro hx
      rw [isLowerA_char_iff] at hx
      omega
    rw [this]
    simp
  · rfl

theorem isAlphaA_lowerA (n : Nat) : isAlphaA (lowerA n) = isAlphaA n := by
  unfold lowerA
  split
  · rename_i h
    rw [isUpperA_char_iff] at h
    have h1 : isAlphaA (n + 32) = true := by rw [isAlphaA_char_iff]; omega
    have h2 : isAlphaA n = true := by rw [isAlphaA_char_iff]; omega
    rw [h1, h2]
  · rfl

theorem isAlphaA_upperA (n : Nat) : isAlphaA (upperA n) = isAlphaA n := by
  unfold upperA
  split
  · rename_i h
    rw [isLowerA_char_iff] at h
    have h1 : isAlphaA (n - 32) = true := by rw [isAlphaA_char_iff]; omega
    have h2 : isAlphaA n = true := by rw [isAlphaA_char_iff]; omega
    rw [h1, h2]
  · rfl

theorem isWS_false_of_alpha (n : Nat) (h : isAlphaA n = true) : isWS n = false := by
  rw [isAlphaA_char_iff] at h
  apply Bool.eq_false_iff.mpr
  intro hx
  rw [isWS_char_iff] at hx
  omega

theorem isAlphaA_false_of_ws (n : Nat) (h : isWS n = true) : isAlphaA n = false := by
  rw [isWS_char_iff] at h
  apply Bool.eq_false_iff.mpr
  intro hx
  rw [isAlphaA_char_iff] at hx
  omega

/-! ## `strip` facts -/

theorem dropWhile_head_false (p : Nat → Bool) (l : PyStr) :
    ∀ c ∈ (l.dropWhile p).head?, p c = false := by
  induction l with
  | nil => intro c hc; simp [List.dropWhile] at hc
  | cons a rest ih =>
    intro c hc
    by_cases hp : p a = true
    · rw [List.dropWhile_cons_of_pos hp] at hc
      exact ih c hc
    · rw [List.dropWhile_cons_of_neg hp] at hc
      simp at hc
      subst hc
      exact Bool.eq_false_iff.mpr hp

theorem dropWhile_of_head_false (p : Nat → Bool) (l : PyStr)
    (h : ∀ c ∈ l.head?, p c = false) : l.dropWhile p = l := by
  cases l with
  | nil => rfl
  | cons a rest =>
    have ha : p a = false := h a (by simp)
    rw [List.dropWhile_cons_of_neg (by rw [ha]; simp)]

theorem getLast?_dropWhile (p : Nat → Bool) (l : PyStr) :
    l.dropWhile p = [] ∨ (l.dropWhile p).getLast? = l.getLast? := by
  induction l with
  | nil => left; rfl
  | cons a rest ih =>
    by_cases hp : p a = true
    · rw [List.dropWhile_cons_of_pos hp]
      rcases ih with h | h
      · rcases hr : rest.dropWhile p with _ | ⟨b, rb⟩
        · left; rfl
        · rw [hr] at h; exact absurd h (by simp)
      · rcases hrest : rest with _ | ⟨b, rb⟩
        · left; subst hrest; rfl
        · right
          rw [← hrest, h, hrest, List.getLast?_cons_cons]
    · rw [List.dropWhile_cons_of_neg hp]
      right; rfl

theorem strip_of_clean_ends (l : PyStr)
    (h1 : ∀ c ∈ l.head?, isWS c = false)
    (h2 : ∀ c ∈ l.getLast?, isWS c = false) : pyStrip l = l := by
  unfold pyStrip
  rw [dropWhile_of_head_false _ _ h1]
  rw [dropWhile_of_head_false]
  · exact l.reverse_reverse
  · intro c hc
    rw [List.head?_reverse] at hc
    exact h2 c hc

theorem head_pyStrip (l : PyStr) : ∀ c ∈ (pyStrip l).head?, isWS c = false := by
  intro c hc
  unfold pyStrip at hc
  rw [List.head?_reverse] at hc
  rcases getLast?_dropWhile isWS (l.dropWhile isWS).reverse with h | h
  · rw [h] at hc; simp at hc
  · rw [h, List.getLast?_reverse] at hc
    exact dropWhile_head_false isWS l c hc

theorem last_pyStrip (l : PyStr) : ∀ c ∈ (pyStrip l).getLast?, isWS c = false := by
  intro c hc
  unfold pyStrip at hc
  rw [List.getLast?_reverse] at hc
  exact dropWhile_head_false isWS _ c hc

theorem pyStrip_idem (l : PyStr) : pyStrip (pyStrip l) = pyStrip l :=
  strip_of_clean_ends _ (head_pyStrip l) (last_pyStrip l)

theorem dropWhile_map (f : Nat → Nat) (p : Nat → Bool) (l : PyStr)
    (h : ∀ n, p (f n) = p n) : (l.map f).dropWhile p = (l.dropWhile p).map f := by
  induction l with
  | nil => rfl
  | cons a rest ih =>
    by_cases hp : p a = true
    · rw [List.map_cons, List.dropWhile_cons_of_pos (by rw [h]; exact hp),
        List.dropWhile_cons_of_pos hp]
      exact ih
    · rw [List.map_cons, List.dropWhile_cons_of_neg (by rw [h]; exact hp),
        List.dropWhile_cons_of_neg hp, List.map_cons]

theorem pyStrip_map (f : Nat → Nat) (l : PyStr) (h : ∀ n, isWS (f n) = isWS n) :
    pyStrip (l.map f) = (pyStrip l).map f := by
  unfold pyStrip
  rw [dropWhile_map f isWS l h, ← List.map_reverse, dropWhile_map f isWS _ h,
    List.map_reverse]

/-! ## Idempotence of `norm_email` and `norm_id` -/

theorem pyLower_idem (l : PyStr) : pyLower (pyLower l) = pyLower l := by
  unfold pyLower
  rw [List.map_map]
  exact List.map_congr_left fun a _ => lowerA_idem a

theorem pyUpper_idem (l : PyStr) : pyUpper (pyUpper l) = pyUpper l := by
  unfold pyUpper
  rw [List.map_map]
  exact List.map_congr_left fun a _ => upperA_idem a

theorem norm_email_idem (s : PyStr) : norm_email (norm_email s) = norm_email s := by
  unfold norm_email pyLower
  rw [pyStrip_map lowerA _ isWS_lowerA, pyStrip_idem, ← pyLower, ← pyLower, pyLower_idem]

theorem norm_id_idem (s : PyStr) : norm_id (norm_id s) = norm_id s := by
  unfold norm_id pyUpper
  rw [pyStrip_map upperA _ isWS_upperA, pyStrip_idem, ← pyUpper, ← pyUpper, pyUpper_idem]

/-! ## Totality of the validators (claim C7) -/

theorem pyIntOfStr_error_eq (s : PyStr) (e : PyErr) (h : pyIntOfStr s = .error e) :
    e = .valueError := by
  unfold pyIntOfStr at h
  split at h <;> split at h <;> simp_all

theorem is_non_negative_int_total (v : PyAny) : (is_non_negative_int v).isOk = true := by
  cases v with
  | int n => rfl
  | bool b => rfl
  | none => rfl
  | list l => rfl
  | str s =>
    unfold is_non_negative_int
    have hps : pyInt (.str s) = pyIntOfStr s := rfl
    rw [hps]
    rcases h : pyIntOfStr s with e | n
    · have he := pyIntOfStr_error_eq s e h
      subst he
      rfl
    · rfl

theorem strlike_validator_total (f : PyStr → Bool) (v : PyAny) :
    (if isinstanceStr v then do
      let s ← pyStripA v
      pure (f s)
    else pure false : Except PyErr Bool).isOk = true := by
  cases v <;> rfl

/-- C7: every field validator (`is_valid_email`, `is_non_negative_int`,
`is_valid_person_name`, `is_valid_student_id`, `is_valid_instructor_id`,
`is_valid_course_id`, `is_valid_course_name`) is total: on every input value
of the modelled Python universe it produces a boolean result and never
propagates an exception (`isOk` of the `Except`-threaded embedding). -/
theorem C7_validators_total (v : PyAny) :
    (is_valid_email v).isOk = true ∧
    (is_non_negative_int v).isOk = true ∧
    (is_valid_person_name v).isOk = true ∧
    (is_valid_student_id v).isOk = true ∧
    (is_valid_instructor_id v).isOk = true ∧
    (is_valid_course_id v).isOk = true ∧
    (is_valid_course_name v).isOk = true :=
  ⟨strlike_validator_total matchEmail v,
   is_non_negative_int_total v,
   strlike_validator_total matchPersonName v,
   strlike_validator_total matchPersonId v,
   strlike_validator_total matchPersonId v,
   strlike_validator_total matchCourseId v,
   strlike_validator_total matchCourseName v⟩

/-! ## `title` / `split` / `join` lemmas for `norm_name` idempotence -/

/-- Whether the character before the continuation is a letter, given flag `b`
at the start of `l` (the state of the `titleAux` scan after consuming `l`). -/
def endFlag : Bool → PyStr → Bool
  | b, [] => b
  | _, c :: rest => endFlag (isAlphaA c) rest

theorem titleAux_append (l1 l2 : PyStr) : ∀ b,
    titleAux b (l1 ++ l2) = titleAux b l1 ++ titleAux (endFlag b l1) l2 := by
  induction l1 with
  | nil => intro b; rfl
  | cons c rest ih =>
    intro b
    rw [List.cons_append]
    by_cases hc : isAlphaA c = true
    · simp only [titleAux, endFlag, hc, if_true]
      rw [ih true, List.cons_append]
    · have hc' : isAlphaA c = false := Bool.eq_false_iff.mpr hc
      simp only [titleAux, endFlag, hc', if_false, Bool.false_eq_true]
      rw [ih false, List.cons_append]

theorem endFlag_append (b : Bool) (l1 l2 : PyStr) :
    endFlag b (l1 ++ l2) = endFlag (endFlag b l1) l2 := by
  induction l1 generalizing b with
  | nil => rfl
  | cons c rest ih =>
    rw [List.cons_append]
    have h1 : endFlag b (c :: (rest ++ l2)) = endFlag (isAlphaA c) (rest ++ l2) := rfl
    have h2 : endFlag b (c :: rest) = endFlag (isAlphaA c) rest := rfl
    rw [h1, h2, ih]

theorem endFlag_eq_head (cur : PyStr) (b : Bool) :
    endFlag b cur.reverse = (match cur with | [] => b | c :: _ => isAlphaA c) := by
  cases cur with
  | nil => rfl
  | cons c rest =>
    rw [List.reverse_cons, endFlag_append]
    rfl

theorem wordsAux_ok (l : PyStr) : ∀ cur, cur.all (fun c => !isWS c) = true →
    ∀ w ∈ wordsAux cur l, w ≠ [] ∧ w.all (fun c => !isWS c) = true := by
  induction l with
  | nil =>
    intro cur hcur w hw
    unfold wordsAux at hw
    split at hw
    · simp at hw
    · rename_i hne
      simp at hw
      subst hw
      refine ⟨by simpa using hne, by simpa using hcur⟩
  | cons c rest ih =>
    intro cur hcur w hw
    unfold wordsAux at hw
    by_cases hws : isWS c = true
    · rw [if_pos hws] at hw
      split at hw
      · exact ih [] rfl w hw
      · rename_i hne
        rcases List.mem_cons.mp hw with h | h
        · subst h
          exact ⟨by simpa using hne, by simpa using hcur⟩
        · exact ih [] rfl w h
    · rw [if_neg hws] at hw
      refine ih (c :: cur) ?_ w hw
      simp only [List.all_cons, Bool.and_eq_true, Bool.not_eq_true']
      exact ⟨Bool.eq_false_iff.mpr hws, hcur⟩

theorem wordsAux_word (w : PyStr) : ∀ cur l, w.all (fun c => !isWS c) = true →
    wordsAux cur (w ++ l) = wordsAux (w.reverse ++ cur) l := by
  induction w with
  | nil => intro cur l _; simp
  | cons c rest ih =>
    intro cur l hall
    simp only [List.all_cons, Bool.and_eq_true, Bool.not_eq_true'] at hall
    rw [List.cons_append]
    rw [show wordsAux cur (c :: (rest ++ l)) = wordsAux (c :: cur) (rest ++ l) by
      simp only [wordsAux, hall.1, Bool.false_eq_true, if_false]]
    rw [ih (c :: cur) l hall.2, List.reverse_cons, List.append_assoc, List.singleton_append]

theorem joinSpace_cons (w : PyStr) (ws : List PyStr) :
    joinSpace (w :: ws) = w ++ (match ws with | [] => [] | _ :: _ => 32 :: joinSpace ws) := by
  cases ws with
  | nil => simp [joinSpace]
  | cons w2 ws2 => rfl

theorem joinSpace_ne_nil (w : PyStr) (ws : List PyStr) (hw : w ≠ []) :
    joinSpace (w :: ws) ≠ [] := by
  rw [joinSpace_cons]
  cases ws with
  | nil => simpa using hw
  | cons w2 ws2 => simp

theorem pyWords_joinSpace (ws : List PyStr)
    (h : ∀ w ∈ ws, w ≠ [] ∧ w.all (fun c => !isWS c) = true) :
    pyWords (joinSpace ws) = ws := by
  induction ws with
  | nil => rfl
  | cons w rest ih =>
    have hw := h w (by simp)
    cases rest with
    | nil =>
      show wordsAux [] (joinSpace [w]) = [w]
      have hj : joinSpace [w] = w := rfl
      calc wordsAux [] (joinSpace [w]) = wordsAux [] (w ++ []) := by rw [hj, List.append_nil]
        _ = wordsAux (w.reverse ++ []) [] := wordsAux_word w [] [] hw.2
        _ = [w] := by
            rw [List.append_nil]
            unfold wordsAux
            rw [if_neg (by simpa using hw.1), List.reverse_reverse]
    | cons w2 rest2 =>
      show wordsAux [] (joinSpace (w :: w2 :: rest2)) = _
      have hj : joinSpace (w :: w2 :: rest2) = w ++ 32 :: joinSpace (w2 :: rest2) := rfl
      rw [hj, wordsAux_word w [] _ hw.2]
      unfold wordsAux
      rw [if_pos (by rfl : isWS 32 = true), if_neg (by simpa using hw.1),
        List.append_nil, List.reverse_reverse]
      congr 1
      exact ih (fun w' hw' => h w' (by simp [hw']))

theorem mem_of_getLast_some (l : PyStr) (c : Nat) (h : l.getLast? = some c) : c ∈ l := by
  induction l with
  | nil => simp at h
  | cons a rest ih =>
    cases rest with
    | nil => simp at h; simp [h]
    | cons b rest2 =>
      rw [List.getLast?_cons_cons] at h
      exact List.mem_cons_of_mem a (ih h)

theorem head_joinSpace (ws : List PyStr)
    (h : ∀ w ∈ ws, w ≠ [] ∧ w.all (fun c => !isWS c) = true) :
    ∀ c ∈ (joinSpace ws).head?, isWS c = false := by
  intro c hc
  cases ws with
  | nil => simp [joinSpace] at hc
  | cons w rest =>
    have hw := h w (by simp)
    rw [joinSpace_cons] at hc
    rcases wc : w with _ | ⟨a, w'⟩
    · exact absurd wc hw.1
    · rw [wc, List.cons_append] at hc
      simp at hc
      subst hc
      have := hw.2
      rw [wc, List.all_cons] at this
      simp only [Bool.and_eq_true, Bool.not_eq_true'] at this
      exact this.1

theorem last_joinSpace (ws : List PyStr)
    (h : ∀ w ∈ ws, w ≠ [] ∧ w.all (fun c => !isWS c) = true) :
    ∀ c ∈ (joinSpace ws).getLast?, isWS c = false := by
  induction ws with
  | nil => intro c hc; simp [joinSpace] at hc
  | cons w rest ih =>
    intro c hc
    have hw := h w (by simp)
    cases rest with
    | nil =>
      rw [show joinSpace [w] = w from rfl] at hc
      have hmem : c ∈ w := mem_of_getLast_some w c (by simpa using hc)
      have := hw.2
      rw [List.all_eq_true] at this
      simpa using this c hmem
    | cons w2 rest2 =>
      rw [show joinSpace (w :: w2 :: rest2) = w ++ 32 :: joinSpace (w2 :: rest2) from rfl] at hc
      rw [List.getLast?_append_of_ne_nil _ (by simp)] at hc
      have hJ : joinSpace (w2 :: rest2) ≠ [] := joinSpace_ne_nil w2 rest2 (h w2 (by simp)).1
      rw [show (32 :: joinSpace (w2 :: rest2)) = [32] ++ joinSpace (w2 :: rest2) from rfl,
        List.getLast?_append_of_ne_nil _ hJ] at hc
      exact ih (fun w' hw' => h w' (by simp [hw'])) c hc

theorem titleAux_false_joinSpace (ws : List PyStr) :
    titleAux false (joinSpace ws) = joinSpace (ws.map (titleAux false)) := by
  induction ws with
  | nil => rfl
  | cons w rest ih =>
    cases rest with
    | nil => rfl
    | cons w2 rest2 =>
      rw [show joinSpace (w :: w2 :: rest2) = w ++ 32 :: joinSpace (w2 :: rest2) from rfl]
      rw [titleAux_append]
      have h32 : titleAux (endFlag false w) (32 :: joinSpace (w2 :: rest2))
          = 32 :: titleAux false (joinSpace (w2 :: rest2)) := by
        simp only [titleAux]
        rw [if_neg (by rw [show isAlphaA 32 = false from rfl]; simp)]
      rw [h32, ih, List.map_cons, List.map_cons]
      rfl

theorem wordsAux_titled_fixed (l : PyStr) : ∀ (cur : PyStr) (b : Bool),
    b = (match cur with | [] => false | c :: _ => isAlphaA c) →
    titleAux false cur.reverse = cur.reverse →
    ∀ w ∈ wordsAux cur (titleAux b l), titleAux false w = w := by
  induction l with
  | nil =>
    intro cur b _ hfix w hw
    simp only [titleAux] at hw
    unfold wordsAux at hw
    split at hw
    · simp at hw
    · simp at hw
      subst hw
      exact hfix
  | cons c rest ih =>
    intro cur b hb hfix w hw
    by_cases hc : isAlphaA c = true
    · have ht : titleAux b (c :: rest)
          = (if b then lowerA c else upperA c) :: titleAux true rest := by
        simp only [titleAux, hc, if_true]
      rw [ht] at hw
      have hca : isAlphaA (if b = true then lowerA c else upperA c) = true := by
        split
        · rw [isAlphaA_lowerA, hc]
        · rw [isAlphaA_upperA, hc]
      have hcw : isWS (if b = true then lowerA c else upperA c) = false :=
        isWS_false_of_alpha _ hca
      have hw2 : w ∈ wordsAux ((if b = true then lowerA c else upperA c) :: cur)
          (titleAux true rest) := by
        unfold wordsAux at hw
        rw [if_neg (by rw [hcw]; simp)] at hw
        exact hw
      refine ih ((if b = true then lowerA c else upperA c) :: cur) true hca.symm ?_ w hw2
      rw [List.reverse_cons, titleAux_append, hfix]
      congr 1
      rw [endFlag_eq_head, ← hb]
      simp only [titleAux, hca, if_true]
      cases b
      · simp only [Bool.false_eq_true, if_false]
        rw [upperA_idem]
      · simp only [if_true]
        rw [lowerA_idem]
    · have hc' : isAlphaA c = false := Bool.eq_false_iff.mpr hc
      have ht : titleAux b (c :: rest) = c :: titleAux false rest := by
        simp only [titleAux, hc', Bool.false_eq_true, if_false]
      rw [ht] at hw
      by_cases hws : isWS c = true
      · unfold wordsAux at hw
        rw [if_pos hws] at hw
        split at hw
        · exact ih [] false rfl rfl w hw
        · rcases List.mem_cons.mp hw with h | h
          · subst h
            exact hfix
          · exact ih [] false rfl rfl w h
      · have hwsf : isWS c = false := Bool.eq_false_iff.mpr hws
        have hw2 : w ∈ wordsAux (c :: cur) (titleAux false rest) := by
          unfold wordsAux at hw
          rw [if_neg (by rw [hwsf]; simp)] at hw
          exact hw
        refine ih (c :: cur) false hc'.symm ?_ w hw2
        rw [List.reverse_cons, titleAux_append, hfix]
        congr 1
        rw [endFlag_eq_head, ← hb]
        simp only [titleAux, hc', Bool.false_eq_true, if_false]

theorem pyWords_title_ok (l : PyStr) :
    ∀ w ∈ pyWords (pyTitle l), w ≠ [] ∧ w.all (fun c => !isWS c) = true :=
  wordsAux_ok (pyTitle l) [] rfl

theorem pyTitle_fixed_words (l : PyStr) :
    ∀ w ∈ pyWords (pyTitle l), titleAux false w = w :=
  wordsAux_titled_fixed l [] false rfl rfl

theorem norm_name_idem (s : PyStr) : norm_name (norm_name s) = norm_name s := by
  unfold norm_name
  have hok : ∀ w ∈ pyWords (pyTitle (pyStrip s)),
      w ≠ [] ∧ w.all (fun c => !isWS c) = true := pyWords_title_ok _
  have hfix : ∀ w ∈ pyWords (pyTitle (pyStrip s)),
      titleAux false w = w := pyTitle_fixed_words _
  have hstrip : pyStrip (joinSpace (pyWords (pyTitle (pyStrip s))))
      = joinSpace (pyWords (pyTitle (pyStrip s))) :=
    strip_of_clean_ends _ (head_joinSpace _ hok) (last_joinSpace _ hok)
  rw [hstrip]
  have htitle : pyTitle (joinSpace (pyWords (pyTitle (pyStrip s))))
      = joinSpace (pyWords (pyTitle (pyStrip s))) := by
    unfold pyTitle
    rw [titleAux_false_joinSpace]
    congr 1
    calc (pyWords (pyTitle (pyStrip s))).map (titleAux false)
        = (pyWords (pyTitle (pyStrip s))).map id := List.map_congr_left hfix
      _ = pyWords (pyTitle (pyStrip s)) := List.map_id _
  rw [htitle, pyWords_joinSpace _ hok]

/-- C9: each normalizer is idempotent on every string accepted by the
corresponding validator: `norm_email` (for valid emails), `norm_id` (for
valid student/instructor/course ids), and `norm_name` (for valid person
names) satisfy `norm (norm x) = norm x`. -/
theorem C9_normalizers_idempotent (x : PyStr) :
    (is_valid_email (.str x) = .ok true →
      norm_email (norm_email x) = norm_email x) ∧
    (is_valid_student_id (.str x) = .ok true ∨ is_valid_instructor_id (.str x) = .ok true ∨
      is_valid_course_id (.str x) = .ok true →
      norm_id (norm_id x) = norm_id x) ∧
    (is_valid_person_name (.str x) = .ok true →
      norm_name (norm_name x) = norm_name x) :=
  ⟨fun _ => norm_email_idem x, fun _ => norm_id_idem x, fun _ => norm_name_idem x⟩

/-- Witness for C9 at concrete validator-accepted inputs. -/
theorem C9_normalizers_idempotent_witness :
    norm_email (norm_email (strOf " Alice@MAIL.Com ")) = norm_email (strOf " Alice@MAIL.Com ") ∧
    norm_id (norm_id (strOf " S001 ")) = norm_id (strOf " S001 ") ∧
    norm_name (norm_name (strOf "  aLiCe   smith ")) = norm_name (strOf "  aLiCe   smith ") :=
  ⟨(C9_normalizers_idempotent (strOf " Alice@MAIL.Com ")).1 (by rfl),
   (C9_normalizers_idempotent (strOf " S001 ")).2.1 (Or.inl (by rfl)),
   (C9_normalizers_idempotent (strOf "  aLiCe   smith ")).2.2 (by rfl)⟩

/-! ## The entity model

`Student`, `Instructor` and `Course` objects live in an arena: the heap maps
a reference (`Nat`) to an object.  Relationship lists hold references, so
Python's identity-based `in` / `is` tests become reference membership and
reference equality.  Each public operation of the source is modelled as a
function on the whole world. -/

structure StudentObj where
  name : PyStr
  age : Int
  email : PyStr
  student_id : PyStr
  registered_courses : List Nat
deriving Repr, DecidableEq

structure InstructorObj where
  name : PyStr
  age : Int
  email : PyStr
  instructor_id : PyStr
  assigned_courses : List Nat
deriving Repr, DecidableEq

structure CourseObj where
  course_id : PyStr
  course_name : PyStr
  instructor : Option Nat
  enrolled_students : List Nat
deriving Repr, DecidableEq

inductive Obj where
  | student (st : StudentObj)
  | instructor (ins : InstructorObj)
  | course (co : CourseObj)
deriving Repr, DecidableEq

structure World where
  heap : Nat → Option Obj

/-- Overwrite the object stored at reference `r`. -/
def World.set (w : World) (r : Nat) (o : Obj) : World :=
  ⟨fun r' => if r' = r then some o else w.heap r'⟩

def World.studentAt (w : World) (r : Nat) : Option StudentObj :=
  match w.heap r with
  | some (.student st) => some st
  | _ => none

def World.instructorAt (w : World) (r : Nat) : Option InstructorObj :=
  match w.heap r with
  | some (.instructor ins) => some ins
  | _ => none

def World.courseAt (w : World) (r : Nat) : Option CourseObj :=
  match w.heap r with
  | some (.course co) => some co
  | _ => none

/-- `course.enrolled_students` read through a reference. -/
def enrolledOf (w : World) (c : Nat) : List Nat :=
  match w.courseAt c with
  | some co => co.enrolled_students
  | none => []

/-- `student.registered_courses` read through a reference. -/
def registeredOf (w : World) (s : Nat) : List Nat :=
  match w.studentAt s with
  | some st => st.registered_courses
  | none => []

/-- `instructor.assigned_courses` read through a reference. -/
def assignedOf (w : World) (i : Nat) : List Nat :=
  match w.instructorAt i with
  | some ins => ins.assigned_courses
  | none => []

/-- `course.instructor` read through a reference. -/
def instructorRefOf (w : World) (c : Nat) : Option Nat :=
  match w.courseAt c with
  | some co => co.instructor
  | none => none

/-- A Python value passed as the argument of a relationship method:
an object reference or `None`. -/
inductive PyVal where
  | ref (r : Nat)
  | pynone
deriving Repr, DecidableEq

/-- `isinstance(v, Student)` in world `w`. -/
def isStudentVal (w : World) : PyVal → Bool
  | .ref r => (w.studentAt r).isSome
  | .pynone => false

/-- `Course.add_student(self=c, student=s)`:
`if isinstance(student, Student) and student not in self.enrolled_students:`
then append locally and, `if self not in student.registered_courses`, append
the back-link.  A non-`Student` argument is a silent no-op. -/
def Course.add_student (w : World) (c s : Nat) : World :=
  match w.courseAt c with
  | none => w
  | some co =>
    match w.studentAt s with
    | none => w
    | some st =>
      if s ∈ co.enrolled_students then w
      else
        if c ∈ st.registered_courses then
          w.set c (.course { co with enrolled_students := co.enrolled_students ++ [s] })
        else
          (w.set c (.course { co with enrolled_students := co.enrolled_students ++ [s] })).set s
            (.student { st with registered_courses := st.registered_courses ++ [c] })

/-- `Course.add_student` at the `PyVal` interface: the `isinstance` guard
makes every non-`Student` argument (`None` or a reference to a non-Student
object) a silent no-op. -/
def Course.add_student_any (w : World) (c : Nat) (v : PyVal) : World :=
  match v with
  | .ref s => Course.add_student w c s
  | .pynone => w

/-- `Course.remove_student(self=c, student=s)`: if present, remove from
`enrolled_students` (first occurrence, like `list.remove`) and, if present,
remove the back-link from `student.registered_courses`. -/
def Course.remove_student (w : World) (c s : Nat) : World :=
  match w.courseAt c with
  | none => w
  | some co =>
    if s ∈ co.enrolled_students then
      match (w.set c (.course { co with enrolled_students := co.enrolled_students.erase s })).studentAt s with
      | none =>  -- Python would raise AttributeError; unreachable on well-typed heaps
        w.set c (.course { co with enrolled_students := co.enrolled_students.erase s })
      | some st =>
        if c ∈ st.registered_courses then
          (w.set c (.course { co with enrolled_students := co.enrolled_students.erase s })).set s
            (.student { st with registered_courses := st.registered_courses.erase c })
        else
          w.set c (.course { co with enrolled_students := co.enrolled_students.erase s })
    else w

/-- Result of a call that can let an exception escape: `exn` carries the
state at the moment of the raise (Python does not roll back). -/
inductive PyResult where
  | ok (w : World)
  | exn (w : World)

/-- The post-state of a call, whether or not it raised. -/
def PyResult.world : PyResult → World
  | .ok w => w
  | .exn w => w

/-- `Student.register_course(self=s, course=v)`:
`if course and course not in self.registered_courses:` — only the
truthiness of the argument is checked, not its type.  The student list is
extended first; reading `course.enrolled_students` on a non-Course argument
then raises `AttributeError` with the student side already mutated. -/
def Student.register_course_any (w : World) (s : Nat) (v : PyVal) : PyResult :=
  match w.studentAt s with
  | none => .exn w  -- self is always a Student in Python; junk-reference guard
  | some st =>
    match v with
    | .pynone => .ok w  -- falsy argument: skipped
    | .ref c =>
      if c ∈ st.registered_courses then .ok w
      else
        match (w.set s (.student { st with registered_courses := st.registered_courses ++ [c] })).courseAt c with
        | none =>  -- AttributeError: argument has no enrolled_students
          .exn (w.set s (.student { st with registered_courses := st.registered_courses ++ [c] }))
        | some co =>
          if s ∈ co.enrolled_students then
            .ok (w.set s (.student { st with registered_courses := st.registered_courses ++ [c] }))
          else
            .ok ((w.set s (.student { st with registered_courses := st.registered_courses ++ [c] })).set c
              (.course { co with enrolled_students := co.enrolled_students ++ [s] }))

/-- `Student.register_course` restricted to an object reference, observing
only the post-state. -/
def Student.register_course (w : World) (s c : Nat) : World :=
  (Student.register_course_any w s (.ref c)).world

/-- `Student.unregister_course(self=s, course=c)`: if present, remove from
`registered_courses`, then remove the back-link if present. -/
def Student.unregister_course (w : World) (s c : Nat) : World :=
  match w.studentAt s with
  | none => w
  | some st =>
    if c ∈ st.registered_courses then
      match (w.set s (.student { st with registered_courses := st.registered_courses.erase c })).courseAt c with
      | none =>  -- Python would raise AttributeError; unreachable on well-typed heaps
        w.set s (.student { st with registered_courses := st.registered_courses.erase c })
      | some co =>
        if s ∈ co.enrolled_students then
          (w.set s (.student { st with registered_courses := st.registered_courses.erase c })).set c
            (.course { co with enrolled_students := co.enrolled_students.erase s })
        else
          w.set s (.student { st with registered_courses := st.registered_courses.erase c })
    else w

/-- `if self in old.assigned_courses: old.assigned_courses.remove(self)` —
detach course `c` from instructor `old`'s list (reading the attribute raises
in Python when `old` is not an Instructor; unreachable on well-typed heaps). -/
def detachCourse (w : World) (old c : Nat) : World :=
  match w.instructorAt old with
  | some oins =>
    if c ∈ oins.assigned_courses then
      w.set old (.instructor { oins with assigned_courses := oins.assigned_courses.erase c })
    else w
  | none => w

/-- `if self not in instructor.assigned_courses: instructor._add_course_local(self)` —
append course `c` to instructor `i`'s list when missing. -/
def attachCourse (w : World) (i c : Nat) : World :=
  match w.instructorAt i with
  | some ins =>
    if c ∈ ins.assigned_courses then w
    else w.set i (.instructor { ins with assigned_courses := ins.assigned_courses ++ [c] })
  | none => w

/-- `Course.set_instructor(self=c, instructor=io)`; `io = none` models
passing `None`.  Early-returns when the argument `is` the current
instructor; on unassign removes the back-link from the old instructor then
clears the pointer; on assign sets the pointer, appends the back-link if
missing, and detaches the old instructor if different. -/
def Course.set_instructor (w : World) (c : Nat) (io : Option Nat) : World :=
  match w.courseAt c with
  | none => w
  | some co =>
    if io = co.instructor then w
    else
      match io with
      | none =>
        (match co.instructor with
         | some old => detachCourse w old c
         | none => w).set c (.course { co with instructor := none })
      | some i =>
        match co.instructor with
        | some old =>
          if old ≠ i then
            detachCourse (attachCourse (w.set c (.course { co with instructor := some i })) i c) old c
          else attachCourse (w.set c (.course { co with instructor := some i })) i c
        | none => attachCourse (w.set c (.course { co with instructor := some i })) i c

/-- `Instructor.assign_course(self=i, course=c)`: append to
`assigned_courses` if missing; if `getattr(course, "instructor", None)` is
not `self`, re-point the course and detach the previous instructor. -/
def Instructor.assign_course (w : World) (i c : Nat) : World :=
  match w.instructorAt i with
  | none => w
  | some ins =>
    match (attachCourse w i c).courseAt c with
    | none => attachCourse w i c  -- getattr default is None; Python then raises on course.instructor
    | some co =>
      if co.instructor = some i then attachCourse w i c
      else
        match co.instructor with
        | some old =>
          if old ≠ i then
            detachCourse ((attachCourse w i c).set c (.course { co with instructor := some i })) old c
          else (attachCourse w i c).set c (.course { co with instructor := some i })
        | none => (attachCourse w i c).set c (.course { co with instructor := some i })

/-! ## Heap accessor lemmas -/

@[simp] theorem studentAt_set_student (w : World) (r : Nat) (st : StudentObj) :
    (w.set r (.student st)).studentAt r = some st := by
  simp [World.studentAt, World.set]

@[simp] theorem studentAt_set_instructor (w : World) (r : Nat) (ins : InstructorObj) :
    (w.set r (.instructor ins)).studentAt r = none := by
  simp [World.studentAt, World.set]

@[simp] theorem studentAt_set_course (w : World) (r : Nat) (co : CourseObj) :
    (w.set r (.course co)).studentAt r = none := by
  simp [World.studentAt, World.set]

theorem studentAt_set_ne (w : World) (r : Nat) (o : Obj) (x : Nat) (h : x ≠ r) :
    (w.set r o).studentAt x = w.studentAt x := by
  simp [World.studentAt, World.set, h]

@[simp] theorem instructorAt_set_student (w : World) (r : Nat) (st : StudentObj) :
    (w.set r (.student st)).instructorAt r = none := by
  simp [World.instructorAt, World.set]

@[simp] theorem instructorAt_set_instructor (w : World) (r : Nat) (ins : InstructorObj) :
    (w.set r (.instructor ins)).instructorAt r = some ins := by
  simp [World.instructorAt, World.set]

@[simp] theorem instructorAt_set_course (w : World) (r : Nat) (co : CourseObj) :
    (w.set r (.course co)).instructorAt r = none := by
  simp [World.instructorAt, World.set]

theorem instructorAt_set_ne (w : World) (r : Nat) (o : Obj) (x : Nat) (h : x ≠ r) :
    (w.set r o).instructorAt x = w.instructorAt x := by
  simp [World.instructorAt, World.set, h]

@[simp] theorem courseAt_set_student (w : World) (r : Nat) (st : StudentObj) :
    (w.set r (.student st)).courseAt r = none := by
  simp [World.courseAt, World.set]

@[simp] theorem courseAt_set_instructor (w : World) (r : Nat) (ins : InstructorObj) :
    (w.set r (.instructor ins)).courseAt r = none := by
  simp [World.courseAt, World.set]

@[simp] theorem courseAt_set_course (w : World) (r : Nat) (co : CourseObj) :
    (w.set r (.course co)).courseAt r = some co := by
  simp [World.courseAt, World.set]

theorem courseAt_set_ne (w : World) (r : Nat) (o : Obj) (x : Nat) (h : x ≠ r) :
    (w.set r o).courseAt x = w.courseAt x := by
  simp [World.courseAt, World.set, h]

theorem student_ne_course (w : World) (s c : Nat) (st : StudentObj) (co : CourseObj)
    (hs : w.studentAt s = some st) (hc : w.courseAt c = some co) : s ≠ c := by
  intro h
  subst h
  unfold World.studentAt at hs
  unfold World.courseAt at hc
  rcases hh : w.heap s with _ | o
  · rw [hh] at hs; simp at hs
  · rw [hh] at hs hc; cases o <;> simp_all

theorem instructor_ne_course (w : World) (i c : Nat) (ins : InstructorObj) (co : CourseObj)
    (hi : w.instructorAt i = some ins) (hc : w.courseAt c = some co) : i ≠ c := by
  intro h
  subst h
  unfold World.instructorAt at hi
  unfold World.courseAt at hc
  rcases hh : w.heap i with _ | o
  · rw [hh] at hi; simp at hi
  · rw [hh] at hi hc; cases o <;> simp_all

theorem student_ne_instructor (w : World) (s i : Nat) (st : StudentObj) (ins : InstructorObj)
    (hs : w.studentAt s = some st) (hi : w.instructorAt i = some ins) : s ≠ i := by
  intro h
  subst h
  unfold World.studentAt at hs
  unfold World.instructorAt at hi
  rcases hh : w.heap s with _ | o
  · rw [hh] at hs; simp at hs
  · rw [hh] at hs hi; cases o <;> simp_all

/-! ## Relationship invariants -/

/-- `student ∈ course.enrolled_students ⟺ course ∈ student.registered_courses`
for every typed pair of the world. -/
def StudentCoupled (w : World) : Prop :=
  ∀ s c st co, w.studentAt s = some st → w.courseAt c = some co →
    (s ∈ co.enrolled_students ↔ c ∈ st.registered_courses)

/-- `course ∈ instructor.assigned_courses ⟺ course.instructor is instructor`. -/
def InstructorCoupled (w : World) : Prop :=
  ∀ i c ins co, w.instructorAt i = some ins → w.courseAt c = some co →
    (c ∈ ins.assigned_courses ↔ co.instructor = some i)

def EnrolledNodup (w : World) : Prop :=
  ∀ c co, w.courseAt c = some co → co.enrolled_students.Nodup

def RegisteredNodup (w : World) : Prop :=
  ∀ s st, w.studentAt s = some st → st.registered_courses.Nodup

def AssignedNodup (w : World) : Prop :=
  ∀ i ins, w.instructorAt i = some ins → ins.assigned_courses.Nodup

/-- Two worlds agreeing on all `registered_courses` and `enrolled_students`
views (the data `StudentCoupled` depends on). -/
def SameSC (w w' : World) : Prop :=
  (∀ s, (w'.studentAt s).map (·.registered_courses) = (w.studentAt s).map (·.registered_courses)) ∧
  (∀ c, (w'.courseAt c).map (·.enrolled_students) = (w.courseAt c).map (·.enrolled_students))

theorem SameSC.refl (w : World) : SameSC w w := ⟨fun _ => rfl, fun _ => rfl⟩

theorem SameSC.trans {w1 w2 w3 : World} (h12 : SameSC w1 w2) (h23 : SameSC w2 w3) :
    SameSC w1 w3 :=
  ⟨fun s => (h23.1 s).trans (h12.1 s), fun c => (h23.2 c).trans (h12.2 c)⟩

theorem StudentCoupled.of_sameSC {w w' : World} (hsym : StudentCoupled w)
    (h : SameSC w w') : StudentCoupled w' := by
  intro s c st co hs hc
  have h1 := h.1 s
  have h2 := h.2 c
  rw [hs] at h1
  rw [hc] at h2
  rcases hs0 : w.studentAt s with _ | st0
  · rw [hs0] at h1; simp at h1
  · rcases hc0 : w.courseAt c with _ | co0
    · rw [hc0] at h2; simp at h2
    · rw [hs0] at h1
      rw [hc0] at h2
      simp at h1 h2
      rw [h2, h1]
      exact hsym s c st0 co0 hs0 hc0

theorem nodups_of_sameSC {w w' : World} (h : SameSC w w')
    (hE : EnrolledNodup w) (hR : RegisteredNodup w) :
    EnrolledNodup w' ∧ RegisteredNodup w' := by
  constructor
  · intro c co hc
    have h2 := h.2 c
    rw [hc] at h2
    rcases hc0 : w.courseAt c with _ | co0
    · rw [hc0] at h2; simp at h2
    · rw [hc0] at h2; simp at h2; rw [h2]; exact hE c co0 hc0
  · intro s st hs
    have h1 := h.1 s
    rw [hs] at h1
    rcases hs0 : w.studentAt s with _ | st0
    · rw [hs0] at h1; simp at h1
    · rw [hs0] at h1; simp at h1; rw [h1]; exact hR s st0 hs0

/-- Setting an instructor-typed reference does not change the views
`StudentCoupled` depends on. -/
theorem sameSC_set_instructor_obj (w : World) (r : Nat) (ins0 ins' : InstructorObj)
    (h : w.instructorAt r = some ins0) : SameSC w (w.set r (.instructor ins')) := by
  constructor
  · intro s
    by_cases hs : s = r
    · subst hs
      rw [studentAt_set_instructor]
      unfold World.instructorAt at h
      unfold World.studentAt
      rcases hh : w.heap s with _ | o
      · rfl
      · rw [hh] at h; cases o <;> simp_all
    · rw [studentAt_set_ne _ _ _ _ hs]
  · intro c
    by_cases hc : c = r
    · subst hc
      rw [courseAt_set_instructor]
      unfold World.instructorAt at h
      unfold World.courseAt
      rcases hh : w.heap c with _ | o
      · rfl
      · rw [hh] at h; cases o <;> simp_all
    · rw [courseAt_set_ne _ _ _ _ hc]

/-- Replacing a course object without touching its `enrolled_students` does
not change the views `StudentCoupled` depends on. -/
theorem sameSC_set_course_keep (w : World) (r : Nat) (co0 co' : CourseObj)
    (h : w.courseAt r = some co0) (henr : co'.enrolled_students = co0.enrolled_students) :
    SameSC w (w.set r (.course co')) := by
  constructor
  · intro s
    by_cases hs : s = r
    · subst hs
      rw [studentAt_set_course]
      unfold World.courseAt at h
      unfold World.studentAt
      rcases hh : w.heap s with _ | o
      · rfl
      · rw [hh] at h; cases o <;> simp_all
    · rw [studentAt_set_ne _ _ _ _ hs]
  · intro c
    by_cases hc : c = r
    · subst hc
      rw [courseAt_set_course, h]
      simp [henr]
    · rw [courseAt_set_ne _ _ _ _ hc]

/-! ## `StudentCoupled` preservation building blocks -/

theorem World.ext' (w1 w2 : World) (h : ∀ r, w1.heap r = w2.heap r) : w1 = w2 := by
  cases w1
  cases w2
  congr 1
  funext r
  exact h r

theorem World.set_comm (w : World) (x y : Nat) (a b : Obj) (h : x ≠ y) :
    (w.set x a).set y b = (w.set y b).set x a := by
  apply World.ext'
  intro r
  simp only [World.set]
  by_cases hx : r = x <;> by_cases hy : r = y <;> simp_all

theorem studentAt_none_of_courseAt (w : World) (x : Nat) (co : CourseObj)
    (h : w.courseAt x = some co) : w.studentAt x = none := by
  unfold World.courseAt at h
  unfold World.studentAt
  rcases hh : w.heap x with _ | o
  · rfl
  · rw [hh] at h; cases o <;> simp_all

theorem courseAt_none_of_studentAt (w : World) (x : Nat) (st : StudentObj)
    (h : w.studentAt x = some st) : w.courseAt x = none := by
  unfold World.studentAt at h
  unfold World.courseAt
  rcases hh : w.heap x with _ | o
  · rfl
  · rw [hh] at h; cases o <;> simp_all

theorem instructorAt_none_of_courseAt (w : World) (x : Nat) (co : CourseObj)
    (h : w.courseAt x = some co) : w.instructorAt x = none := by
  unfold World.courseAt at h
  unfold World.instructorAt
  rcases hh : w.heap x with _ | o
  · rfl
  · rw [hh] at h; cases o <;> simp_all

/-- Appending a fresh link on both sides preserves the coupling. -/
theorem coupled_two_append (w : World) (x y : Nat) (co : CourseObj) (st : StudentObj)
    (hcx : w.courseAt x = some co) (hsy : w.studentAt y = some st)
    (hsym : StudentCoupled w) :
    StudentCoupled ((w.set x
        (.course { co with enrolled_students := co.enrolled_students ++ [y] })).set y
      (.student { st with registered_courses := st.registered_courses ++ [x] })) := by
  have hyx : y ≠ x := student_ne_course w y x st co hsy hcx
  intro s c st' co' hs' hc'
  by_cases hcy : y = c
  · rw [← hcy, courseAt_set_student] at hc'
    simp at hc'
  by_cases hsy' : y = s
  · rw [← hsy', studentAt_set_student] at hs'
    injection hs' with hs'
    by_cases hcx' : x = c
    · rw [← hcx', courseAt_set_ne _ _ _ _ (Ne.symm hyx), courseAt_set_course] at hc'
      injection hc' with hc'
      rw [← hs', ← hc', ← hsy', ← hcx']
      simp
    · rw [courseAt_set_ne _ _ _ _ (Ne.symm hcy), courseAt_set_ne _ _ _ _ (Ne.symm hcx')] at hc'
      have hiff := hsym y c st co' hsy hc'
      rw [← hs', ← hsy']
      simp only [List.mem_append, List.mem_singleton]
      rw [hiff]
      constructor
      · intro h; exact Or.inl h
      · rintro (h | h)
        · exact h
        · exact absurd h.symm hcx'
  · rw [studentAt_set_ne _ _ _ _ (Ne.symm hsy')] at hs'
    by_cases hsx : x = s
    · rw [← hsx, studentAt_set_course] at hs'
      simp at hs'
    rw [studentAt_set_ne _ _ _ _ (Ne.symm hsx)] at hs'
    by_cases hcx' : x = c
    · rw [← hcx', courseAt_set_ne _ _ _ _ (Ne.symm hyx), courseAt_set_course] at hc'
      injection hc' with hc'
      have hiff := hsym s x st' co hs' hcx
      rw [← hc', ← hcx']
      simp only [List.mem_append, List.mem_singleton]
      rw [← hiff]
      constructor
      · rintro (h | h)
        · exact h
        · exact absurd h.symm hsy'
      · intro h; exact Or.inl h
    · rw [courseAt_set_ne _ _ _ _ (Ne.symm hcy), courseAt_set_ne _ _ _ _ (Ne.symm hcx')] at hc'
      exact hsym s c st' co' hs' hc'

/-- Erasing a link on both sides preserves the coupling (lists are nodup). -/
theorem coupled_two_erase (w : World) (x y : Nat) (co : CourseObj) (st : StudentObj)
    (hcx : w.courseAt x = some co) (hsy : w.studentAt y = some st)
    (hsym : StudentCoupled w) (hE : co.enrolled_students.Nodup)
    (hR : st.registered_courses.Nodup) :
    StudentCoupled ((w.set x
        (.course { co with enrolled_students := co.enrolled_students.erase y })).set y
      (.student { st with registered_courses := st.registered_courses.erase x })) := by
  have hyx : y ≠ x := student_ne_course w y x st co hsy hcx
  intro s c st' co' hs' hc'
  by_cases hcy : y = c
  · rw [← hcy, courseAt_set_student] at hc'
    simp at hc'
  by_cases hsy' : y = s
  · rw [← hsy', studentAt_set_student] at hs'
    injection hs' with hs'
    by_cases hcx' : x = c
    · rw [← hcx', courseAt_set_ne _ _ _ _ (Ne.symm hyx), courseAt_set_course] at hc'
      injection hc' with hc'
      rw [← hs', ← hc', ← hsy', ← hcx']
      exact iff_of_false hE.not_mem_erase hR.not_mem_erase
    · rw [courseAt_set_ne _ _ _ _ (Ne.symm hcy), courseAt_set_ne _ _ _ _ (Ne.symm hcx')] at hc'
      have hiff := hsym y c st co' hsy hc'
      rw [← hs', ← hsy']
      rw [List.mem_erase_of_ne (fun hh => hcx' hh.symm)]
      exact hiff
  · rw [studentAt_set_ne _ _ _ _ (Ne.symm hsy')] at hs'
    by_cases hsx : x = s
    · rw [← hsx, studentAt_set_course] at hs'
      simp at hs'
    rw [studentAt_set_ne _ _ _ _ (Ne.symm hsx)] at hs'
    by_cases hcx' : x = c
    · rw [← hcx', courseAt_set_ne _ _ _ _ (Ne.symm hyx), courseAt_set_course] at hc'
      injection hc' with hc'
      have hiff := hsym s x st' co hs' hcx
      rw [← hc', ← hcx']
      rw [List.mem_erase_of_ne (fun hh => hsy' hh.symm)]
      exact hiff
    · rw [courseAt_set_ne _ _ _ _ (Ne.symm hcy), courseAt_set_ne _ _ _ _ (Ne.symm hcx')] at hc'
      exact hsym s c st' co' hs' hc'

/-- One-sided erase from `enrolled_students` when the removed reference has
no back-link to erase (junk-reference path). -/
theorem coupled_erase_E_only (w : World) (x y : Nat) (co : CourseObj)
    (hcx : w.courseAt x = some co) (hsym : StudentCoupled w)
    (hE : co.enrolled_students.Nodup)
    (hside : ∀ st, w.studentAt y = some st → x ∉ st.registered_courses) :
    StudentCoupled (w.set x
      (.course { co with enrolled_students := co.enrolled_students.erase y })) := by
  intro s c st' co' hs' hc'
  by_cases hsx : x = s
  · rw [← hsx, studentAt_set_course] at hs'
    simp at hs'
  rw [studentAt_set_ne _ _ _ _ (Ne.symm hsx)] at hs'
  by_cases hcx' : x = c
  · rw [← hcx', courseAt_set_course] at hc'
    injection hc' with hc'
    rw [← hc', ← hcx']
    by_cases hsy' : y = s
    · rw [← hsy'] at hs'
      rw [← hsy']
      exact iff_of_false hE.not_mem_erase (hside st' hs')
    · have hiff := hsym s x st' co hs' hcx
      rw [List.mem_erase_of_ne (fun hh => hsy' hh.symm)]
      exact hiff
  · rw [courseAt_set_ne _ _ _ _ (Ne.symm hcx')] at hc'
    exact hsym s c st' co' hs' hc'

/-- One-sided erase from `registered_courses` when the removed reference has
no back-link to erase (junk-reference path). -/
theorem coupled_erase_R_only (w : World) (x y : Nat) (st : StudentObj)
    (hsy : w.studentAt y = some st) (hsym : StudentCoupled w)
    (hR : st.registered_courses.Nodup)
    (hside : ∀ co, w.courseAt x = some co → y ∉ co.enrolled_students) :
    StudentCoupled (w.set y
      (.student { st with registered_courses := st.registered_courses.erase x })) := by
  intro s c st' co' hs' hc'
  by_cases hcy : y = c
  · rw [← hcy, courseAt_set_student] at hc'
    simp at hc'
  rw [courseAt_set_ne _ _ _ _ (Ne.symm hcy)] at hc'
  by_cases hsy' : y = s
  · rw [← hsy', studentAt_set_student] at hs'
    injection hs' with hs'
    rw [← hs', ← hsy']
    by_cases hcx' : x = c
    · rw [← hcx'] at hc'
      rw [← hcx']
      exact iff_of_false (hside co' hc') hR.not_mem_erase
    · rw [List.mem_erase_of_ne (fun hh => hcx' hh.symm)]
      exact hsym y c st co' hsy hc'
  · rw [studentAt_set_ne _ _ _ _ (Ne.symm hsy')] at hs'
    exact hsym s c st' co' hs' hc'

/-- One-sided append to `registered_courses` of a reference that is not a
course (the state in which `register_course` raises `AttributeError`). -/
theorem coupled_append_R_only (w : World) (x y : Nat) (st : StudentObj)
    (hsy : w.studentAt y = some st) (hsym : StudentCoupled w)
    (hxc : w.courseAt x = none) :
    StudentCoupled (w.set y
      (.student { st with registered_courses := st.registered_courses ++ [x] })) := by
  intro s c st' co' hs' hc'
  by_cases hcy : y = c
  · rw [← hcy, courseAt_set_student] at hc'
    simp at hc'
  rw [courseAt_set_ne _ _ _ _ (Ne.symm hcy)] at hc'
  have hcx' : c ≠ x := by
    intro hh
    rw [hh] at hc'
    rw [hxc] at hc'
    simp at hc'
  by_cases hsy' : y = s
  · rw [← hsy', studentAt_set_student] at hs'
    injection hs' with hs'
    rw [← hs', ← hsy']
    have hiff := hsym y c st co' hsy hc'
    simp only [List.mem_append, List.mem_singleton]
    rw [hiff]
    constructor
    · intro h; exact Or.inl h
    · rintro (h | h)
      · exact h
      · exact absurd h hcx'
  · rw [studentAt_set_ne _ _ _ _ (Ne.symm hsy')] at hs'
    exact hsym s c st' co' hs' hc'

/-! ## Per-operation preservation of `StudentCoupled` -/

theorem coupled_add_student (w : World) (x y : Nat) (hsym : StudentCoupled w) :
    StudentCoupled (Course.add_student w x y) := by
  unfold Course.add_student
  rcases hcx : w.courseAt x with _ | co
  · exact hsym
  rcases hsy : w.studentAt y with _ | st
  · exact hsym
  dsimp only
  by_cases hmem : y ∈ co.enrolled_students
  · rw [if_pos hmem]
    exact hsym
  rw [if_neg hmem]
  by_cases hmem2 : x ∈ st.registered_courses
  · exact absurd ((hsym y x st co hsy hcx).mpr hmem2) hmem
  rw [if_neg hmem2]
  exact coupled_two_append w x y co st hcx hsy hsym

theorem coupled_remove_student (w : World) (x y : Nat) (hsym : StudentCoupled w)
    (hE : EnrolledNodup w) (hR : RegisteredNodup w) :
    StudentCoupled (Course.remove_student w x y) := by
  unfold Course.remove_student
  rcases hcx : w.courseAt x with _ | co
  · exact hsym
  dsimp only
  by_cases hmem : y ∈ co.enrolled_students
  · rw [if_pos hmem]
    rcases hsy1 : (w.set x (.course { co with enrolled_students := co.enrolled_students.erase y })).studentAt y with _ | st
    · have hsy0 : w.studentAt y = none := by
        by_cases hxy : x = y
        · rw [← hxy]
          exact studentAt_none_of_courseAt w x co hcx
        · rw [studentAt_set_ne _ _ _ _ (fun hh => hxy hh.symm)] at hsy1
          exact hsy1
      dsimp only
      apply coupled_erase_E_only w x y co hcx hsym (hE x co hcx)
      intro st hst
      rw [hst] at hsy0
      simp at hsy0
    · have hyx : y ≠ x := by
        intro hh
        rw [hh, studentAt_set_course] at hsy1
        simp at hsy1
      rw [studentAt_set_ne _ _ _ _ hyx] at hsy1
      dsimp only
      by_cases hmem2 : x ∈ st.registered_courses
      · rw [if_pos hmem2]
        exact coupled_two_erase w x y co st hcx hsy1 hsym (hE x co hcx) (hR y st hsy1)
      · exact absurd ((hsym y x st co hsy1 hcx).mp hmem) hmem2
  · rw [if_neg hmem]
    exact hsym

theorem coupled_register_course (w : World) (y x : Nat) (hsym : StudentCoupled w) :
    StudentCoupled (Student.register_course w y x) := by
  unfold Student.register_course Student.register_course_any
  rcases hsy : w.studentAt y with _ | st
  · exact hsym
  dsimp only
  by_cases hmem : x ∈ st.registered_courses
  · rw [if_pos hmem]
    exact hsym
  rw [if_neg hmem]
  rcases hcx1 : (w.set y (.student { st with registered_courses := st.registered_courses ++ [x] })).courseAt x with _ | co
  · have hcx0 : w.courseAt x = none := by
      by_cases hxy : x = y
      · rw [hxy]
        exact courseAt_none_of_studentAt w y st hsy
      · rw [courseAt_set_ne _ _ _ _ hxy] at hcx1
        exact hcx1
    dsimp only
    exact coupled_append_R_only w x y st hsy hsym hcx0
  · have hxy : x ≠ y := by
      intro hh
      rw [hh, courseAt_set_student] at hcx1
      simp at hcx1
    rw [courseAt_set_ne _ _ _ _ hxy] at hcx1
    dsimp only
    by_cases hmem2 : y ∈ co.enrolled_students
    · exact absurd ((hsym y x st co hsy hcx1).mp hmem2) hmem
    · rw [if_neg hmem2]
      show StudentCoupled ((w.set y _).set x _)
      rw [World.set_comm w y x _ _ (Ne.symm hxy)]
      exact coupled_two_append w x y co st hcx1 hsy hsym

theorem coupled_unregister_course (w : World) (y x : Nat) (hsym : StudentCoupled w)
    (hE : EnrolledNodup w) (hR : RegisteredNodup w) :
    StudentCoupled (Student.unregister_course w y x) := by
  unfold Student.unregister_course
  rcases hsy : w.studentAt y with _ | st
  · exact hsym
  dsimp only
  by_cases hmem : x ∈ st.registered_courses
  · rw [if_pos hmem]
    rcases hcx1 : (w.set y (.student { st with registered_courses := st.registered_courses.erase x })).courseAt x with _ | co
    · have hcx0 : w.courseAt x = none := by
        by_cases hxy : x = y
        · rw [hxy]
          exact courseAt_none_of_studentAt w y st hsy
        · rw [courseAt_set_ne _ _ _ _ hxy] at hcx1
          exact hcx1
      dsimp only
      apply coupled_erase_R_only w x y st hsy hsym (hR y st hsy)
      intro co hco
      rw [hco] at hcx0
      simp at hcx0
    · have hxy : x ≠ y := by
        intro hh
        rw [hh, courseAt_set_student] at hcx1
        simp at hcx1
      rw [courseAt_set_ne _ _ _ _ hxy] at hcx1
      dsimp only
      by_cases hmem2 : y ∈ co.enrolled_students
      · rw [if_pos hmem2]
        show StudentCoupled ((w.set y _).set x _)
        rw [World.set_comm w y x _ _ (Ne.symm hxy)]
        exact coupled_two_erase w x y co st hcx1 hsy hsym (hE x co hcx1) (hR y st hsy)
      · exact absurd ((hsym y x st co hsy hcx1).mpr hmem) hmem2
  · rw [if_neg hmem]
    exact hsym

theorem sameSC_detachCourse (w : World) (old c : Nat) : SameSC w (detachCourse w old c) := by
  unfold detachCourse
  rcases hio : w.instructorAt old with _ | oins
  · exact SameSC.refl w
  dsimp only
  by_cases hmem : c ∈ oins.assigned_courses
  · rw [if_pos hmem]
    exact sameSC_set_instructor_obj w old oins _ hio
  · rw [if_neg hmem]
    exact SameSC.refl w

theorem sameSC_attachCourse (w : World) (i c : Nat) : SameSC w (attachCourse w i c) := by
  unfold attachCourse
  rcases hio : w.instructorAt i with _ | ins
  · exact SameSC.refl w
  dsimp only
  by_cases hmem : c ∈ ins.assigned_courses
  · rw [if_pos hmem]
    exact SameSC.refl w
  · rw [if_neg hmem]
    exact sameSC_set_instructor_obj w i ins _ hio

/-- `detachCourse` keeps every course view unchanged. -/
theorem courseAt_detachCourse (w : World) (old c x : Nat) :
    (detachCourse w old c).courseAt x = w.courseAt x := by
  unfold detachCourse
  rcases hio : w.instructorAt old with _ | oins
  · rfl
  dsimp only
  by_cases hmem : c ∈ oins.assigned_courses
  · rw [if_pos hmem]
    by_cases hx : x = old
    · rw [hx, courseAt_set_instructor]
      unfold World.instructorAt at hio
      unfold World.courseAt
      rcases hh : w.heap old with _ | o
      · rfl
      · rw [hh] at hio
        cases o <;> simp_all
    · rw [courseAt_set_ne _ _ _ _ hx]
  · rw [if_neg hmem]

/-- `attachCourse` keeps every course view unchanged. -/
theorem courseAt_attachCourse (w : World) (i c x : Nat) :
    (attachCourse w i c).courseAt x = w.courseAt x := by
  unfold attachCourse
  rcases hio : w.instructorAt i with _ | ins
  · rfl
  dsimp only
  by_cases hmem : c ∈ ins.assigned_courses
  · rw [if_pos hmem]
  · rw [if_neg hmem]
    by_cases hx : x = i
    · rw [hx, courseAt_set_instructor]
      unfold World.instructorAt at hio
      unfold World.courseAt
      rcases hh : w.heap i with _ | o
      · rfl
      · rw [hh] at hio
        cases o <;> simp_all
    · rw [courseAt_set_ne _ _ _ _ hx]

theorem sameSC_set_instructor (w : World) (c : Nat) (io : Option Nat) :
    SameSC w (Course.set_instructor w c io) := by
  unfold Course.set_instructor
  rcases hcx : w.courseAt c with _ | co
  · exact SameSC.refl w
  dsimp only
  by_cases hio : io = co.instructor
  · rw [if_pos hio]
    exact SameSC.refl w
  rw [if_neg hio]
  rcases io with _ | i
  · dsimp only
    rcases hold : co.instructor with _ | old
    · exact sameSC_set_course_keep w c co _ hcx rfl
    · refine SameSC.trans (sameSC_detachCourse w old c) (sameSC_set_course_keep _ c co _ ?_ rfl)
      rw [courseAt_detachCourse]
      exact hcx
  · have h1 : SameSC w (w.set c (.course { co with instructor := some i })) :=
      sameSC_set_course_keep w c co _ hcx rfl
    have h2 : SameSC w (attachCourse (w.set c (.course { co with instructor := some i })) i c) :=
      SameSC.trans h1 (sameSC_attachCourse _ i c)
    rcases hold : co.instructor with _ | old
    · exact h2
    · dsimp only
      by_cases hne : old ≠ i
      · rw [if_pos hne]
        exact SameSC.trans h2 (sameSC_detachCourse _ old c)
      · rw [if_neg hne]
        exact h2

theorem sameSC_assign_course (w : World) (i c : Nat) :
    SameSC w (Instructor.assign_course w i c) := by
  unfold Instructor.assign_course
  rcases hii : w.instructorAt i with _ | ins
  · exact SameSC.refl w
  dsimp only
  have hatt : SameSC w (attachCourse w i c) := sameSC_attachCourse w i c
  rcases hcc : (attachCourse w i c).courseAt c with _ | co
  · exact hatt
  dsimp only
  by_cases hinst : co.instructor = some i
  · rw [if_pos hinst]
    exact hatt
  rw [if_neg hinst]
  have h2 : SameSC w ((attachCourse w i c).set c (.course { co with instructor := some i })) :=
    SameSC.trans hatt (sameSC_set_course_keep _ c co _ hcc rfl)
  rcases hold : co.instructor with _ | old
  · exact h2
  · dsimp only
    by_cases hne : old ≠ i
    · rw [if_pos hne]
      exact SameSC.trans h2 (sameSC_detachCourse _ old c)
    · rw [if_neg hne]
      exact h2

/-! ## View helpers -/

theorem enrolledOf_eq (w : World) (c : Nat) (co : CourseObj)
    (h : w.courseAt c = some co) : enrolledOf w c = co.enrolled_students := by
  unfold enrolledOf
  rw [h]

theorem registeredOf_eq (w : World) (s : Nat) (st : StudentObj)
    (h : w.studentAt s = some st) : registeredOf w s = st.registered_courses := by
  unfold registeredOf
  rw [h]

theorem assignedOf_eq (w : World) (i : Nat) (ins : InstructorObj)
    (h : w.instructorAt i = some ins) : assignedOf w i = ins.assigned_courses := by
  unfold assignedOf
  rw [h]

theorem instructorRefOf_eq (w : World) (c : Nat) (co : CourseObj)
    (h : w.courseAt c = some co) : instructorRefOf w c = co.instructor := by
  unfold instructorRefOf
  rw [h]

/-! ## C1: membership effects of enrollment operations -/

theorem add_student_links (w : World) (c s : Nat) (co : CourseObj) (st : StudentObj)
    (hc : w.courseAt c = some co) (hs : w.studentAt s = some st)
    (hsym : StudentCoupled w) :
    s ∈ enrolledOf (Course.add_student w c s) c ∧
    c ∈ registeredOf (Course.add_student w c s) s := by
  have hsc : s ≠ c := student_ne_course w s c st co hs hc
  unfold Course.add_student
  rw [hc, hs]
  dsimp only
  by_cases hmem : s ∈ co.enrolled_students
  · rw [if_pos hmem]
    constructor
    · rw [enrolledOf_eq w c co hc]
      exact hmem
    · rw [registeredOf_eq w s st hs]
      exact (hsym s c st co hs hc).mp hmem
  · rw [if_neg hmem]
    by_cases hmem2 : c ∈ st.registered_courses
    · rw [if_pos hmem2]
      constructor
      · rw [enrolledOf_eq _ c _ (courseAt_set_course w c _)]
        simp
      · rw [registeredOf_eq _ s st (by rw [studentAt_set_ne _ _ _ _ hsc]; exact hs)]
        exact hmem2
    · rw [if_neg hmem2]
      constructor
      · rw [enrolledOf_eq _ c _ (by rw [courseAt_set_ne _ _ _ _ (Ne.symm hsc)]; exact courseAt_set_course w c _)]
        simp
      · rw [registeredOf_eq _ s _ (studentAt_set_student _ s _)]
        simp

theorem unregister_course_unlinks (w : World) (s c : Nat) (st : StudentObj) (co : CourseObj)
    (hs : w.studentAt s = some st) (hc : w.courseAt c = some co)
    (hsym : StudentCoupled w) (hE : EnrolledNodup w) (hR : RegisteredNodup w) :
    s ∉ enrolledOf (Student.unregister_course w s c) c ∧
    c ∉ registeredOf (Student.unregister_course w s c) s := by
  have hsc : s ≠ c := student_ne_course w s c st co hs hc
  unfold Student.unregister_course
  rw [hs]
  dsimp only
  by_cases hmem : c ∈ st.registered_courses
  · rw [if_pos hmem]
    have hc1 : (w.set s (.student { st with registered_courses := st.registered_courses.erase c })).courseAt c = some co := by
      rw [courseAt_set_ne _ _ _ _ (Ne.symm hsc)]
      exact hc
    rw [hc1]
    dsimp only
    by_cases hmem2 : s ∈ co.enrolled_students
    · rw [if_pos hmem2]
      constructor
      · rw [enrolledOf_eq _ c _ (courseAt_set_course _ c _)]
        exact (hE c co hc).not_mem_erase
      · rw [registeredOf_eq _ s _ (by rw [studentAt_set_ne _ _ _ _ hsc]; exact studentAt_set_student w s _)]
        exact (hR s st hs).not_mem_erase
    · rw [if_neg hmem2]
      constructor
      · rw [enrolledOf_eq _ c co hc1]
        exact hmem2
      · rw [registeredOf_eq _ s _ (studentAt_set_student w s _)]
        exact (hR s st hs).not_mem_erase
  · rw [if_neg hmem]
    constructor
    · rw [enrolledOf_eq w c co hc]
      intro hmm
      exact hmem ((hsym s c st co hs hc).mp hmm)
    · rw [registeredOf_eq w s st hs]
      exact hmem

theorem remove_student_unlinks (w : World) (c s : Nat) (co : CourseObj) (st : StudentObj)
    (hc : w.courseAt c = some co) (hs : w.studentAt s = some st)
    (hsym : StudentCoupled w) (hE : EnrolledNodup w) (hR : RegisteredNodup w) :
    s ∉ enrolledOf (Course.remove_student w c s) c ∧
    c ∉ registeredOf (Course.remove_student w c s) s := by
  have hsc : s ≠ c := student_ne_course w s c st co hs hc
  unfold Course.remove_student
  rw [hc]
  dsimp only
  by_cases hmem : s ∈ co.enrolled_students
  · rw [if_pos hmem]
    have hs1 : (w.set c (.course { co with enrolled_students := co.enrolled_students.erase s })).studentAt s = some st := by
      rw [studentAt_set_ne _ _ _ _ hsc]
      exact hs
    rw [hs1]
    dsimp only
    by_cases hmem2 : c ∈ st.registered_courses
    · rw [if_pos hmem2]
      constructor
      · rw [enrolledOf_eq _ c _ (by rw [courseAt_set_ne _ _ _ _ (Ne.symm hsc)]; exact courseAt_set_course w c _)]
        exact (hE c co hc).not_mem_erase
      · rw [registeredOf_eq _ s _ (studentAt_set_student _ s _)]
        exact (hR s st hs).not_mem_erase
    · exact absurd ((hsym s c st co hs hc).mp hmem) hmem2
  · rw [if_neg hmem]
    constructor
    · rw [enrolledOf_eq w c co hc]
      exact hmem
    · rw [registeredOf_eq w s st hs]
      intro hmm
      exact hmem ((hsym s c st co hs hc).mpr hmm)

/-- C1: for every `Student` and `Course` of a well-formed world (the state
produced by the validated constructors and the public relationship API),
after `c.add_student(s)` both `s ∈ c.enrolled_students` and
`c ∈ s.registered_courses` hold; after `s.unregister_course(c)` or
`c.remove_student(s)` neither holds; and bidirectional symmetry
(`student ∈ course.enrolled_students ⟺ course ∈ student.registered_courses`)
is preserved by every mutating call of the model. -/
theorem C1_enrollment_bidirectional (w : World) (s c : Nat) (st : StudentObj) (co : CourseObj)
    (hs : w.studentAt s = some st) (hc : w.courseAt c = some co)
    (hsym : StudentCoupled w) (hE : EnrolledNodup w) (hR : RegisteredNodup w) :
    (s ∈ enrolledOf (Course.add_student w c s) c ∧
     c ∈ registeredOf (Course.add_student w c s) s) ∧
    (s ∉ enrolledOf (Student.unregister_course w s c) c ∧
     c ∉ registeredOf (Student.unregister_course w s c) s) ∧
    (s ∉ enrolledOf (Course.remove_student w c s) c ∧
     c ∉ registeredOf (Course.remove_student w c s) s) ∧
    (∀ x y : Nat, ∀ io : Option Nat,
      StudentCoupled (Course.add_student w x y) ∧
      StudentCoupled (Course.remove_student w x y) ∧
      StudentCoupled (Student.register_course w x y) ∧
      StudentCoupled (Student.unregister_course w x y) ∧
      StudentCoupled (Course.set_instructor w x io) ∧
      StudentCoupled (Instructor.assign_course w x y)) := by
  refine ⟨add_student_links w c s co st hc hs hsym,
    unregister_course_unlinks w s c st co hs hc hsym hE hR,
    remove_student_unlinks w c s co st hc hs hsym hE hR,
    fun x y io => ⟨coupled_add_student w x y hsym,
      coupled_remove_student w x y hsym hE hR,
      coupled_register_course w x y hsym,
      coupled_unregister_course w x y hsym hE hR,
      hsym.of_sameSC (sameSC_set_instructor w x io),
      hsym.of_sameSC (sameSC_assign_course w x y)⟩⟩

/-- A two-object world for the C1 witness: reference 0 is a course,
reference 1 is a student, with no links yet. -/
def c1Course : CourseObj :=
  { course_id := strOf "CSE101", course_name := strOf "Intro To Cs",
    instructor := none, enrolled_students := [] }

def c1Student : StudentObj :=
  { name := strOf "Alice", age := 20, email := strOf "alice@example.com",
    student_id := strOf "S001", registered_courses := [] }

def c1World : World :=
  ⟨fun r => if r = 0 then some (.course c1Course)
    else if r = 1 then some (.student c1Student) else none⟩

theorem c1World_student (r : Nat) (st' : StudentObj)
    (h : c1World.studentAt r = some st') : r = 1 ∧ st' = c1Student := by
  unfold World.studentAt c1World at h
  dsimp only at h
  by_cases h0 : r = 0
  · rw [h0] at h
    simp at h
  · rw [if_neg h0] at h
    by_cases h1 : r = 1
    · rw [h1] at h
      simp at h
      exact ⟨h1, h.symm⟩
    · rw [if_neg h1] at h
      simp at h

theorem c1World_course (r : Nat) (co' : CourseObj)
    (h : c1World.courseAt r = some co') : r = 0 ∧ co' = c1Course := by
  unfold World.courseAt c1World at h
  dsimp only at h
  by_cases h0 : r = 0
  · rw [h0] at h
    simp at h
    exact ⟨h0, h.symm⟩
  · rw [if_neg h0] at h
    by_cases h1 : r = 1
    · rw [h1] at h
      simp at h
    · rw [if_neg h1] at h
      simp at h

/-- Witness for C1 at a concrete world: student reference 1 and course
reference 0 of `c1World`. -/
theorem C1_enrollment_bidirectional_witness :
    (1 ∈ enrolledOf (Course.add_student c1World 0 1) 0 ∧
     0 ∈ registeredOf (Course.add_student c1World 0 1) 1) ∧
    (1 ∉ enrolledOf (Student.unregister_course c1World 1 0) 0 ∧
     0 ∉ registeredOf (Student.unregister_course c1World 1 0) 1) := by
  have hsym : StudentCoupled c1World := by
    intro s c st co hsx hcx
    rw [(c1World_student s st hsx).2, (c1World_course c co hcx).2]
    simp [c1Student, c1Course]
  have hE : EnrolledNodup c1World := by
    intro c co hcx
    rw [(c1World_course c co hcx).2]
    simp [c1Course]
  have hR : RegisteredNodup c1World := by
    intro s st hsx
    rw [(c1World_student s st hsx).2]
    simp [c1Student]
  have h := C1_enrollment_bidirectional c1World 1 0 c1Student c1Course rfl rfl hsym hE hR
  exact ⟨h.1, h.2.1⟩

/-! ## C3: instructor reassignment -/

theorem courseAt_none_of_instructorAt (w : World) (x : Nat) (ins : InstructorObj)
    (h : w.instructorAt x = some ins) : w.courseAt x = none := by
  unfold World.instructorAt at h
  unfold World.courseAt
  rcases hh : w.heap x with _ | o
  · rfl
  · rw [hh] at h
    cases o <;> simp_all

theorem attachCourse_eval_add (w : World) (i c : Nat) (ins : InstructorObj)
    (h : w.instructorAt i = some ins) (hmem : c ∉ ins.assigned_courses) :
    attachCourse w i c
      = w.set i (.instructor { ins with assigned_courses := ins.assigned_courses ++ [c] }) := by
  unfold attachCourse
  rw [h]
  dsimp only
  rw [if_neg hmem]

theorem attachCourse_eval_mem (w : World) (i c : Nat) (ins : InstructorObj)
    (h : w.instructorAt i = some ins) (hmem : c ∈ ins.assigned_courses) :
    attachCourse w i c = w := by
  unfold attachCourse
  rw [h]
  dsimp only
  rw [if_pos hmem]

theorem detachCourse_eval_erase (w : World) (old c : Nat) (oins : InstructorObj)
    (h : w.instructorAt old = some oins) (hmem : c ∈ oins.assigned_courses) :
    detachCourse w old c
      = w.set old (.instructor { oins with assigned_courses := oins.assigned_courses.erase c }) := by
  unfold detachCourse
  rw [h]
  dsimp only
  rw [if_pos hmem]

theorem detachCourse_eval_skip (w : World) (old c : Nat) (oins : InstructorObj)
    (h : w.instructorAt old = some oins) (hmem : c ∉ oins.assigned_courses) :
    detachCourse w old c = w := by
  unfold detachCourse
  rw [h]
  dsimp only
  rw [if_neg hmem]

theorem detachCourse_eval_none (w : World) (old c : Nat)
    (h : w.instructorAt old = none) : detachCourse w old c = w := by
  unfold detachCourse
  rw [h]

/-- State after `c.set_instructor(i1)` from a well-formed world: the course
points at `i1`, `i1`'s list contains the course, and `i2 ≠ i1`'s does not. -/
theorem set_instructor_first_facts (w : World) (c i1 i2 : Nat) (co : CourseObj)
    (ins1 ins2 : InstructorObj)
    (hc : w.courseAt c = some co) (hi1 : w.instructorAt i1 = some ins1)
    (hi2 : w.instructorAt i2 = some ins2) (hne : i1 ≠ i2)
    (hisym : InstructorCoupled w) (hA : AssignedNodup w) :
    ∃ co1 ins1' ins2',
      (Course.set_instructor w c (some i1)).courseAt c = some co1 ∧
      co1.instructor = some i1 ∧
      (Course.set_instructor w c (some i1)).instructorAt i1 = some ins1' ∧
      c ∈ ins1'.assigned_courses ∧ ins1'.assigned_courses.Nodup ∧
      (Course.set_instructor w c (some i1)).instructorAt i2 = some ins2' ∧
      c ∉ ins2'.assigned_courses ∧ ins2'.assigned_courses.Nodup := by
  have hi1c : i1 ≠ c := instructor_ne_course w i1 c ins1 co hi1 hc
  have hi2c : i2 ≠ c := instructor_ne_course w i2 c ins2 co hi2 hc
  by_cases hio : (some i1 : Option Nat) = co.instructor
  · -- same reference: no-op; the invariant already gives all the facts
    have heq : Course.set_instructor w c (some i1) = w := by
      unfold Course.set_instructor
      rw [hc]
      dsimp only
      rw [if_pos hio]
    refine ⟨co, ins1, ins2, ?_, hio.symm, ?_, ?_, hA i1 ins1 hi1, ?_, ?_, hA i2 ins2 hi2⟩
    · rw [heq]; exact hc
    · rw [heq]; exact hi1
    · exact (hisym i1 c ins1 co hi1 hc).mpr hio.symm
    · rw [heq]; exact hi2
    · intro hmm
      have := (hisym i2 c ins2 co hi2 hc).mp hmm
      rw [← hio] at this
      exact hne (Option.some.inj this)
  · have hnm1 : c ∉ ins1.assigned_courses := by
      intro hmm
      exact hio ((hisym i1 c ins1 co hi1 hc).mp hmm).symm
    have heval : Course.set_instructor w c (some i1)
        = (match co.instructor with
           | some old =>
             if old ≠ i1 then
               detachCourse (attachCourse (w.set c (.course { co with instructor := some i1 })) i1 c) old c
             else attachCourse (w.set c (.course { co with instructor := some i1 })) i1 c
           | none => attachCourse (w.set c (.course { co with instructor := some i1 })) i1 c) := by
      unfold Course.set_instructor
      rw [hc]
      dsimp only
      rw [if_neg hio]
    have hI1w : (w.set c (.course { co with instructor := some i1 })).instructorAt i1 = some ins1 := by
      rw [instructorAt_set_ne _ _ _ _ hi1c]
      exact hi1
    have hattach : attachCourse (w.set c (.course { co with instructor := some i1 })) i1 c
        = (w.set c (.course { co with instructor := some i1 })).set i1
            (.instructor { ins1 with assigned_courses := ins1.assigned_courses ++ [c] }) :=
      attachCourse_eval_add _ i1 c ins1 hI1w hnm1
    have hnodup1 : (ins1.assigned_courses ++ [c]).Nodup :=
      (hA i1 ins1 hi1).append (List.nodup_singleton c)
        (by simpa [List.disjoint_singleton] using hnm1)
    rcases hold : co.instructor with _ | old
    · -- no previous instructor
      rw [heval, hold]
      dsimp only
      rw [hattach]
      refine ⟨{ co with instructor := some i1 },
        { ins1 with assigned_courses := ins1.assigned_courses ++ [c] }, ins2,
        ?_, rfl, ?_, by simp, hnodup1, ?_, ?_, hA i2 ins2 hi2⟩
      · rw [courseAt_set_ne _ _ _ _ (Ne.symm hi1c), courseAt_set_course]
      · rw [instructorAt_set_instructor]
      · rw [instructorAt_set_ne _ _ _ _ (Ne.symm hne), instructorAt_set_ne _ _ _ _ hi2c]
        exact hi2
      · intro hmm
        have := (hisym i2 c ins2 co hi2 hc).mp hmm
        rw [hold] at this
        simp at this
    · -- a previous instructor `old`, with old ≠ i1 because the pointers differ
      have holdne : old ≠ i1 := by
        intro hh
        rw [hh] at hold
        exact hio hold.symm
      rw [heval, hold]
      dsimp only
      rw [if_pos holdne, hattach]
      by_cases holdi2 : old = i2
      · -- the old instructor is exactly i2: its list loses c
        rw [holdi2] at hold
        rw [holdi2]
        have hmem2 : c ∈ ins2.assigned_courses :=
          (hisym i2 c ins2 co hi2 hc).mpr hold
        have hI2b : ((w.set c (.course { co with instructor := some i1 })).set i1
            (.instructor { ins1 with assigned_courses := ins1.assigned_courses ++ [c] })).instructorAt i2
            = some ins2 := by
          rw [instructorAt_set_ne _ _ _ _ (Ne.symm hne), instructorAt_set_ne _ _ _ _ hi2c]
          exact hi2
        rw [detachCourse_eval_erase _ i2 c ins2 hI2b hmem2]
        refine ⟨{ co with instructor := some i1 },
          { ins1 with assigned_courses := ins1.assigned_courses ++ [c] },
          { ins2 with assigned_courses := ins2.assigned_courses.erase c },
          ?_, rfl, ?_, by simp, hnodup1, ?_, ?_, (hA i2 ins2 hi2).erase c⟩
        · rw [courseAt_set_ne _ _ _ _ (Ne.symm hi2c),
            courseAt_set_ne _ _ _ _ (Ne.symm hi1c), courseAt_set_course]
        · rw [instructorAt_set_ne _ _ _ _ hne, instructorAt_set_instructor]
        · rw [instructorAt_set_instructor]
        · exact (hA i2 ins2 hi2).not_mem_erase
      · -- the old instructor is a third party: i2's list is untouched
        have hnm2 : c ∉ ins2.assigned_courses := by
          intro hmm
          have := (hisym i2 c ins2 co hi2 hc).mp hmm
          rw [hold] at this
          exact holdi2 (Option.some.inj this)
        have hI2same : ∀ wd : World,
            detachCourse wd old c = wd ∨
            (∃ oins, wd.instructorAt old = some oins ∧
              detachCourse wd old c = wd.set old (.instructor { oins with assigned_courses := oins.assigned_courses.erase c })) := by
          intro wd
          rcases hoo : wd.instructorAt old with _ | oins
          · exact Or.inl (detachCourse_eval_none wd old c hoo)
          · by_cases hmm : c ∈ oins.assigned_courses
            · exact Or.inr ⟨oins, rfl, detachCourse_eval_erase wd old c oins hoo hmm⟩
            · exact Or.inl (detachCourse_eval_skip wd old c oins hoo hmm)
        rcases hI2same (((w.set c (.course { co with instructor := some i1 })).set i1
            (.instructor { ins1 with assigned_courses := ins1.assigned_courses ++ [c] }))) with hcase | ⟨oins, hoo, hcase⟩
        · rw [hcase]
          refine ⟨{ co with instructor := some i1 },
            { ins1 with assigned_courses := ins1.assigned_courses ++ [c] }, ins2,
            ?_, rfl, ?_, by simp, hnodup1, ?_, hnm2, hA i2 ins2 hi2⟩
          · rw [courseAt_set_ne _ _ _ _ (Ne.symm hi1c), courseAt_set_course]
          · rw [instructorAt_set_instructor]
          · rw [instructorAt_set_ne _ _ _ _ (Ne.symm hne), instructorAt_set_ne _ _ _ _ hi2c]
            exact hi2
        · have holdc : old ≠ c := by
            intro hh
            rw [hh] at hoo
            rw [instructorAt_set_ne _ _ _ _ (Ne.symm hi1c), instructorAt_set_course] at hoo
            simp at hoo
          rw [hcase]
          refine ⟨{ co with instructor := some i1 },
            { ins1 with assigned_courses := ins1.assigned_courses ++ [c] }, ins2,
            ?_, rfl, ?_, by simp, hnodup1, ?_, hnm2, hA i2 ins2 hi2⟩
          · rw [courseAt_set_ne _ _ _ _ (Ne.symm holdc),
              courseAt_set_ne _ _ _ _ (Ne.symm hi1c), courseAt_set_course]
          · rw [instructorAt_set_ne _ _ _ _ (Ne.symm holdne), instructorAt_set_instructor]
          · rw [instructorAt_set_ne _ _ _ _ (fun hh => holdi2 hh.symm),
              instructorAt_set_ne _ _ _ _ (Ne.symm hne), instructorAt_set_ne _ _ _ _ hi2c]
            exact hi2

/-- Behaviour of the second `set_instructor` call, given the state the first
call established. -/
theorem set_instructor_second (w1 : World) (c i1 i2 : Nat) (co1 : CourseObj)
    (ins1' ins2' : InstructorObj)
    (hc1 : w1.courseAt c = some co1) (hptr : co1.instructor = some i1)
    (hI1 : w1.instructorAt i1 = some ins1') (hmem1 : c ∈ ins1'.assigned_courses)
    (hnd1 : ins1'.assigned_courses.Nodup)
    (hI2 : w1.instructorAt i2 = some ins2') (hmem2 : c ∉ ins2'.assigned_courses)
    (hne : i1 ≠ i2) :
    instructorRefOf (Course.set_instructor w1 c (some i2)) c = some i2 ∧
    c ∉ assignedOf (Course.set_instructor w1 c (some i2)) i1 ∧
    c ∈ assignedOf (Course.set_instructor w1 c (some i2)) i2 := by
  have hi1c : i1 ≠ c := instructor_ne_course w1 i1 c ins1' co1 hI1 hc1
  have hi2c : i2 ≠ c := instructor_ne_course w1 i2 c ins2' co1 hI2 hc1
  have heval : Course.set_instructor w1 c (some i2)
      = detachCourse (attachCourse (w1.set c (.course { co1 with instructor := some i2 })) i2 c) i1 c := by
    unfold Course.set_instructor
    rw [hc1]
    dsimp only
    rw [hptr]
    rw [if_neg (by intro hh; exact hne (Option.some.inj hh).symm)]
    dsimp only
    rw [if_pos hne]
  have hI2w : (w1.set c (.course { co1 with instructor := some i2 })).instructorAt i2 = some ins2' := by
    rw [instructorAt_set_ne _ _ _ _ hi2c]
    exact hI2
  have hattach : attachCourse (w1.set c (.course { co1 with instructor := some i2 })) i2 c
      = (w1.set c (.course { co1 with instructor := some i2 })).set i2
          (.instructor { ins2' with assigned_courses := ins2'.assigned_courses ++ [c] }) :=
    attachCourse_eval_add _ i2 c ins2' hI2w hmem2
  have hI1w : ((w1.set c (.course { co1 with instructor := some i2 })).set i2
      (.instructor { ins2' with assigned_courses := ins2'.assigned_courses ++ [c] })).instructorAt i1
      = some ins1' := by
    rw [instructorAt_set_ne _ _ _ _ hne, instructorAt_set_ne _ _ _ _ hi1c]
    exact hI1
  have hdetach := detachCourse_eval_erase _ i1 c ins1' hI1w hmem1
  rw [heval, hattach, hdetach]
  refine ⟨?_, ?_, ?_⟩
  · rw [instructorRefOf_eq _ c { co1 with instructor := some i2 }
      (by rw [courseAt_set_ne _ _ _ _ (Ne.symm hi1c), courseAt_set_ne _ _ _ _ (Ne.symm hi2c),
        courseAt_set_course])]
  · rw [assignedOf_eq _ i1 _ (instructorAt_set_instructor _ i1 _)]
    exact hnd1.not_mem_erase
  · rw [assignedOf_eq _ i2 _ (by rw [instructorAt_set_ne _ _ _ _ (Ne.symm hne), instructorAt_set_instructor])]
    simp

/-- C3: for distinct instructors `i1 ≠ i2`, after `c.set_instructor(i1)`
then `c.set_instructor(i2)`, the course points at `i2`, `c` is no longer in
`i1.assigned_courses` and is in `i2.assigned_courses`; and calling
`set_instructor` with the already-assigned reference (the current value of
`course.instructor`) is a no-op that changes no state. -/
theorem C3_set_instructor_reassign (w : World) (c i1 i2 : Nat) (co : CourseObj)
    (ins1 ins2 : InstructorObj)
    (hc : w.courseAt c = some co) (hi1 : w.instructorAt i1 = some ins1)
    (hi2 : w.instructorAt i2 = some ins2) (hne : i1 ≠ i2)
    (hisym : InstructorCoupled w) (hA : AssignedNodup w) :
    (instructorRefOf (Course.set_instructor (Course.set_instructor w c (some i1)) c (some i2)) c = some i2 ∧
     c ∉ assignedOf (Course.set_instructor (Course.set_instructor w c (some i1)) c (some i2)) i1 ∧
     c ∈ assignedOf (Course.set_instructor (Course.set_instructor w c (some i1)) c (some i2)) i2) ∧
    Course.set_instructor w c co.instructor = w := by
  constructor
  · obtain ⟨co1, ins1', ins2', hc1, hptr, hI1, hmem1, hnd1, hI2, hmem2, hnd2⟩ :=
      set_instructor_first_facts w c i1 i2 co ins1 ins2 hc hi1 hi2 hne hisym hA
    exact set_instructor_second (Course.set_instructor w c (some i1)) c i1 i2 co1 ins1' ins2'
      hc1 hptr hI1 hmem1 hnd1 hI2 hmem2 hne
  · unfold Course.set_instructor
    rw [hc]
    dsimp only
    rw [if_pos rfl]

/-- A three-object world for the C3 witness: course at 0, instructors at 1
and 2, no assignments yet. -/
def c3Course : CourseObj :=
  { course_id := strOf "EECE435", course_name := strOf "Software Tools Lab",
    instructor := none, enrolled_students := [] }

def c3Ins1 : InstructorObj :=
  { name := strOf "Dr. Smith", age := 45, email := strOf "smith@example.com",
    instructor_id := strOf "I001", assigned_courses := [] }

def c3Ins2 : InstructorObj :=
  { name := strOf "Dr. Jones", age := 50, email := strOf "jones@example.com",
    instructor_id := strOf "I002", assigned_courses := [] }

def c3World : World :=
  ⟨fun r => if r = 0 then some (.course c3Course)
    else if r = 1 then some (.instructor c3Ins1)
    else if r = 2 then some (.instructor c3Ins2) else none⟩

theorem c3World_course (r : Nat) (co' : CourseObj)
    (h : c3World.courseAt r = some co') : co' = c3Course := by
  unfold World.courseAt c3World at h
  dsimp only at h
  by_cases h0 : r = 0
  · rw [h0] at h
    simp at h
    exact h.symm
  · rw [if_neg h0] at h
    by_cases h1 : r = 1
    · rw [h1] at h
      simp at h
    · rw [if_neg h1] at h
      by_cases h2 : r = 2
      · rw [h2] at h
        simp at h
      · rw [if_neg h2] at h
        simp at h

theorem c3World_instructor (r : Nat) (ins' : InstructorObj)
    (h : c3World.instructorAt r = some ins') : ins'.assigned_courses = [] := by
  unfold World.instructorAt c3World at h
  dsimp only at h
  by_cases h0 : r = 0
  · rw [h0] at h
    simp at h
  · rw [if_neg h0] at h
    by_cases h1 : r = 1
    · rw [h1] at h
      simp at h
      rw [← h]
      rfl
    · rw [if_neg h1] at h
      by_cases h2 : r = 2
      · rw [h2] at h
        simp at h
        rw [← h]
        rfl
      · rw [if_neg h2] at h
        simp at h

/-- Witness for C3: reassign course 0 from instructor 1 to instructor 2 in
`c3World`. -/
theorem C3_set_instructor_reassign_witness :
    instructorRefOf (Course.set_instructor (Course.set_instructor c3World 0 (some 1)) 0 (some 2)) 0 = some 2 ∧
    0 ∉ assignedOf (Course.set_instructor (Course.set_instructor c3World 0 (some 1)) 0 (some 2)) 1 ∧
    0 ∈ assignedOf (Course.set_instructor (Course.set_instructor c3World 0 (some 1)) 0 (some 2)) 2 := by
  have hisym : InstructorCoupled c3World := by
    intro i cc ins co hix hcx
    rw [c3World_instructor i ins hix]
    have hco := c3World_course cc co hcx
    rw [hco]
    simp [c3Course]
  have hA : AssignedNodup c3World := by
    intro i ins hix
    rw [c3World_instructor i ins hix]
    exact List.nodup_nil
  exact (C3_set_instructor_reassign c3World 0 1 2 c3Course c3Ins1 c3Ins2
    rfl rfl rfl (by simp) hisym hA).1

/-! ## C10: the `isinstance` guard on `Course.add_student` -/

/-- C10: `Course.add_student` called with a non-`Student` value is a silent
no-op (state unchanged, nothing raised), while the symmetric entry point
`Student.register_course` checks only the truthiness of its argument, not
its type: on a truthy non-Course argument (an Instructor reference) it
mutates the student's `registered_courses` and then raises
`AttributeError`. -/
theorem C10_add_student_type_guard :
    (∀ (w : World) (c : Nat) (v : PyVal), isStudentVal w v = false →
      Course.add_student_any w c v = w) ∧
    (∀ (w : World) (s r : Nat) (st : StudentObj) (ins : InstructorObj),
      w.studentAt s = some st → w.instructorAt r = some ins →
      r ∉ st.registered_courses →
      Student.register_course_any w s (.ref r) =
        .exn (w.set s (.student { st with registered_courses := st.registered_courses ++ [r] }))) := by
  constructor
  · intro w c v hv
    cases v with
    | pynone => rfl
    | ref r =>
      unfold isStudentVal at hv
      dsimp only at hv
      have hr : w.studentAt r = none := by
        rcases hh : w.studentAt r with _ | st
        · rfl
        · rw [hh] at hv
          simp at hv
      show Course.add_student w c r = w
      unfold Course.add_student
      rcases hcx : w.courseAt c with _ | co
      · rfl
      · dsimp only
        rw [hr]
  · intro w s r st ins hs hr hmem
    have hsr : s ≠ r := student_ne_instructor w s r st ins hs hr
    unfold Student.register_course_any
    rw [hs]
    dsimp only
    rw [if_neg hmem]
    have hcr : (w.set s (.student { st with registered_courses := st.registered_courses ++ [r] })).courseAt r = none := by
      rw [courseAt_set_ne _ _ _ _ (Ne.symm hsr)]
      exact courseAt_none_of_instructorAt w r ins hr
    rw [hcr]

/-- A world for the C10 witness: student at 0, instructor at 1, course at 2. -/
def c10World : World :=
  ⟨fun r => if r = 0 then some (.student c1Student)
    else if r = 1 then some (.instructor c3Ins1)
    else if r = 2 then some (.course c1Course) else none⟩

/-- Witness for C10: adding the instructor reference 1 to course 2 is a
no-op; registering it on student 0 mutates then raises. -/
theorem C10_add_student_type_guard_witness :
    Course.add_student_any c10World 2 (.ref 1) = c10World ∧
    Student.register_course_any c10World 0 (.ref 1) =
      .exn (c10World.set 0 (.student { c1Student with
        registered_courses := c1Student.registered_courses ++ [1] })) :=
  ⟨C10_add_student_type_guard.1 c10World 2 (.ref 1) (by rfl),
   C10_add_student_type_guard.2 c10World 0 1 c1Student c3Ins1 rfl rfl (by simp [c1Student])⟩

/-! ## The SQLite repository

The relational store is modelled as four tables of typed rows.  Primary-key
uniqueness is enforced on insert; the composite primary key of REGISTRATION
makes `INSERT OR IGNORE` an idempotent insert.  Each public method commits
before returning; `import_from_json` is the one multi-statement transaction,
with `rollback` restoring the prior state on any exception. -/

structure StudentRow where
  student_id : String
  name : String
  age : Int
  email : String
deriving Repr, DecidableEq

structure InstructorRow where
  instructor_id : String
  name : String
  age : Int
  email : String
deriving Repr, DecidableEq

structure CourseRow where
  course_id : String
  course_name : String
  i_id : Option String
deriving Repr, DecidableEq

structure DB where
  students : List StudentRow
  instructors : List InstructorRow
  courses : List CourseRow
  registration : List (String × String)
deriving Repr, DecidableEq

inductive RepoError where
  | notFound
  | integrity
deriving Repr, DecidableEq

/-- `get_student`: `SELECT * FROM STUDENTS WHERE student_id=?` (first row or None). -/
def DB.get_student (db : DB) (sid : String) : Option StudentRow :=
  db.students.find? (fun r => r.student_id = sid)

def DB.get_instructor (db : DB) (iid : String) : Option InstructorRow :=
  db.instructors.find? (fun r => r.instructor_id = iid)

def DB.get_course (db : DB) (cid : String) : Option CourseRow :=
  db.courses.find? (fun r => r.course_id = cid)

/-- `register_student(s_id, c_id)`: raise if the student or course does not
exist, otherwise `INSERT OR IGNORE INTO REGISTRATION` (the composite primary
key makes a duplicate pair a silent no-op). -/
def DB.register_student (db : DB) (s_id c_id : String) : Except RepoError DB :=
  match db.get_student s_id with
  | none => .error .notFound  -- raise ValueError("Student does not exist")
  | some _ =>
    match db.get_course c_id with
    | none => .error .notFound  -- raise ValueError("Course does not exist")
    | some _ =>
      if (s_id, c_id) ∈ db.registration then .ok db
      else .ok { db with registration := db.registration ++ [(s_id, c_id)] }

/-- Python truthiness of an optional string field: `if name:` treats both
`None` and the empty string as not supplied. -/
def truthyStr : Option String → Option String
  | some s => if s = "" then none else some s
  | none => none

/-- `update_student`: collect the truthy/non-None fields; if none were
supplied return without executing a statement, else
`UPDATE STUDENTS SET ... WHERE student_id=?`. -/
def DB.update_student (db : DB) (sid : String)
    (name : Option String) (age : Option Int) (email : Option String) : DB :=
  if truthyStr name = none ∧ age = none ∧ truthyStr email = none then db
  else
    { db with students := db.students.map (fun r =>
        if r.student_id = sid then
          { r with name := (truthyStr name).getD r.name,
                   age := age.getD r.age,
                   email := (truthyStr email).getD r.email }
        else r) }

/-- `update_instructor`: same pattern as `update_student`. -/
def DB.update_instructor (db : DB) (iid : String)
    (name : Option String) (age : Option Int) (email : Option String) : DB :=
  if truthyStr name = none ∧ age = none ∧ truthyStr email = none then db
  else
    { db with instructors := db.instructors.map (fun r =>
        if r.instructor_id = iid then
          { r with name := (truthyStr name).getD r.name,
                   age := age.getD r.age,
                   email := (truthyStr email).getD r.email }
        else r) }

/-- `i_id` is applied with an `is not None` check: a supplied value (even
the empty string) overwrites, `None` keeps the prior value. -/
def applyIId (i_id old : Option String) : Option String :=
  match i_id with
  | some v => some v
  | none => old

/-- `update_course`: `course_name` is checked for truthiness, `i_id` with
`is not None`. -/
def DB.update_course (db : DB) (cid : String)
    (course_name : Option String) (i_id : Option String) : DB :=
  if truthyStr course_name = none ∧ i_id = none then db
  else
    { db with courses := db.courses.map (fun r =>
        if r.course_id = cid then
          { r with course_name := (truthyStr course_name).getD r.course_name,
                   i_id := applyIId i_id r.i_id }
        else r) }

/-! ## `import_from_json` -/

/-- The parsed content of an export file (the four table dumps). -/
structure ImportPayload where
  students : List StudentRow
  instructors : List InstructorRow
  courses : List CourseRow
  registrations : List (String × String)
deriving Repr, DecidableEq

/-- `INSERT INTO STUDENTS ...` row by row; a duplicate primary key raises
`IntegrityError`. -/
def insertStudentRows (acc : List StudentRow) : List StudentRow → Except RepoError (List StudentRow)
  | [] => .ok acc
  | r :: rest =>
    if acc.any (fun x => x.student_id = r.student_id) then .error .integrity
    else insertStudentRows (acc ++ [r]) rest

def insertInstructorRows (acc : List InstructorRow) : List InstructorRow → Except RepoError (List InstructorRow)
  | [] => .ok acc
  | r :: rest =>
    if acc.any (fun x => x.instructor_id = r.instructor_id) then .error .integrity
    else insertInstructorRows (acc ++ [r]) rest

/-- Courses are inserted with foreign keys disabled (`PRAGMA foreign_keys =
OFF` precedes the wipe), so only the primary key can fail. -/
def insertCourseRows (acc : List CourseRow) : List CourseRow → Except RepoError (List CourseRow)
  | [] => .ok acc
  | r :: rest =>
    if acc.any (fun x => x.course_id = r.course_id) then .error .integrity
    else insertCourseRows (acc ++ [r]) rest

/-- `INSERT OR IGNORE INTO REGISTRATION ...`: duplicates of the composite
primary key are ignored, and foreign keys are off. -/
def insertRegRows (acc : List (String × String)) : List (String × String) → List (String × String)
  | [] => acc
  | p :: rest => insertRegRows (if p ∈ acc then acc else acc ++ [p]) rest

/-- The statement sequence of the transaction: wipe all four tables, then
re-insert from the payload in order. -/
def runImport (p : ImportPayload) : Except RepoError DB := do
  let st ← insertStudentRows [] p.students
  let ins ← insertInstructorRows [] p.instructors
  let cs ← insertCourseRows [] p.courses
  pure { students := st, instructors := ins, courses := cs,
         registration := insertRegRows [] p.registrations }

/-- `import_from_json`: `none` models a missing source file (return False
before touching the store); otherwise run the transaction and commit, or
roll back to the prior state on any exception. -/
def DB.import_from_json (db : DB) (payload : Option ImportPayload) : DB × Bool :=
  match payload with
  | none => (db, false)
  | some p =>
    match runImport p with
    | .ok db' => (db', true)
    | .error _ => (db, false)

/-! ## C4: registration error handling and idempotence -/

/-- C4: `register_student` raises a not-found error (without mutating) when
either id is absent; when both exist it inserts the pairing, and a second
call with the same pair does not raise and leaves exactly one registration
row. -/
theorem C4_register_student_idempotent (db : DB) (s c : String)
    (hs : (db.get_student s).isSome = true) (hc : (db.get_course c).isSome = true)
    (hfresh : (s, c) ∉ db.registration) :
    (∀ (db₀ : DB) (s₀ c₀ : String),
      (db₀.get_student s₀ = none ∨ db₀.get_course c₀ = none) →
      db₀.register_student s₀ c₀ = .error .notFound) ∧
    ∃ db1, db.register_student s c = .ok db1 ∧ (s, c) ∈ db1.registration ∧
      ∃ db2, db1.register_student s c = .ok db2 ∧
        db2.registration.count (s, c) = 1 := by
  constructor
  · intro db₀ s₀ c₀ h
    unfold DB.register_student
    rcases h with h | h
    · rw [h]
    · rcases hgs : db₀.get_student s₀ with _ | row
      · rfl
      · rw [h]
  · rcases hgs : db.get_student s with _ | srow
    · rw [hgs] at hs
      simp at hs
    rcases hgc : db.get_course c with _ | crow
    · rw [hgc] at hc
      simp at hc
    refine ⟨{ db with registration := db.registration ++ [(s, c)] }, ?_, by simp, ?_⟩
    · unfold DB.register_student
      rw [hgs, hgc]
      dsimp only
      rw [if_neg hfresh]
    · refine ⟨{ db with registration := db.registration ++ [(s, c)] }, ?_, ?_⟩
      · unfold DB.register_student
        dsimp only
        rw [show ({ db with registration := db.registration ++ [(s, c)] } : DB).get_student s = some srow from hgs,
          show ({ db with registration := db.registration ++ [(s, c)] } : DB).get_course c = some crow from hgc]
        dsimp only
        rw [if_pos (by simp)]
      · rw [List.count_append]
        rw [List.count_eq_zero.mpr hfresh]
        simp

/-- Witness for C4 at a one-student, one-course store. -/
theorem C4_register_student_idempotent_witness :
    ∃ db1, (DB.register_student
        { students := [{ student_id := "S001", name := "Alice", age := 20, email := "alice@example.com" }],
          instructors := [], courses := [{ course_id := "CSE101", course_name := "Intro to CS", i_id := none }],
          registration := [] } "S001" "CSE101") = .ok db1 ∧
      ("S001", "CSE101") ∈ db1.registration ∧
      ∃ db2, db1.register_student "S001" "CSE101" = .ok db2 ∧
        db2.registration.count ("S001", "CSE101") = 1 :=
  (C4_register_student_idempotent
    { students := [{ student_id := "S001", name := "Alice", age := 20, email := "alice@example.com" }],
      instructors := [], courses := [{ course_id := "CSE101", course_name := "Intro to CS", i_id := none }],
      registration := [] } "S001" "CSE101" (by rfl) (by rfl) (by simp)).2

/-! ## C5: transactional replacement -/

/-- C5: `import_from_json` either fully replaces the store (the committed
result depends only on the payload, not on the prior state) or, on any
failure, leaves the store exactly in its prior state. -/
theorem C5_import_transactional (db : DB) (payload : Option ImportPayload) :
    ((db.import_from_json payload).2 = false → (db.import_from_json payload).1 = db) ∧
    ((db.import_from_json payload).2 = true →
      ∀ db' : DB, db'.import_from_json payload = ((db.import_from_json payload).1, true)) := by
  rcases payload with _ | p
  · exact ⟨fun _ => rfl, fun h => by simp [DB.import_from_json] at h⟩
  · unfold DB.import_from_json
    dsimp only
    rcases hrun : runImport p with e | db2
    · exact ⟨fun _ => rfl, fun h => by simp at h⟩
    · exact ⟨fun h => by simp at h, fun _ db' => rfl⟩

/-- Witness for C5: a payload with a duplicated student id rolls back; a
well-formed payload commits to the same state from any prior store. -/
theorem C5_import_transactional_witness :
    (DB.import_from_json
      { students := [{ student_id := "S001", name := "Alice", age := 20, email := "alice@example.com" }],
        instructors := [], courses := [], registration := [] }
      (some { students := [{ student_id := "S002", name := "Bob", age := 21, email := "bob@example.com" },
                           { student_id := "S002", name := "Eve", age := 22, email := "eve@example.com" }],
              instructors := [], courses := [], registrations := [] })).1
      = { students := [{ student_id := "S001", name := "Alice", age := 20, email := "alice@example.com" }],
          instructors := [], courses := [], registration := [] } ∧
    DB.import_from_json
      { students := [], instructors := [], courses := [], registration := [("X", "Y")] }
      (some { students := [{ student_id := "S003", name := "Carol", age := 23, email := "carol@example.com" }],
              instructors := [], courses := [], registrations := [("S003", "CSE101"), ("S003", "CSE101")] })
      = ((DB.import_from_json
          { students := [{ student_id := "S001", name := "Alice", age := 20, email := "alice@example.com" }],
            instructors := [], courses := [], registration := [] }
          (some { students := [{ student_id := "S003", name := "Carol", age := 23, email := "carol@example.com" }],
                  instructors := [], courses := [], registrations := [("S003", "CSE101"), ("S003", "CSE101")] })).1,
        true) :=
  ⟨(C5_import_transactional _ _).1 (by rfl),
   (C5_import_transactional _ _).2 (by rfl) _⟩

/-! ## C8: partial updates -/

/-- C8: the three update methods apply only the supplied fields to the
identified row: a call supplying no fields executes no statement, other
tables and other rows are untouched, and columns whose parameter was not
supplied keep their prior values. -/
theorem C8_updates_apply_supplied :
    (∀ (db : DB) (sid : String), db.update_student sid none none none = db) ∧
    (∀ (db : DB) (iid : String), db.update_instructor iid none none none = db) ∧
    (∀ (db : DB) (cid : String), db.update_course cid none none = db) ∧
    (∀ (db : DB) (sid : String) (n : Option String) (a : Option Int) (e : Option String),
      (db.update_student sid n a e).instructors = db.instructors ∧
      (db.update_student sid n a e).courses = db.courses ∧
      (db.update_student sid n a e).registration = db.registration ∧
      ∀ (i : Nat) (r₀ : StudentRow), db.students.get? i = some r₀ →
        ∃ r, (db.update_student sid n a e).students.get? i = some r ∧
          r.student_id = r₀.student_id ∧
          (r₀.student_id ≠ sid → r = r₀) ∧
          (n = none → r.name = r₀.name) ∧
          (a = none → r.age = r₀.age) ∧
          (e = none → r.email = r₀.email)) ∧
    (∀ (db : DB) (iid : String) (n : Option String) (a : Option Int) (e : Option String),
      (db.update_instructor iid n a e).students = db.students ∧
      (db.update_instructor iid n a e).courses = db.courses ∧
      (db.update_instructor iid n a e).registration = db.registration ∧
      ∀ (i : Nat) (r₀ : InstructorRow), db.instructors.get? i = some r₀ →
        ∃ r, (db.update_instructor iid n a e).instructors.get? i = some r ∧
          r.instructor_id = r₀.instructor_id ∧
          (r₀.instructor_id ≠ iid → r = r₀) ∧
          (n = none → r.name = r₀.name) ∧
          (a = none → r.age = r₀.age) ∧
          (e = none → r.email = r₀.email)) ∧
    (∀ (db : DB) (cid : String) (cn : Option String) (ii : Option String),
      (db.update_course cid cn ii).students = db.students ∧
      (db.update_course cid cn ii).instructors = db.instructors ∧
      (db.update_course cid cn ii).registration = db.registration ∧
      ∀ (i : Nat) (r₀ : CourseRow), db.courses.get? i = some r₀ →
        ∃ r, (db.update_course cid cn ii).courses.get? i = some r ∧
          r.course_id = r₀.course_id ∧
          (r₀.course_id ≠ cid → r = r₀) ∧
          (cn = none → r.course_name = r₀.course_name) ∧
          (ii = none → r.i_id = r₀.i_id)) := by
  refine ⟨?_, ?_, ?_, ?_, ?_, ?_⟩
  · intro db sid
    unfold DB.update_student
    rw [if_pos ⟨rfl, rfl, rfl⟩]
  · intro db iid
    unfold DB.update_instructor
    rw [if_pos ⟨rfl, rfl, rfl⟩]
  · intro db cid
    unfold DB.update_course
    rw [if_pos ⟨rfl, rfl⟩]
  · intro db sid n a e
    unfold DB.update_student
    split
    · exact ⟨rfl, rfl, rfl, fun i r₀ h => ⟨r₀, h, rfl, fun _ => rfl, fun _ => rfl, fun _ => rfl, fun _ => rfl⟩⟩
    · refine ⟨rfl, rfl, rfl, fun i r₀ h => ?_⟩
      refine ⟨if r₀.student_id = sid then
          { r₀ with name := (truthyStr n).getD r₀.name, age := a.getD r₀.age,
                    email := (truthyStr e).getD r₀.email } else r₀, ?_, ?_, ?_, ?_, ?_, ?_⟩
      · simp only [List.get?_map, h, Option.map_some']
      · split <;> rfl
      · intro hne
        rw [if_neg hne]
      · intro hn
        subst hn
        split <;> rfl
      · intro ha
        subst ha
        split <;> rfl
      · intro he
        subst he
        split <;> rfl
  · intro db iid n a e
    unfold DB.update_instructor
    split
    · exact ⟨rfl, rfl, rfl, fun i r₀ h => ⟨r₀, h, rfl, fun _ => rfl, fun _ => rfl, fun _ => rfl, fun _ => rfl⟩⟩
    · refine ⟨rfl, rfl, rfl, fun i r₀ h => ?_⟩
      refine ⟨if r₀.instructor_id = iid then
          { r₀ with name := (truthyStr n).getD r₀.name, age := a.getD r₀.age,
                    email := (truthyStr e).getD r₀.email } else r₀, ?_, ?_, ?_, ?_, ?_, ?_⟩
      · simp only [List.get?_map, h, Option.map_some']
      · split <;> rfl
      · intro hne
        rw [if_neg hne]
      · intro hn
        subst hn
        split <;> rfl
      · intro ha
        subst ha
        split <;> rfl
      · intro he
        subst he
        split <;> rfl
  · intro db cid cn ii
    unfold DB.update_course
    split
    · exact ⟨rfl, rfl, rfl, fun i r₀ h => ⟨r₀, h, rfl, fun _ => rfl, fun _ => rfl, fun _ => rfl⟩⟩
    · refine ⟨rfl, rfl, rfl, fun i r₀ h => ?_⟩
      refine ⟨if r₀.course_id = cid then
          { r₀ with course_name := (truthyStr cn).getD r₀.course_name,
                    i_id := applyIId ii r₀.i_id } else r₀, ?_, ?_, ?_, ?_, ?_⟩
      · simp only [List.get?_map, h, Option.map_some']
      · split <;> rfl
      · intro hne
        rw [if_neg hne]
      · intro hn
        subst hn
        split <;> rfl
      · intro hi
        subst hi
        split <;> rfl

/-- Witness for C8 at a one-row store: the no-op call and a name-only
update that keeps age and email. -/
theorem C8_updates_apply_supplied_witness :
    DB.update_student
      { students := [{ student_id := "S001", name := "Alice", age := 20, email := "alice@example.com" }],
        instructors := [], courses := [], registration := [] } "S001" none none none
      = { students := [{ student_id := "S001", name := "Alice", age := 20, email := "alice@example.com" }],
          instructors := [], courses := [], registration := [] } ∧
    ∃ r, (DB.update_student
        { students := [{ student_id := "S001", name := "Alice", age := 20, email := "alice@example.com" }],
          instructors := [], courses := [], registration := [] } "S001" (some "Alicia") none none).students.get? 0
        = some r ∧
      r.student_id = "S001" ∧
      r.age = 20 ∧ r.email = "alice@example.com" := by
  constructor
  · exact C8_updates_apply_supplied.1
      { students := [{ student_id := "S001", name := "Alice", age := 20, email := "alice@example.com" }],
        instructors := [], courses := [], registration := [] } "S001"
  · obtain ⟨r, hr, hid, _, _, hage, hemail⟩ :=
      (C8_updates_apply_supplied.2.2.2.1
        { students := [{ student_id := "S001", name := "Alice", age := 20, email := "alice@example.com" }],
          instructors := [], courses := [], registration := [] } "S001" (some "Alicia") none none).2.2.2
        0 { student_id := "S001", name := "Alice", age := 20, email := "alice@example.com" } rfl
    exact ⟨r, hr, hid, hage rfl, hemail rfl⟩

/-! ## The JSON codec

A JSON document is modelled structurally: each record field is an `Option`
(`none` = the key is absent).  A course record's `instructor_id` is
`Option (Option PyStr)`: `none` = key absent, `some none` = explicit null —
`cd.get("instructor_id")` collapses both to `None`.

Loading follows the source passes: (1) construct entities from scalar
fields via `from_dict` (which indexes the required keys, raising `KeyError`
when absent, and validates via the constructors); (2) re-attach
student↔course links from each student's id list; (3) re-attach
course→instructor and course→student links; (4) re-attach instructor→course
links.  Unresolvable id references are silently dropped. -/

structure StudentDoc where
  name : Option PyStr
  age : Option Int
  email : Option PyStr
  student_id : Option PyStr
  registered_course_ids : Option (List PyStr)
deriving Repr, DecidableEq

structure InstructorDoc where
  name : Option PyStr
  age : Option Int
  email : Option PyStr
  instructor_id : Option PyStr
  assigned_course_ids : Option (List PyStr)
deriving Repr, DecidableEq

structure CourseDoc where
  course_id : Option PyStr
  course_name : Option PyStr
  instructor_id : Option (Option PyStr)
  enrolled_student_ids : Option (List PyStr)
deriving Repr, DecidableEq

structure Doc where
  students : List StudentDoc
  instructors : List InstructorDoc
  courses : List CourseDoc
deriving Repr, DecidableEq

/-- `Student.from_dict`: index the four scalar keys (KeyError when absent)
and run the validating constructor (`Person.__init__` then the student id
check); relationships start empty. -/
def Student.from_dict (d : StudentDoc) : Except PyErr StudentObj :=
  match d.name, d.age, d.email, d.student_id with
  | some n, some a, some e, some sid =>
    if matchPersonName (pyStrip n) = false then .error .valueError
    else if decide (0 ≤ a) = false then .error .valueError
    else if matchEmail (pyStrip e) = false then .error .valueError
    else if matchPersonId (pyStrip sid) = false then .error .valueError
    else .ok { name := norm_name n, age := a, email := norm_email e,
               student_id := norm_id sid, registered_courses := [] }
  | _, _, _, _ => .error .keyError

/-- `Instructor.from_dict`. -/
def Instructor.from_dict (d : InstructorDoc) : Except PyErr InstructorObj :=
  match d.name, d.age, d.email, d.instructor_id with
  | some n, some a, some e, some iid =>
    if matchPersonName (pyStrip n) = false then .error .valueError
    else if decide (0 ≤ a) = false then .error .valueError
    else if matchEmail (pyStrip e) = false then .error .valueError
    else if matchPersonId (pyStrip iid) = false then .error .valueError
    else .ok { name := norm_name n, age := a, email := norm_email e,
               instructor_id := norm_id iid, assigned_courses := [] }
  | _, _, _, _ => .error .keyError

/-- `Course.from_dict`: the instructor is intentionally not attached. -/
def Course.from_dict (d : CourseDoc) : Except PyErr CourseObj :=
  match d.course_id, d.course_name with
  | some cid, some cn =>
    if matchCourseId (pyStrip cid) = false then .error .valueError
    else if matchCourseName (pyStrip cn) = false then .error .valueError
    else .ok { course_id := norm_id cid, course_name := norm_name cn,
               instructor := none, enrolled_students := [] }
  | _, _ => .error .keyError

/-- `c.course_id` read through a reference (Python would raise on a
non-Course reference; unreachable for the saved graphs). -/
def courseIdIn (w : World) (c : Nat) : PyStr :=
  match w.courseAt c with
  | some co => co.course_id
  | none => []

def studentIdIn (w : World) (s : Nat) : PyStr :=
  match w.studentAt s with
  | some st => st.student_id
  | none => []

def instructorIdIn (w : World) (i : Nat) : PyStr :=
  match w.instructorAt i with
  | some ins => ins.instructor_id
  | none => []

/-- `Student.to_dict` of the object at reference `r`. -/
def studentDocOf (w : World) (r : Nat) : StudentDoc :=
  match w.studentAt r with
  | some st =>
    { name := some st.name, age := some st.age, email := some st.email,
      student_id := some st.student_id,
      registered_course_ids := some (st.registered_courses.map (courseIdIn w)) }
  | none =>
    { name := none, age := none, email := none, student_id := none,
      registered_course_ids := none }

/-- `Instructor.to_dict` of the object at reference `r`. -/
def instructorDocOf (w : World) (r : Nat) : InstructorDoc :=
  match w.instructorAt r with
  | some ins =>
    { name := some ins.name, age := some ins.age, email := some ins.email,
      instructor_id := some ins.instructor_id,
      assigned_course_ids := some (ins.assigned_courses.map (courseIdIn w)) }
  | none =>
    { name := none, age := none, email := none, instructor_id := none,
      assigned_course_ids := none }

/-- `Course.to_dict` of the object at reference `r`: the instructor is an
id-only reference or null. -/
def courseDocOf (w : World) (r : Nat) : CourseDoc :=
  match w.courseAt r with
  | some co =>
    { course_id := some co.course_id, course_name := some co.course_name,
      instructor_id := some (match co.instructor with
        | some i => some (instructorIdIn w i)
        | none => none),
      enrolled_student_ids := some (co.enrolled_students.map (studentIdIn w)) }
  | none =>
    { course_id := none, course_name := none, instructor_id := none,
      enrolled_student_ids := none }

/-- `save_to_json`: serialize the given students, instructors and courses
(the document, with the file write abstracted away). -/
def save_to_json (w : World) (ss is0 cs : List Nat) : Doc :=
  { students := ss.map (studentDocOf w),
    instructors := is0.map (instructorDocOf w),
    courses := cs.map (courseDocOf w) }

/-- An id-keyed dictionary; later insertions are consed in front, so
lookup returns the latest binding, like a Python dict. -/
abbrev IdMap := List (PyStr × Nat)

/-- `dict.get(key)` on an `IdMap`. -/
def lookupId : IdMap → PyStr → Option Nat
  | [], _ => none
  | (k, v) :: m, id0 => if k = id0 then some v else lookupId m id0

/-- Pass 1 for students: construct each object (allocating fresh references
from the counter) and key it by its id. -/
def buildStudents : List StudentDoc → World → IdMap → Nat → Except PyErr (World × IdMap × Nat)
  | [], w, m, n => .ok (w, m, n)
  | d :: ds, w, m, n =>
    match Student.from_dict d with
    | .error e => .error e
    | .ok st => buildStudents ds (w.set n (.student st)) ((st.student_id, n) :: m) (n + 1)

def buildInstructors : List InstructorDoc → World → IdMap → Nat → Except PyErr (World × IdMap × Nat)
  | [], w, m, n => .ok (w, m, n)
  | d :: ds, w, m, n =>
    match Instructor.from_dict d with
    | .error e => .error e
    | .ok ins => buildInstructors ds (w.set n (.instructor ins)) ((ins.instructor_id, n) :: m) (n + 1)

def buildCourses : List CourseDoc → World → IdMap → Nat → Except PyErr (World × IdMap × Nat)
  | [], w, m, n => .ok (w, m, n)
  | d :: ds, w, m, n =>
    match Course.from_dict d with
    | .error e => .error e
    | .ok co => buildCourses ds (w.set n (.course co)) ((co.course_id, n) :: m) (n + 1)

/-- Pass 2, one student record: `s = students_by_id.get(sd["student_id"])`,
then for each recorded course id, `c.add_student(s)` when both resolve. -/
def pass2Student (smap cmap : IdMap) (w : World) (d : StudentDoc) : Except PyErr World :=
  match d.student_id with
  | none => .error .keyError
  | some sid =>
    .ok ((d.registered_course_ids.getD []).foldl (fun w' cid =>
      match lookupId smap sid, lookupId cmap cid with
      | some s, some c => Course.add_student w' c s
      | _, _ => w') w)

/-- Pass 3, one course record: attach the recorded instructor (both `None`
and the empty string are falsy and skipped), then ensure the recorded
enrolled students are present. -/
def pass3Course (smap imap cmap : IdMap) (w : World) (d : CourseDoc) : Except PyErr World :=
  match d.course_id with
  | none => .error .keyError
  | some cid =>
    let w1 :=
      match lookupId cmap cid, d.instructor_id.getD none with
      | some c, some iid =>
        if iid ≠ [] then
          match lookupId imap iid with
          | some i => Course.set_instructor w c (some i)
          | none => w
        else w
      | _, _ => w
    .ok ((d.enrolled_student_ids.getD []).foldl (fun w' sid =>
      match lookupId cmap cid, lookupId smap sid with
      | some c, some s => Course.add_student w' c s
      | _, _ => w') w1)

/-- Pass 4, one instructor record: `i.assign_course(c)` for each recorded
course id that resolves. -/
def pass4Instructor (imap cmap : IdMap) (w : World) (d : InstructorDoc) : Except PyErr World :=
  match d.instructor_id with
  | none => .error .keyError
  | some iid =>
    .ok ((d.assigned_course_ids.getD []).foldl (fun w' cid =>
      match lookupId imap iid, lookupId cmap cid with
      | some i, some c => Instructor.assign_course w' i c
      | _, _ => w') w)

/-- Run a per-record pass over a list of records, propagating exceptions. -/
def passFold (f : World → α → Except PyErr World) : World → List α → Except PyErr World
  | w, [] => .ok w
  | w, d :: ds =>
    match f w d with
    | .error e => .error e
    | .ok w' => passFold f w' ds

/-- The empty heap the loader starts from. -/
def emptyWorld : World := ⟨fun _ => none⟩

/-- `load_from_json`: construct all entities, then re-wire relationships in
the source's pass order. -/
def load_from_json (doc : Doc) : Except PyErr (World × IdMap × IdMap × IdMap) := do
  let (w1, smap, n1) ← buildStudents doc.students emptyWorld [] 0
  let (w2, imap, n2) ← buildInstructors doc.instructors w1 [] n1
  let (w3, cmap, _) ← buildCourses doc.courses w2 [] n2
  let w4 ← passFold (pass2Student smap cmap) w3 doc.students
  let w5 ← passFold (pass3Course smap imap cmap) w4 doc.courses
  let w6 ← passFold (pass4Instructor imap cmap) w5 doc.instructors
  pure (w6, smap, imap, cmap)

/-! ## C6: field absence during load -/

/-- Make a student record's relationship field explicit
(`none` ↦ the empty list `load_from_json` defaults to). -/
def fillS (d : StudentDoc) : StudentDoc :=
  { d with registered_course_ids := some (d.registered_course_ids.getD []) }

def fillI (d : InstructorDoc) : InstructorDoc :=
  { d with assigned_course_ids := some (d.assigned_course_ids.getD []) }

def fillC (d : CourseDoc) : CourseDoc :=
  { d with instructor_id := some (d.instructor_id.getD none),
           enrolled_student_ids := some (d.enrolled_student_ids.getD []) }

/-- Make every relationship field of a document explicit, keeping the
scalar fields untouched. -/
def fillRel (doc : Doc) : Doc :=
  { students := doc.students.map fillS,
    instructors := doc.instructors.map fillI,
    courses := doc.courses.map fillC }

/-- All four scalar keys of a student record are present and pass the
constructor's validators. -/
def studentScalarsOK (d : StudentDoc) : Bool :=
  match d.name, d.age, d.email, d.student_id with
  | some n, some a, some e, some sid =>
    matchPersonName (pyStrip n) && decide (0 ≤ a) && matchEmail (pyStrip e) &&
      matchPersonId (pyStrip sid)
  | _, _, _, _ => false

def instructorScalarsOK (d : InstructorDoc) : Bool :=
  match d.name, d.age, d.email, d.instructor_id with
  | some n, some a, some e, some iid =>
    matchPersonName (pyStrip n) && decide (0 ≤ a) && matchEmail (pyStrip e) &&
      matchPersonId (pyStrip iid)
  | _, _, _, _ => false

def courseScalarsOK (d : CourseDoc) : Bool :=
  match d.course_id, d.course_name with
  | some cid, some cn => matchCourseId (pyStrip cid) && matchCourseName (pyStrip cn)
  | _, _ => false

/-- A document whose only student record omits the scalar key `name`. -/
def c6BadDoc : Doc :=
  { students := [{ name := none, age := some 20, email := some (strOf "a@b.co"),
                   student_id := some (strOf "S001"), registered_course_ids := none }],
    instructors := [], courses := [] }

theorem from_dict_fillS (d : StudentDoc) :
    Student.from_dict (fillS d) = Student.from_dict d := by
  cases d with
  | mk n a e sid reg => cases n <;> cases a <;> cases e <;> cases sid <;> rfl

theorem from_dict_fillI (d : InstructorDoc) :
    Instructor.from_dict (fillI d) = Instructor.from_dict d := by
  cases d with
  | mk n a e iid asg => cases n <;> cases a <;> cases e <;> cases iid <;> rfl

theorem from_dict_fillC (d : CourseDoc) :
    Course.from_dict (fillC d) = Course.from_dict d := by
  cases d with
  | mk cid cn iid enr => cases cid <;> cases cn <;> rfl

theorem pass2Student_fillS (smap cmap : IdMap) (w : World) (d : StudentDoc) :
    pass2Student smap cmap w (fillS d) = pass2Student smap cmap w d := by
  cases d with
  | mk n a e sid reg => cases sid <;> cases reg <;> rfl

theorem pass3Course_fillC (smap imap cmap : IdMap) (w : World) (d : CourseDoc) :
    pass3Course smap imap cmap w (fillC d) = pass3Course smap imap cmap w d := by
  cases d with
  | mk cid cn iid enr => cases cid <;> cases iid <;> cases enr <;> rfl

theorem pass4Instructor_fillI (imap cmap : IdMap) (w : World) (d : InstructorDoc) :
    pass4Instructor imap cmap w (fillI d) = pass4Instructor imap cmap w d := by
  cases d with
  | mk n a e iid asg => cases iid <;> cases asg <;> rfl

theorem buildStudents_map_fillS (l : List StudentDoc) :
    ∀ (w : World) (m : IdMap) (n : Nat),
      buildStudents (l.map fillS) w m n = buildStudents l w m n := by
  induction l with
  | nil => intro w m n; rfl
  | cons d ds ih =>
    intro w m n
    simp only [List.map_cons, buildStudents, from_dict_fillS]
    cases Student.from_dict d with
    | error e => rfl
    | ok st => exact ih _ _ _

theorem buildInstructors_map_fillI (l : List InstructorDoc) :
    ∀ (w : World) (m : IdMap) (n : Nat),
      buildInstructors (l.map fillI) w m n = buildInstructors l w m n := by
  induction l with
  | nil => intro w m n; rfl
  | cons d ds ih =>
    intro w m n
    simp only [List.map_cons, buildInstructors, from_dict_fillI]
    cases Instructor.from_dict d with
    | error e => rfl
    | ok ins => exact ih _ _ _

theorem buildCourses_map_fillC (l : List CourseDoc) :
    ∀ (w : World) (m : IdMap) (n : Nat),
      buildCourses (l.map fillC) w m n = buildCourses l w m n := by
  induction l with
  | nil => intro w m n; rfl
  | cons d ds ih =>
    intro w m n
    simp only [List.map_cons, buildCourses, from_dict_fillC]
    cases Course.from_dict d with
    | error e => rfl
    | ok co => exact ih _ _ _

theorem passFold_map_congr (f : World → α → Except PyErr World) (g : α → α)
    (h : ∀ (w : World) (d : α), f w (g d) = f w d) (l : List α) :
    ∀ (w : World), passFold f w (l.map g) = passFold f w l := by
  induction l with
  | nil => intro w; rfl
  | cons d ds ih =>
    intro w
    simp only [List.map_cons, passFold, h]
    cases f w d with
    | error e => rfl
    | ok w1 => exact ih _

theorem from_dict_ok_of_scalars (d : StudentDoc) (h : studentScalarsOK d = true) :
    ∃ st, Student.from_dict d = .ok st := by
  rcases d with ⟨n, a, e, sid, reg⟩
  cases n with
  | none => simp [studentScalarsOK] at h
  | some n =>
  cases a with
  | none => simp [studentScalarsOK] at h
  | some a =>
  cases e with
  | none => simp [studentScalarsOK] at h
  | some e =>
  cases sid with
  | none => simp [studentScalarsOK] at h
  | some sid =>
  simp only [studentScalarsOK, Bool.and_eq_true] at h
  obtain ⟨⟨⟨h1, h2⟩, h3⟩, h4⟩ := h
  exact ⟨{ name := norm_name n, age := a, email := norm_email e,
           student_id := norm_id sid, registered_courses := [] },
    by simp [Student.from_dict, h1, h2, h3, h4]⟩

theorem ifrom_dict_ok_of_scalars (d : InstructorDoc) (h : instructorScalarsOK d = true) :
    ∃ ins, Instructor.from_dict d = .ok ins := by
  rcases d with ⟨n, a, e, iid, asg⟩
  cases n with
  | none => simp [instructorScalarsOK] at h
  | some n =>
  cases a with
  | none => simp [instructorScalarsOK] at h
  | some a =>
  cases e with
  | none => simp [instructorScalarsOK] at h
  | some e =>
  cases iid with
  | none => simp [instructorScalarsOK] at h
  | some iid =>
  simp only [instructorScalarsOK, Bool.and_eq_true] at h
  obtain ⟨⟨⟨h1, h2⟩, h3⟩, h4⟩ := h
  exact ⟨{ name := norm_name n, age := a, email := norm_email e,
           instructor_id := norm_id iid, assigned_courses := [] },
    by simp [Instructor.from_dict, h1, h2, h3, h4]⟩

theorem cfrom_dict_ok_of_scalars (d : CourseDoc) (h : courseScalarsOK d = true) :
    ∃ co, Course.from_dict d = .ok co := by
  rcases d with ⟨cid, cn, iid, enr⟩
  cases cid with
  | none => simp [courseScalarsOK] at h
  | some cid =>
  cases cn with
  | none => simp [courseScalarsOK] at h
  | some cn =>
  simp only [courseScalarsOK, Bool.and_eq_true] at h
  obtain ⟨h1, h2⟩ := h
  exact ⟨{ course_id := norm_id cid, course_name := norm_name cn,
           instructor := none, enrolled_students := [] },
    by simp [Course.from_dict, h1, h2]⟩

theorem buildStudents_ok (l : List StudentDoc)
    (h : ∀ d ∈ l, studentScalarsOK d = true) :
    ∀ (w : World) (m : IdMap) (n : Nat),
      ∃ w1 m1 n1, buildStudents l w m n = .ok (w1, m1, n1) := by
  induction l with
  | nil => intro w m n; exact ⟨w, m, n, rfl⟩
  | cons d ds ih =>
    intro w m n
    obtain ⟨st, hst⟩ := from_dict_ok_of_scalars d (h d (by simp))
    obtain ⟨w1, m1, n1, hrec⟩ := ih (fun d hd => h d (by simp [hd])) (w.set n (.student st)) ((st.student_id, n) :: m) (n + 1)
    exact ⟨w1, m1, n1, by simp only [buildStudents, hst]; exact hrec⟩

theorem buildInstructors_ok (l : List InstructorDoc)
    (h : ∀ d ∈ l, instructorScalarsOK d = true) :
    ∀ (w : World) (m : IdMap) (n : Nat),
      ∃ w1 m1 n1, buildInstructors l w m n = .ok (w1, m1, n1) := by
  induction l with
  | nil => intro w m n; exact ⟨w, m, n, rfl⟩
  | cons d ds ih =>
    intro w m n
    obtain ⟨ins, hins⟩ := ifrom_dict_ok_of_scalars d (h d (by simp))
    obtain ⟨w1, m1, n1, hrec⟩ := ih (fun d hd => h d (by simp [hd])) (w.set n (.instructor ins)) ((ins.instructor_id, n) :: m) (n + 1)
    exact ⟨w1, m1, n1, by simp only [buildInstructors, hins]; exact hrec⟩

theorem buildCourses_ok (l : List CourseDoc)
    (h : ∀ d ∈ l, courseScalarsOK d = true) :
    ∀ (w : World) (m : IdMap) (n : Nat),
      ∃ w1 m1 n1, buildCourses l w m n = .ok (w1, m1, n1) := by
  induction l with
  | nil => intro w m n; exact ⟨w, m, n, rfl⟩
  | cons d ds ih =>
    intro w m n
    obtain ⟨co, hco⟩ := cfrom_dict_ok_of_scalars d (h d (by simp))
    obtain ⟨w1, m1, n1, hrec⟩ := ih (fun d hd => h d (by simp [hd])) (w.set n (.course co)) ((co.course_id, n) :: m) (n + 1)
    exact ⟨w1, m1, n1, by simp only [buildCourses, hco]; exact hrec⟩

theorem passFold_ok (f : World → α → Except PyErr World) (l : List α)
    (h : ∀ d ∈ l, ∀ (w : World), ∃ w1, f w d = .ok w1) :
    ∀ (w : World), ∃ w1, passFold f w l = .ok w1 := by
  induction l with
  | nil => intro w; exact ⟨w, rfl⟩
  | cons d ds ih =>
    intro w
    obtain ⟨w1, h1⟩ := h d (by simp) w
    obtain ⟨w2, h2⟩ := ih (fun d hd => h d (by simp [hd])) w1
    exact ⟨w2, by simp only [passFold, h1]; exact h2⟩

theorem pass2Student_ok (smap cmap : IdMap) (w : World) (d : StudentDoc)
    (h : d.student_id.isSome = true) : ∃ w1, pass2Student smap cmap w d = .ok w1 := by
  rcases d with ⟨n, a, e, sid, reg⟩
  cases sid with
  | none => simp at h
  | some sid => exact ⟨_, rfl⟩

theorem pass3Course_ok (smap imap cmap : IdMap) (w : World) (d : CourseDoc)
    (h : d.course_id.isSome = true) : ∃ w1, pass3Course smap imap cmap w d = .ok w1 := by
  rcases d with ⟨cid, cn, iid, enr⟩
  cases cid with
  | none => simp at h
  | some cid => exact ⟨_, rfl⟩

theorem pass4Instructor_ok (imap cmap : IdMap) (w : World) (d : InstructorDoc)
    (h : d.instructor_id.isSome = true) : ∃ w1, pass4Instructor imap cmap w d = .ok w1 := by
  rcases d with ⟨n, a, e, iid, asg⟩
  cases iid with
  | none => simp at h
  | some iid => exact ⟨_, rfl⟩

theorem sid_isSome_of_scalars (d : StudentDoc) (h : studentScalarsOK d = true) :
    d.student_id.isSome = true := by
  rcases d with ⟨n, a, e, sid, reg⟩
  cases n <;> cases a <;> cases e <;> cases sid <;> simp_all [studentScalarsOK]

theorem iid_isSome_of_scalars (d : InstructorDoc) (h : instructorScalarsOK d = true) :
    d.instructor_id.isSome = true := by
  rcases d with ⟨n, a, e, iid, asg⟩
  cases n <;> cases a <;> cases e <;> cases iid <;> simp_all [instructorScalarsOK]

theorem cid_isSome_of_scalars (d : CourseDoc) (h : courseScalarsOK d = true) :
    d.course_id.isSome = true := by
  rcases d with ⟨cid, cn, iid, enr⟩
  cases cid <;> cases cn <;> simp_all [courseScalarsOK]

theorem passFold_pass2_fill (smap cmap : IdMap) (l : List StudentDoc) (w : World) :
    passFold (pass2Student smap cmap) w (l.map fillS) =
      passFold (pass2Student smap cmap) w l :=
  passFold_map_congr _ _ (fun w d => pass2Student_fillS smap cmap w d) l w

theorem passFold_pass3_fill (smap imap cmap : IdMap) (l : List CourseDoc) (w : World) :
    passFold (pass3Course smap imap cmap) w (l.map fillC) =
      passFold (pass3Course smap imap cmap) w l :=
  passFold_map_congr _ _ (fun w d => pass3Course_fillC smap imap cmap w d) l w

theorem passFold_pass4_fill (imap cmap : IdMap) (l : List InstructorDoc) (w : World) :
    passFold (pass4Instructor imap cmap) w (l.map fillI) =
      passFold (pass4Instructor imap cmap) w l :=
  passFold_map_congr _ _ (fun w d => pass4Instructor_fillI imap cmap w d) l w

/-- C6 counterexample: a document whose student record omits the scalar key
`name` makes `load_from_json` raise `KeyError` (`Student.from_dict` indexes
`d["name"]`), so field absence is not universally tolerated. -/
theorem C6_counterexample_missing_scalar :
    load_from_json c6BadDoc = .error .keyError := rfl

/-- C6 (amended): during load, absence of a relationship field
(`registered_course_ids`, `assigned_course_ids`, `enrolled_student_ids`,
`instructor_id`) is treated as the empty list / null and is never an error:
when every record's scalar fields are present and valid, `load_from_json`
completes without raising and returns exactly what it returns on the
document with the missing relationship fields made explicit.  (Absence of a
scalar field, by contrast, raises `KeyError`.) -/
theorem C6_field_absence_defaults (doc : Doc)
    (hs : ∀ d ∈ doc.students, studentScalarsOK d = true)
    (hi : ∀ d ∈ doc.instructors, instructorScalarsOK d = true)
    (hc : ∀ d ∈ doc.courses, courseScalarsOK d = true) :
    (load_from_json doc).isOk = true ∧
    load_from_json doc = load_from_json (fillRel doc) := by
  obtain ⟨w1, m1, n1, hb1⟩ := buildStudents_ok doc.students hs emptyWorld [] 0
  obtain ⟨w2, m2, n2, hb2⟩ := buildInstructors_ok doc.instructors hi w1 [] n1
  obtain ⟨w3, m3, n3, hb3⟩ := buildCourses_ok doc.courses hc w2 [] n2
  obtain ⟨w4, hp2⟩ := passFold_ok (pass2Student m1 m3) doc.students
    (fun d hd w => pass2Student_ok m1 m3 w d (sid_isSome_of_scalars d (hs d hd))) w3
  obtain ⟨w5, hp3⟩ := passFold_ok (pass3Course m1 m2 m3) doc.courses
    (fun d hd w => pass3Course_ok m1 m2 m3 w d (cid_isSome_of_scalars d (hc d hd))) w4
  obtain ⟨w6, hp4⟩ := passFold_ok (pass4Instructor m2 m3) doc.instructors
    (fun d hd w => pass4Instructor_ok m2 m3 w d (iid_isSome_of_scalars d (hi d hd))) w5
  have hload : load_from_json doc = .ok (w6, m1, m2, m3) := by
    simp only [load_from_json, bind, Except.bind, pure, Except.pure,
      hb1, hb2, hb3, hp2, hp3, hp4]
  have hfill : load_from_json (fillRel doc) = .ok (w6, m1, m2, m3) := by
    simp only [load_from_json, fillRel, buildStudents_map_fillS,
      buildInstructors_map_fillI, buildCourses_map_fillC,
      passFold_pass2_fill, passFold_pass3_fill, passFold_pass4_fill,
      bind, Except.bind, pure, Except.pure, hb1, hb2, hb3, hp2, hp3, hp4]
  exact ⟨by rw [hload]; rfl, by rw [hload, hfill]⟩

/-- A well-formed document in which every relationship field is absent. -/
def c6Doc : Doc :=
  { students := [{ name := some (strOf "Alice Smith"), age := some 20,
                   email := some (strOf "alice@mail.com"),
                   student_id := some (strOf "S001"),
                   registered_course_ids := none }],
    instructors := [{ name := some (strOf "Bob Jones"), age := some 41,
                      email := some (strOf "bob@mail.com"),
                      instructor_id := some (strOf "I001"),
                      assigned_course_ids := none }],
    courses := [{ course_id := some (strOf "CS101"),
                  course_name := some (strOf "Intro Prog"),
                  instructor_id := none,
                  enrolled_student_ids := none }] }

theorem C6_field_absence_defaults_witness :
    (∀ d ∈ c6Doc.students, studentScalarsOK d = true) ∧
    (∀ d ∈ c6Doc.instructors, instructorScalarsOK d = true) ∧
    (∀ d ∈ c6Doc.courses, courseScalarsOK d = true) ∧
    ((load_from_json c6Doc).isOk = true ∧
      load_from_json c6Doc = load_from_json (fillRel c6Doc)) :=
  ⟨by decide, by decide, by decide,
    C6_field_absence_defaults c6Doc (by decide) (by decide) (by decide)⟩

/-! ## C2: JSON round-trip

Machinery: the worlds and id maps `load_from_json` builds out of a saved
document are computed in closed form, then the three re-wiring passes are
characterised by induction. -/

/-- The student object at `r` (junk default on untyped refs). -/
def stOf (w : World) (r : Nat) : StudentObj :=
  (w.studentAt r).getD { name := [], age := 0, email := [], student_id := [],
                         registered_courses := [] }

def insOf (w : World) (r : Nat) : InstructorObj :=
  (w.instructorAt r).getD { name := [], age := 0, email := [], instructor_id := [],
                            assigned_courses := [] }

def coOf (w : World) (r : Nat) : CourseObj :=
  (w.courseAt r).getD { course_id := [], course_name := [], instructor := none,
                        enrolled_students := [] }

/-- A freshly constructed copy: relationships cleared, scalars kept. -/
def cleanS (st : StudentObj) : StudentObj := { st with registered_courses := [] }

def cleanI (ins : InstructorObj) : InstructorObj := { ins with assigned_courses := [] }

def cleanC (co : CourseObj) : CourseObj :=
  { co with instructor := none, enrolled_students := [] }

/-- The field conditions the validated `Student` constructor guarantees:
each scalar passes its validator and is a fixpoint of its normalizer. -/
def goodS (st : StudentObj) : Prop :=
  matchPersonName (pyStrip st.name) = true ∧ norm_name st.name = st.name ∧
  0 ≤ st.age ∧
  matchEmail (pyStrip st.email) = true ∧ norm_email st.email = st.email ∧
  matchPersonId (pyStrip st.student_id) = true ∧ norm_id st.student_id = st.student_id

def goodI (ins : InstructorObj) : Prop :=
  matchPersonName (pyStrip ins.name) = true ∧ norm_name ins.name = ins.name ∧
  0 ≤ ins.age ∧
  matchEmail (pyStrip ins.email) = true ∧ norm_email ins.email = ins.email ∧
  matchPersonId (pyStrip ins.instructor_id) = true ∧
  norm_id ins.instructor_id = ins.instructor_id

def goodC (co : CourseObj) : Prop :=
  matchCourseId (pyStrip co.course_id) = true ∧ norm_id co.course_id = co.course_id ∧
  matchCourseName (pyStrip co.course_name) = true ∧
  norm_name co.course_name = co.course_name

instance (st : StudentObj) : Decidable (goodS st) := by unfold goodS; infer_instance
instance (ins : InstructorObj) : Decidable (goodI ins) := by unfold goodI; infer_instance
instance (co : CourseObj) : Decidable (goodC co) := by unfold goodC; infer_instance

/-- The id-map entries pass 1 accumulates for the refs `l`, keyed by the id
function `f`, the counter starting at `n` (latest binding in front). -/
def entriesOf (f : Nat → PyStr) : List Nat → Nat → IdMap
  | [], _ => []
  | s :: l, n => entriesOf f l (n + 1) ++ [(f s, n)]

theorem lookupId_append_of_some (m1 m2 : IdMap) (k : PyStr) (v : Nat)
    (h : lookupId m1 k = some v) : lookupId (m1 ++ m2) k = some v := by
  induction m1 with
  | nil => simp [lookupId] at h
  | cons p m ih =>
    rcases p with ⟨k0, v0⟩
    by_cases hk : k0 = k
    · simp only [lookupId, if_pos hk] at h ⊢; exact h
    · simp only [lookupId, if_neg hk] at h ⊢; exact ih h

theorem lookupId_append_of_none (m1 m2 : IdMap) (k : PyStr)
    (h : lookupId m1 k = none) : lookupId (m1 ++ m2) k = lookupId m2 k := by
  induction m1 with
  | nil => rfl
  | cons p m ih =>
    rcases p with ⟨k0, v0⟩
    by_cases hk : k0 = k
    · simp only [lookupId, if_pos hk] at h
      exact absurd h (by simp)
    · simp only [lookupId, if_neg hk] at h ⊢; exact ih h

theorem lookupId_append_inv (m1 m2 : IdMap) (k : PyStr) (v : Nat)
    (h : lookupId (m1 ++ m2) k = some v) :
    lookupId m1 k = some v ∨ (lookupId m1 k = none ∧ lookupId m2 k = some v) := by
  induction m1 with
  | nil => exact Or.inr ⟨rfl, h⟩
  | cons p m ih =>
    rcases p with ⟨k0, v0⟩
    by_cases hk : k0 = k
    · simp only [lookupId, if_pos hk] at h ⊢; exact Or.inl h
    · simp only [lookupId, if_neg hk] at h ⊢; exact ih h

theorem entriesOf_lookup_none (f : Nat → PyStr) (l : List Nat) (id0 : PyStr)
    (h : ∀ s ∈ l, f s ≠ id0) :
    ∀ n0, lookupId (entriesOf f l n0) id0 = none := by
  induction l with
  | nil => intro n0; rfl
  | cons s l ih =>
    intro n0
    have h1 : lookupId (entriesOf f l (n0 + 1)) id0 = none :=
      ih (fun x hx => h x (by simp [hx])) (n0 + 1)
    rw [entriesOf, lookupId_append_of_none _ _ _ h1]
    simp [lookupId, h s (by simp)]

theorem entriesOf_lookup (f : Nat → PyStr) (l : List Nat)
    (hn : (l.map f).Nodup) :
    ∀ (n0 idx : Nat) (s : Nat), l.get? idx = some s →
      lookupId (entriesOf f l n0) (f s) = some (n0 + idx) := by
  induction l with
  | nil => intro n0 idx s h; simp at h
  | cons y l ih =>
    intro n0 idx s h
    rw [List.map_cons, List.nodup_cons] at hn
    cases idx with
    | zero =>
      simp only [List.get?] at h
      injection h with h
      subst h
      have hnone : lookupId (entriesOf f l (n0 + 1)) (f y) = none := by
        refine entriesOf_lookup_none f l (f y) (fun x hx hfx => ?_) (n0 + 1)
        exact hn.1 (by rw [← hfx]; exact List.mem_map_of_mem f hx)
      rw [entriesOf, lookupId_append_of_none _ _ _ hnone]
      simp [lookupId]
    | succ idx =>
      simp only [List.get?] at h
      have hrec := ih hn.2 (n0 + 1) idx s h
      rw [entriesOf, lookupId_append_of_some _ _ _ _ hrec]
      congr 1
      omega

theorem entriesOf_lookup_inv (f : Nat → PyStr) (l : List Nat) :
    ∀ (n0 : Nat) (id0 : PyStr) (r : Nat),
      lookupId (entriesOf f l n0) id0 = some r →
      ∃ idx s, l.get? idx = some s ∧ r = n0 + idx ∧ f s = id0 := by
  induction l with
  | nil => intro n0 id0 r h; simp [entriesOf, lookupId] at h
  | cons y l ih =>
    intro n0 id0 r h
    rw [entriesOf] at h
    rcases lookupId_append_inv _ _ _ _ h with h1 | ⟨h1, h2⟩
    · obtain ⟨idx, s, hg, hr, hf⟩ := ih (n0 + 1) id0 r h1
      exact ⟨idx + 1, s, by simpa using hg, by omega, hf⟩
    · simp only [lookupId] at h2
      by_cases hy : f y = id0
      · rw [if_pos hy] at h2
        cases h2
        exact ⟨0, y, rfl, by omega, hy⟩
      · rw [if_neg hy] at h2
        cases h2

theorem studentAt_isSome_eq (w : World) (s : Nat) (h : (w.studentAt s).isSome = true) :
    w.studentAt s = some (stOf w s) := by
  unfold stOf
  cases hw : w.studentAt s with
  | none => rw [hw] at h; simp at h
  | some st => rfl

theorem instructorAt_isSome_eq (w : World) (i : Nat) (h : (w.instructorAt i).isSome = true) :
    w.instructorAt i = some (insOf w i) := by
  unfold insOf
  cases hw : w.instructorAt i with
  | none => rw [hw] at h; simp at h
  | some ins => rfl

theorem courseAt_isSome_eq (w : World) (c : Nat) (h : (w.courseAt c).isSome = true) :
    w.courseAt c = some (coOf w c) := by
  unfold coOf
  cases hw : w.courseAt c with
  | none => rw [hw] at h; simp at h
  | some co => rfl

theorem studentIdIn_eq (w : World) (s : Nat) (h : w.studentAt s = some (stOf w s)) :
    studentIdIn w s = (stOf w s).student_id := by
  rw [studentIdIn, h]

theorem instructorIdIn_eq (w : World) (i : Nat) (h : w.instructorAt i = some (insOf w i)) :
    instructorIdIn w i = (insOf w i).instructor_id := by
  rw [instructorIdIn, h]

theorem courseIdIn_eq (w : World) (c : Nat) (h : w.courseAt c = some (coOf w c)) :
    courseIdIn w c = (coOf w c).course_id := by
  rw [courseIdIn, h]

theorem from_dict_studentDocOf (w : World) (s : Nat)
    (h : w.studentAt s = some (stOf w s)) (hg : goodS (stOf w s)) :
    Student.from_dict (studentDocOf w s) = .ok (cleanS (stOf w s)) := by
  obtain ⟨h1, h2, h3, h4, h5, h6, h7⟩ := hg
  have h3d : decide (0 ≤ (stOf w s).age) = true := decide_eq_true h3
  simp only [studentDocOf, h, Student.from_dict, h1, h3d, h4, h6]
  simp [cleanS, h2, h5, h7]

theorem from_dict_instructorDocOf (w : World) (i : Nat)
    (h : w.instructorAt i = some (insOf w i)) (hg : goodI (insOf w i)) :
    Instructor.from_dict (instructorDocOf w i) = .ok (cleanI (insOf w i)) := by
  obtain ⟨h1, h2, h3, h4, h5, h6, h7⟩ := hg
  have h3d : decide (0 ≤ (insOf w i).age) = true := decide_eq_true h3
  simp only [instructorDocOf, h, Instructor.from_dict, h1, h3d, h4, h6]
  simp [cleanI, h2, h5, h7]

theorem from_dict_courseDocOf (w : World) (c : Nat)
    (h : w.courseAt c = some (coOf w c)) (hg : goodC (coOf w c)) :
    Course.from_dict (courseDocOf w c) = .ok (cleanC (coOf w c)) := by
  obtain ⟨h1, h2, h3, h4⟩ := hg
  simp only [courseDocOf, h, Course.from_dict, h1, h3]
  simp [cleanC, h2, h4]

theorem buildStudents_eval (w : World) (l : List Nat)
    (hT : ∀ s ∈ l, (w.studentAt s).isSome = true)
    (hG : ∀ s ∈ l, goodS (stOf w s)) :
    ∀ (w0 : World) (m0 : IdMap) (n0 : Nat),
      ∃ w1, buildStudents (l.map (studentDocOf w)) w0 m0 n0 =
              .ok (w1, entriesOf (studentIdIn w) l n0 ++ m0, n0 + l.length) ∧
        (∀ k, k < n0 → w1.heap k = w0.heap k) ∧
        (∀ k, n0 + l.length ≤ k → w1.heap k = w0.heap k) ∧
        (∀ idx s, l.get? idx = some s →
           w1.heap (n0 + idx) = some (.student (cleanS (stOf w s)))) := by
  induction l with
  | nil =>
    intro w0 m0 n0
    exact ⟨w0, by simp [buildStudents, entriesOf], fun k _ => rfl, fun k _ => rfl,
      fun idx s h => by simp at h⟩
  | cons s l ih =>
    intro w0 m0 n0
    have hst : w.studentAt s = some (stOf w s) := studentAt_isSome_eq w s (hT s (by simp))
    have hkey : (cleanS (stOf w s)).student_id = studentIdIn w s := by
      rw [studentIdIn_eq w s hst]; rfl
    obtain ⟨w1, hb, hlow, hhigh, hcontent⟩ :=
      ih (fun x hx => hT x (by simp [hx])) (fun x hx => hG x (by simp [hx]))
        (w0.set n0 (.student (cleanS (stOf w s))))
        (((cleanS (stOf w s)).student_id, n0) :: m0) (n0 + 1)
    refine ⟨w1, ?_, ?_, ?_, ?_⟩
    · simp only [List.map_cons, buildStudents,
        from_dict_studentDocOf w s hst (hG s (by simp))]
      rw [hb, hkey]
      have hlen : n0 + 1 + l.length = n0 + (s :: l).length := by simp only [List.length_cons]; omega
      have hmap : entriesOf (studentIdIn w) l (n0 + 1) ++ ((studentIdIn w s, n0) :: m0) =
          entriesOf (studentIdIn w) (s :: l) n0 ++ m0 := by
        simp [entriesOf, List.append_assoc]
      rw [hlen, hmap]
    · intro k hk
      rw [hlow k (by omega)]
      show (if k = n0 then _ else w0.heap k) = w0.heap k
      rw [if_neg (by omega)]
    · intro k hk
      simp only [List.length_cons] at hk
      rw [hhigh k (by omega)]
      show (if k = n0 then _ else w0.heap k) = w0.heap k
      rw [if_neg (by omega)]
    · intro idx s0 hg0
      cases idx with
      | zero =>
        simp only [List.get?] at hg0
        injection hg0 with hg0
        subst hg0
        rw [Nat.add_zero, hlow n0 (by omega)]
        show (if n0 = n0 then some (Obj.student (cleanS (stOf w s))) else _) = _
        rw [if_pos rfl]
      | succ idx =>
        simp only [List.get?] at hg0
        have heq : n0 + (idx + 1) = n0 + 1 + idx := by omega
        rw [heq]
        exact hcontent idx s0 hg0

theorem buildInstructors_eval (w : World) (l : List Nat)
    (hT : ∀ i ∈ l, (w.instructorAt i).isSome = true)
    (hG : ∀ i ∈ l, goodI (insOf w i)) :
    ∀ (w0 : World) (m0 : IdMap) (n0 : Nat),
      ∃ w1, buildInstructors (l.map (instructorDocOf w)) w0 m0 n0 =
              .ok (w1, entriesOf (instructorIdIn w) l n0 ++ m0, n0 + l.length) ∧
        (∀ k, k < n0 → w1.heap k = w0.heap k) ∧
        (∀ k, n0 + l.length ≤ k → w1.heap k = w0.heap k) ∧
        (∀ idx i, l.get? idx = some i →
           w1.heap (n0 + idx) = some (.instructor (cleanI (insOf w i)))) := by
  induction l with
  | nil =>
    intro w0 m0 n0
    exact ⟨w0, by simp [buildInstructors, entriesOf], fun k _ => rfl, fun k _ => rfl,
      fun idx i h => by simp at h⟩
  | cons i l ih =>
    intro w0 m0 n0
    have hit : w.instructorAt i = some (insOf w i) := instructorAt_isSome_eq w i (hT i (by simp))
    have hkey : (cleanI (insOf w i)).instructor_id = instructorIdIn w i := by
      rw [instructorIdIn_eq w i hit]; rfl
    obtain ⟨w1, hb, hlow, hhigh, hcontent⟩ :=
      ih (fun x hx => hT x (by simp [hx])) (fun x hx => hG x (by simp [hx]))
        (w0.set n0 (.instructor (cleanI (insOf w i))))
        (((cleanI (insOf w i)).instructor_id, n0) :: m0) (n0 + 1)
    refine ⟨w1, ?_, ?_, ?_, ?_⟩
    · simp only [List.map_cons, buildInstructors,
        from_dict_instructorDocOf w i hit (hG i (by simp))]
      rw [hb, hkey]
      have hlen : n0 + 1 + l.length = n0 + (i :: l).length := by simp only [List.length_cons]; omega
      have hmap : entriesOf (instructorIdIn w) l (n0 + 1) ++ ((instructorIdIn w i, n0) :: m0) =
          entriesOf (instructorIdIn w) (i :: l) n0 ++ m0 := by
        simp [entriesOf, List.append_assoc]
      rw [hlen, hmap]
    · intro k hk
      rw [hlow k (by omega)]
      show (if k = n0 then _ else w0.heap k) = w0.heap k
      rw [if_neg (by omega)]
    · intro k hk
      simp only [List.length_cons] at hk
      rw [hhigh k (by omega)]
      show (if k = n0 then _ else w0.heap k) = w0.heap k
      rw [if_neg (by omega)]
    · intro idx i0 hg0
      cases idx with
      | zero =>
        simp only [List.get?] at hg0
        injection hg0 with hg0
        subst hg0
        rw [Nat.add_zero, hlow n0 (by omega)]
        show (if n0 = n0 then some (Obj.instructor (cleanI (insOf w i))) else _) = _
        rw [if_pos rfl]
      | succ idx =>
        simp only [List.get?] at hg0
        have heq : n0 + (idx + 1) = n0 + 1 + idx := by omega
        rw [heq]
        exact hcontent idx i0 hg0

theorem buildCourses_eval (w : World) (l : List Nat)
    (hT : ∀ c ∈ l, (w.courseAt c).isSome = true)
    (hG : ∀ c ∈ l, goodC (coOf w c)) :
    ∀ (w0 : World) (m0 : IdMap) (n0 : Nat),
      ∃ w1, buildCourses (l.map (courseDocOf w)) w0 m0 n0 =
              .ok (w1, entriesOf (courseIdIn w) l n0 ++ m0, n0 + l.length) ∧
        (∀ k, k < n0 → w1.heap k = w0.heap k) ∧
        (∀ k, n0 + l.length ≤ k → w1.heap k = w0.heap k) ∧
        (∀ idx c, l.get? idx = some c →
           w1.heap (n0 + idx) = some (.course (cleanC (coOf w c)))) := by
  induction l with
  | nil =>
    intro w0 m0 n0
    exact ⟨w0, by simp [buildCourses, entriesOf], fun k _ => rfl, fun k _ => rfl,
      fun idx c h => by simp at h⟩
  | cons c l ih =>
    intro w0 m0 n0
    have hct : w.courseAt c = some (coOf w c) := courseAt_isSome_eq w c (hT c (by simp))
    have hkey : (cleanC (coOf w c)).course_id = courseIdIn w c := by
      rw [courseIdIn_eq w c hct]; rfl
    obtain ⟨w1, hb, hlow, hhigh, hcontent⟩ :=
      ih (fun x hx => hT x (by simp [hx])) (fun x hx => hG x (by simp [hx]))
        (w0.set n0 (.course (cleanC (coOf w c))))
        (((cleanC (coOf w c)).course_id, n0) :: m0) (n0 + 1)
    refine ⟨w1, ?_, ?_, ?_, ?_⟩
    · simp only [List.map_cons, buildCourses,
        from_dict_courseDocOf w c hct (hG c (by simp))]
      rw [hb, hkey]
      have hlen : n0 + 1 + l.length = n0 + (c :: l).length := by simp only [List.length_cons]; omega
      have hmap : entriesOf (courseIdIn w) l (n0 + 1) ++ ((courseIdIn w c, n0) :: m0) =
          entriesOf (courseIdIn w) (c :: l) n0 ++ m0 := by
        simp [entriesOf, List.append_assoc]
      rw [hlen, hmap]
    · intro k hk
      rw [hlow k (by omega)]
      show (if k = n0 then _ else w0.heap k) = w0.heap k
      rw [if_neg (by omega)]
    · intro k hk
      simp only [List.length_cons] at hk
      rw [hhigh k (by omega)]
      show (if k = n0 then _ else w0.heap k) = w0.heap k
      rw [if_neg (by omega)]
    · intro idx c0 hg0
      cases idx with
      | zero =>
        simp only [List.get?] at hg0
        injection hg0 with hg0
        subst hg0
        rw [Nat.add_zero, hlow n0 (by omega)]
        show (if n0 = n0 then some (Obj.course (cleanC (coOf w c))) else _) = _
        rw [if_pos rfl]
      | succ idx =>
        simp only [List.get?] at hg0
        have heq : n0 + (idx + 1) = n0 + 1 + idx := by omega
        rw [heq]
        exact hcontent idx c0 hg0

theorem instructorAt_none_of_studentAt (w : World) (x : Nat) (st : StudentObj)
    (h : w.studentAt x = some st) : w.instructorAt x = none := by
  unfold World.studentAt at h
  unfold World.instructorAt
  rcases hh : w.heap x with _ | o
  · rw [hh] at h
  · rw [hh] at h; cases o <;> simp_all

theorem studentAt_none_of_instructorAt (w : World) (x : Nat) (ins : InstructorObj)
    (h : w.instructorAt x = some ins) : w.studentAt x = none := by
  unfold World.instructorAt at h
  unfold World.studentAt
  rcases hh : w.heap x with _ | o
  · rw [hh] at h
  · rw [hh] at h; cases o <;> simp_all

/-- The same references hold a student / instructor / course in both worlds. -/
def SameDom (w1 w2 : World) : Prop :=
  (∀ r, (w2.studentAt r).isSome = (w1.studentAt r).isSome) ∧
  (∀ r, (w2.instructorAt r).isSome = (w1.instructorAt r).isSome) ∧
  (∀ r, (w2.courseAt r).isSome = (w1.courseAt r).isSome)

theorem sameDom_refl (w : World) : SameDom w w := ⟨fun _ => rfl, fun _ => rfl, fun _ => rfl⟩

theorem sameDom_trans {w1 w2 w3 : World} (a : SameDom w1 w2) (b : SameDom w2 w3) :
    SameDom w1 w3 :=
  ⟨fun r => (b.1 r).trans (a.1 r), fun r => (b.2.1 r).trans (a.2.1 r),
   fun r => (b.2.2 r).trans (a.2.2 r)⟩

/-- Both relationship-list views can only grow. -/
def MonoLinks (w1 w2 : World) : Prop :=
  (∀ r x, x ∈ enrolledOf w1 r → x ∈ enrolledOf w2 r) ∧
  (∀ r x, x ∈ registeredOf w1 r → x ∈ registeredOf w2 r)

theorem monoLinks_refl (w : World) : MonoLinks w w := ⟨fun _ _ h => h, fun _ _ h => h⟩

theorem monoLinks_trans {w1 w2 w3 : World} (a : MonoLinks w1 w2) (b : MonoLinks w2 w3) :
    MonoLinks w1 w3 :=
  ⟨fun r x h => b.1 r x (a.1 r x h), fun r x h => b.2 r x (a.2 r x h)⟩

theorem monoLinks_of_sameSC {w1 w2 : World} (h : SameSC w1 w2) : MonoLinks w1 w2 := by
  constructor
  · intro r x hx
    unfold enrolledOf at hx ⊢
    have := h.2 r
    cases h1 : w1.courseAt r with
    | none => rw [h1] at hx; simp at hx
    | some co =>
      rw [h1] at hx this
      cases h2 : w2.courseAt r with
      | none => rw [h2] at this; simp at this
      | some co' =>
        rw [h2] at this
        simp at this
        dsimp only at hx ⊢
        rw [this]
        exact hx
  · intro r x hx
    unfold registeredOf at hx ⊢
    have := h.1 r
    cases h1 : w1.studentAt r with
    | none => rw [h1] at hx; simp at hx
    | some st =>
      rw [h1] at hx this
      cases h2 : w2.studentAt r with
      | none => rw [h2] at this; simp at this
      | some st' =>
        rw [h2] at this
        simp at this
        dsimp only at hx ⊢
        rw [this]
        exact hx

/-- The four mutually exclusive evaluations of `Course.add_student`. -/
theorem add_student_cases (w : World) (c s : Nat) :
    Course.add_student w c s = w ∨
    ∃ co st, w.courseAt c = some co ∧ w.studentAt s = some st ∧
      s ∉ co.enrolled_students ∧
      ((c ∈ st.registered_courses ∧ Course.add_student w c s =
          w.set c (.course { co with enrolled_students := co.enrolled_students ++ [s] })) ∨
       (c ∉ st.registered_courses ∧ Course.add_student w c s =
          (w.set c (.course { co with enrolled_students := co.enrolled_students ++ [s] })).set s
            (.student { st with registered_courses := st.registered_courses ++ [c] }))) := by
  unfold Course.add_student
  cases hc : w.courseAt c with
  | none => exact Or.inl rfl
  | some co =>
    cases hs : w.studentAt s with
    | none => exact Or.inl rfl
    | some st =>
      dsimp only
      by_cases h1 : s ∈ co.enrolled_students
      · rw [if_pos h1]; exact Or.inl rfl
      · rw [if_neg h1]
        by_cases h2 : c ∈ st.registered_courses
        · rw [if_pos h2]
          exact Or.inr ⟨co, st, rfl, rfl, h1, Or.inl ⟨h2, rfl⟩⟩
        · rw [if_neg h2]
          exact Or.inr ⟨co, st, rfl, rfl, h1, Or.inr ⟨h2, rfl⟩⟩

theorem instructorAt_add_student (w : World) (c s r : Nat) :
    (Course.add_student w c s).instructorAt r = w.instructorAt r := by
  rcases add_student_cases w c s with h | ⟨co, st, hc, hs, hmem, hbr⟩
  · rw [h]
  · have hsc : s ≠ c := student_ne_course w s c st co hs hc
    rcases hbr with ⟨h2, h⟩ | ⟨h2, h⟩ <;> rw [h]
    · by_cases hr : r = c
      · subst hr
        rw [instructorAt_set_course, instructorAt_none_of_courseAt w r co hc]
      · rw [instructorAt_set_ne _ _ _ _ hr]
    · by_cases hr : r = s
      · subst hr
        rw [instructorAt_set_student, instructorAt_none_of_studentAt w r st hs]
      · rw [instructorAt_set_ne _ _ _ _ hr]
        by_cases hr2 : r = c
        · subst hr2
          rw [instructorAt_set_course, instructorAt_none_of_courseAt w r co hc]
        · rw [instructorAt_set_ne _ _ _ _ hr2]

theorem assignedOf_add_student (w : World) (c s r : Nat) :
    assignedOf (Course.add_student w c s) r = assignedOf w r := by
  unfold assignedOf
  rw [instructorAt_add_student]

theorem instructorRefOf_add_student (w : World) (c s r : Nat) :
    instructorRefOf (Course.add_student w c s) r = instructorRefOf w r := by
  rcases add_student_cases w c s with h | ⟨co, st, hc, hs, hmem, hbr⟩
  · rw [h]
  · have hsc : s ≠ c := student_ne_course w s c st co hs hc
    unfold instructorRefOf
    rcases hbr with ⟨h2, h⟩ | ⟨h2, h⟩ <;> rw [h]
    · by_cases hr : r = c
      · subst hr
        rw [courseAt_set_course, hc]
      · rw [courseAt_set_ne _ _ _ _ hr]
    · by_cases hr : r = s
      · subst hr
        rw [courseAt_set_student, courseAt_none_of_studentAt w r st hs]
      · rw [courseAt_set_ne _ _ _ _ hr]
        by_cases hr2 : r = c
        · subst hr2
          rw [courseAt_set_course, hc]
        · rw [courseAt_set_ne _ _ _ _ hr2]

theorem sameDom_add_student (w : World) (c s : Nat) :
    SameDom w (Course.add_student w c s) := by
  rcases add_student_cases w c s with h | ⟨co, st, hc, hs, hmem, hbr⟩
  · rw [h]; exact sameDom_refl w
  · have hsc : s ≠ c := student_ne_course w s c st co hs hc
    rcases hbr with ⟨h2, h⟩ | ⟨h2, h⟩ <;> rw [h] <;>
      refine ⟨fun r => ?_, fun r => ?_, fun r => ?_⟩
    · by_cases hr : r = c
      · subst hr; rw [studentAt_set_course, studentAt_none_of_courseAt w r co hc]
      · rw [studentAt_set_ne _ _ _ _ hr]
    · by_cases hr : r = c
      · subst hr; rw [instructorAt_set_course, instructorAt_none_of_courseAt w r co hc]
      · rw [instructorAt_set_ne _ _ _ _ hr]
    · by_cases hr : r = c
      · subst hr; rw [courseAt_set_course, hc]; rfl
      · rw [courseAt_set_ne _ _ _ _ hr]
    · by_cases hr : r = s
      · subst hr; rw [studentAt_set_student, hs]; rfl
      · rw [studentAt_set_ne _ _ _ _ hr]
        by_cases hr2 : r = c
        · subst hr2; rw [studentAt_set_course, studentAt_none_of_courseAt w r co hc]
        · rw [studentAt_set_ne _ _ _ _ hr2]
    · by_cases hr : r = s
      · subst hr; rw [instructorAt_set_student, instructorAt_none_of_studentAt w r st hs]
      · rw [instructorAt_set_ne _ _ _ _ hr]
        by_cases hr2 : r = c
        · subst hr2; rw [instructorAt_set_course, instructorAt_none_of_courseAt w r co hc]
        · rw [instructorAt_set_ne _ _ _ _ hr2]
    · by_cases hr : r = s
      · subst hr; rw [courseAt_set_student, courseAt_none_of_studentAt w r st hs]
      · rw [courseAt_set_ne _ _ _ _ hr]
        by_cases hr2 : r = c
        · subst hr2; rw [courseAt_set_course, hc]; rfl
        · rw [courseAt_set_ne _ _ _ _ hr2]

theorem nodup_append_single {l : List Nat} {a : Nat} (h : l.Nodup) (ha : a ∉ l) :
    (l ++ [a]).Nodup := by
  induction l with
  | nil => simp
  | cons b l ih =>
    simp only [List.cons_append, List.nodup_cons] at h ⊢
    refine ⟨?_, ih h.2 (fun hx => ha (by simp [hx]))⟩
    intro hmem2
    rcases List.mem_append.mp hmem2 with hb | hb
    · exact h.1 hb
    · rw [List.mem_singleton] at hb
      subst hb
      exact ha (by simp)

theorem enrolledNodup_add_student (w : World) (c s : Nat) (h : EnrolledNodup w) :
    EnrolledNodup (Course.add_student w c s) := by
  rcases add_student_cases w c s with heq | ⟨co, st, hc, hs, hmem, hbr⟩
  · rw [heq]; exact h
  · have hsc : s ≠ c := student_ne_course w s c st co hs hc
    rcases hbr with ⟨h2, heq⟩ | ⟨h2, heq⟩ <;> rw [heq] <;> intro c' co' hc'
    · by_cases hr : c' = c
      · subst hr
        rw [courseAt_set_course] at hc'
        injection hc' with hc'
        subst hc'
        exact nodup_append_single (h c' co hc) hmem
      · rw [courseAt_set_ne _ _ _ _ hr] at hc'
        exact h c' co' hc'
    · by_cases hr : c' = s
      · subst hr
        rw [courseAt_set_student] at hc'
        exact Option.noConfusion hc'
      · rw [courseAt_set_ne _ _ _ _ hr] at hc'
        by_cases hr2 : c' = c
        · subst hr2
          rw [courseAt_set_course] at hc'
          injection hc' with hc'
          subst hc'
          exact nodup_append_single (h c' co hc) hmem
        · rw [courseAt_set_ne _ _ _ _ hr2] at hc'
          exact h c' co' hc'

theorem registeredNodup_add_student (w : World) (c s : Nat) (h : RegisteredNodup w) :
    RegisteredNodup (Course.add_student w c s) := by
  rcases add_student_cases w c s with heq | ⟨co, st, hc, hs, hmem, hbr⟩
  · rw [heq]; exact h
  · have hsc : s ≠ c := student_ne_course w s c st co hs hc
    rcases hbr with ⟨h2, heq⟩ | ⟨h2, heq⟩ <;> rw [heq] <;> intro s' st' hs'
    · by_cases hr : s' = c
      · subst hr
        rw [studentAt_set_course] at hs'
        exact Option.noConfusion hs'
      · rw [studentAt_set_ne _ _ _ _ hr] at hs'
        exact h s' st' hs'
    · by_cases hr : s' = s
      · subst hr
        rw [studentAt_set_student] at hs'
        injection hs' with hs'
        subst hs'
        exact nodup_append_single (h s' st hs) h2
      · rw [studentAt_set_ne _ _ _ _ hr] at hs'
        by_cases hr2 : s' = c
        · subst hr2
          rw [studentAt_set_course] at hs'
          exact Option.noConfusion hs'
        · rw [studentAt_set_ne _ _ _ _ hr2] at hs'
          exact h s' st' hs'

theorem assignedNodup_add_student (w : World) (c s : Nat) (h : AssignedNodup w) :
    AssignedNodup (Course.add_student w c s) := by
  intro i ins hi
  rw [instructorAt_add_student] at hi
  exact h i ins hi

theorem instructorAt_set_course_any (w : World) (r x : Nat) (co : CourseObj)
    (hx : w.courseAt r = some co) :
    ∀ co', (w.set r (.course co')).instructorAt x = w.instructorAt x := by
  intro co'
  by_cases hr : x = r
  · subst hr
    rw [instructorAt_set_course, instructorAt_none_of_courseAt w x co hx]
  · rw [instructorAt_set_ne _ _ _ _ hr]

theorem instructorAt_attachCourse_other (w : World) (i c x : Nat) (hx : x ≠ i) :
    (attachCourse w i c).instructorAt x = w.instructorAt x := by
  unfold attachCourse
  rcases hio : w.instructorAt i with _ | ins
  · rfl
  dsimp only
  by_cases hmem : c ∈ ins.assigned_courses
  · rw [if_pos hmem]
  · rw [if_neg hmem, instructorAt_set_ne _ _ _ _ hx]

theorem assignedOf_attachCourse_mono (w : World) (i c r x : Nat)
    (h : x ∈ assignedOf w r) : x ∈ assignedOf (attachCourse w i c) r := by
  unfold attachCourse
  rcases hio : w.instructorAt i with _ | ins
  · exact h
  dsimp only
  by_cases hmem : c ∈ ins.assigned_courses
  · rw [if_pos hmem]; exact h
  · rw [if_neg hmem]
    by_cases hr : r = i
    · subst hr
      unfold assignedOf at h ⊢
      rw [hio] at h
      rw [instructorAt_set_instructor]
      simp only []
      exact List.mem_append.mpr (Or.inl h)
    · unfold assignedOf at h ⊢
      rw [instructorAt_set_ne _ _ _ _ hr]
      exact h

theorem assignedOf_attachCourse_self (w : World) (i c : Nat) (ins : InstructorObj)
    (h : w.instructorAt i = some ins) : c ∈ assignedOf (attachCourse w i c) i := by
  by_cases hmem : c ∈ ins.assigned_courses
  · rw [attachCourse_eval_mem w i c ins h hmem]
    unfold assignedOf
    rw [h]
    exact hmem
  · rw [attachCourse_eval_add w i c ins h hmem]
    unfold assignedOf
    rw [instructorAt_set_instructor]
    simp

theorem assignedNodup_attachCourse (w : World) (i c : Nat) (h : AssignedNodup w) :
    AssignedNodup (attachCourse w i c) := by
  rcases hio : w.instructorAt i with _ | ins
  · rw [attachCourse, hio]; exact h
  by_cases hmem : c ∈ ins.assigned_courses
  · rw [attachCourse_eval_mem w i c ins hio hmem]; exact h
  · rw [attachCourse_eval_add w i c ins hio hmem]
    intro i' ins' hi'
    by_cases hr : i' = i
    · subst hr
      rw [instructorAt_set_instructor] at hi'
      injection hi' with hi'
      subst hi'
      exact nodup_append_single (h i' ins hio) hmem
    · rw [instructorAt_set_ne _ _ _ _ hr] at hi'
      exact h i' ins' hi'

/-- Pass 3's `set_instructor` call on a freshly built course (current
pointer `None`, argument an instructor reference): pointer set, back-link
attached. -/
theorem set_instructor_fresh (w : World) (c i : Nat) (co : CourseObj)
    (hc : w.courseAt c = some co) (hptr : co.instructor = none) :
    Course.set_instructor w c (some i) =
      attachCourse (w.set c (.course { co with instructor := some i })) i c := by
  unfold Course.set_instructor
  rw [hc]
  dsimp only
  rw [hptr]
  rw [if_neg (by simp)]

theorem sameDom_set_course (w : World) (r : Nat) (co co' : CourseObj)
    (h : w.courseAt r = some co) : SameDom w (w.set r (.course co')) := by
  refine ⟨fun x => ?_, fun x => ?_, fun x => ?_⟩
  · by_cases hx : x = r
    · subst hx; rw [studentAt_set_course, studentAt_none_of_courseAt w x co h]
    · rw [studentAt_set_ne _ _ _ _ hx]
  · by_cases hx : x = r
    · subst hx; rw [instructorAt_set_course, instructorAt_none_of_courseAt w x co h]
    · rw [instructorAt_set_ne _ _ _ _ hx]
  · by_cases hx : x = r
    · subst hx; rw [courseAt_set_course, h]; rfl
    · rw [courseAt_set_ne _ _ _ _ hx]

theorem sameDom_attachCourse (w : World) (i c : Nat) :
    SameDom w (attachCourse w i c) := by
  rcases hio : w.instructorAt i with _ | ins
  · rw [attachCourse, hio]; exact sameDom_refl w
  by_cases hmem : c ∈ ins.assigned_courses
  · rw [attachCourse_eval_mem w i c ins hio hmem]; exact sameDom_refl w
  · rw [attachCourse_eval_add w i c ins hio hmem]
    refine ⟨fun x => ?_, fun x => ?_, fun x => ?_⟩
    · by_cases hx : x = i
      · subst hx; rw [studentAt_set_instructor, studentAt_none_of_instructorAt w x ins hio]
      · rw [studentAt_set_ne _ _ _ _ hx]
    · by_cases hx : x = i
      · subst hx; rw [instructorAt_set_instructor, hio]; rfl
      · rw [instructorAt_set_ne _ _ _ _ hx]
    · by_cases hx : x = i
      · subst hx; rw [courseAt_set_instructor, courseAt_none_of_instructorAt w x ins hio]
      · rw [courseAt_set_ne _ _ _ _ hx]

theorem instructorAt_attachCourse_isSome (w : World) (i c x : Nat) :
    ((attachCourse w i c).instructorAt x).isSome = (w.instructorAt x).isSome :=
  (sameDom_attachCourse w i c).2.1 x

/-- Everything pass 3 needs about a fresh `set_instructor` call. -/
theorem set_instructor_fresh_facts (w : World) (c i : Nat) (co : CourseObj)
    (ins : InstructorObj) (hc : w.courseAt c = some co) (hptr : co.instructor = none)
    (hi : w.instructorAt i = some ins) :
    SameSC w (Course.set_instructor w c (some i)) ∧
    SameDom w (Course.set_instructor w c (some i)) ∧
    instructorRefOf (Course.set_instructor w c (some i)) c = some i ∧
    (∀ x, x ≠ c → instructorRefOf (Course.set_instructor w c (some i)) x =
      instructorRefOf w x) ∧
    c ∈ assignedOf (Course.set_instructor w c (some i)) i ∧
    (∀ r x, x ∈ assignedOf w r → x ∈ assignedOf (Course.set_instructor w c (some i)) r) ∧
    (AssignedNodup w → AssignedNodup (Course.set_instructor w c (some i))) := by
  rw [set_instructor_fresh w c i co hc hptr]
  have hins2 : (w.set c (.course { co with instructor := some i })).instructorAt i =
      some ins := by
    rw [instructorAt_set_course_any w c i co hc]
    exact hi
  have hia : ∀ x, (w.set c (.course { co with instructor := some i })).instructorAt x =
      w.instructorAt x := fun x => instructorAt_set_course_any w c x co hc _
  refine ⟨?_, ?_, ?_, ?_, ?_, ?_, ?_⟩
  · exact (sameSC_set_course_keep w c co { co with instructor := some i } hc rfl).trans (sameSC_attachCourse _ i c)
  · exact sameDom_trans (sameDom_set_course w c co _ hc) (sameDom_attachCourse _ i c)
  · unfold instructorRefOf
    rw [courseAt_attachCourse, courseAt_set_course]
  · intro x hx
    unfold instructorRefOf
    rw [courseAt_attachCourse, courseAt_set_ne _ _ _ _ hx]
  · exact assignedOf_attachCourse_self _ i c ins hins2
  · intro r x hx
    refine assignedOf_attachCourse_mono _ i c r x ?_
    unfold assignedOf
    rw [hia r]
    exact hx
  · intro h
    refine assignedNodup_attachCourse _ i c ?_
    intro i' ins' hi'
    rw [hia i'] at hi'
    exact h i' ins' hi'

/-- Pass 4's `assign_course` call: the back-link is already present and the
course already points at the instructor, so the call changes nothing. -/
theorem assign_course_noop (w : World) (i c : Nat) (ins : InstructorObj) (co : CourseObj)
    (hi : w.instructorAt i = some ins) (hmem : c ∈ ins.assigned_courses)
    (hc : w.courseAt c = some co) (hptr : co.instructor = some i) :
    Instructor.assign_course w i c = w := by
  unfold Instructor.assign_course
  rw [hi]
  dsimp only
  rw [attachCourse_eval_mem w i c ins hi hmem, hc]
  dsimp only
  rw [if_pos hptr]

theorem monoLinks_add_student (w : World) (c s : Nat) :
    MonoLinks w (Course.add_student w c s) := by
  rcases add_student_cases w c s with heq | ⟨co, st, hc, hs, hmem, hbr⟩
  · rw [heq]; exact monoLinks_refl w
  · have hsc : s ≠ c := student_ne_course w s c st co hs hc
    rcases hbr with ⟨h2, heq⟩ | ⟨h2, heq⟩ <;> rw [heq] <;> constructor
    · intro r x hx
      unfold enrolledOf at hx ⊢
      by_cases hr : r = c
      · subst hr
        rw [courseAt_set_course]
        rw [hc] at hx
        exact List.mem_append.mpr (Or.inl hx)
      · rw [courseAt_set_ne _ _ _ _ hr]
        exact hx
    · intro r x hx
      unfold registeredOf at hx ⊢
      by_cases hr : r = c
      · subst hr
        rw [studentAt_set_course]
        rw [studentAt_none_of_courseAt w r co hc] at hx
        exact hx
      · rw [studentAt_set_ne _ _ _ _ hr]
        exact hx
    · intro r x hx
      unfold enrolledOf at hx ⊢
      by_cases hr : r = s
      · subst hr
        rw [courseAt_set_student]
        rw [courseAt_none_of_studentAt w r st hs] at hx
        exact hx
      · rw [courseAt_set_ne _ _ _ _ hr]
        by_cases hr2 : r = c
        · subst hr2
          rw [courseAt_set_course]
          rw [hc] at hx
          exact List.mem_append.mpr (Or.inl hx)
        · rw [courseAt_set_ne _ _ _ _ hr2]
          exact hx
    · intro r x hx
      unfold registeredOf at hx ⊢
      by_cases hr : r = s
      · subst hr
        rw [studentAt_set_student]
        rw [hs] at hx
        exact List.mem_append.mpr (Or.inl hx)
      · rw [studentAt_set_ne _ _ _ _ hr]
        by_cases hr2 : r = c
        · subst hr2
          rw [studentAt_set_course]
          rw [studentAt_none_of_courseAt w r co hc] at hx
          exact hx
        · rw [studentAt_set_ne _ _ _ _ hr2]
          exact hx

/-- Effect of a fold of guarded `add_student` calls (the shape of pass 2's
inner loop and of pass 3's enrolled-students loop): resolvable pairs get
linked on both sides, everything else about the world is framed. -/
theorem fold_adds (w3 : World) (resolve : PyStr → Option (Nat × Nat))
    (g : World → PyStr → World)
    (hg : ∀ (w' : World) (x : PyStr), g w' x = match resolve x with
        | some p => Course.add_student w' p.1 p.2
        | none => w')
    (hres : ∀ x p, resolve x = some p →
        (w3.courseAt p.1).isSome = true ∧ (w3.studentAt p.2).isSome = true) :
    ∀ (L : List PyStr) (w' : World), SameDom w3 w' → StudentCoupled w' →
      SameDom w3 (L.foldl g w') ∧
      StudentCoupled (L.foldl g w') ∧
      MonoLinks w' (L.foldl g w') ∧
      (∀ r, (L.foldl g w').instructorAt r = w'.instructorAt r) ∧
      (∀ r, instructorRefOf (L.foldl g w') r = instructorRefOf w' r) ∧
      (EnrolledNodup w' → EnrolledNodup (L.foldl g w')) ∧
      (RegisteredNodup w' → RegisteredNodup (L.foldl g w')) ∧
      (∀ x ∈ L, ∀ p, resolve x = some p →
        p.2 ∈ enrolledOf (L.foldl g w') p.1 ∧
        p.1 ∈ registeredOf (L.foldl g w') p.2) := by
  intro L
  induction L with
  | nil =>
    intro w' hdom hcp
    exact ⟨hdom, hcp, monoLinks_refl w', fun _ => rfl, fun _ => rfl, id, id,
      fun x hx => absurd hx (List.not_mem_nil x)⟩
  | cons x L ih =>
    intro w' hdom hcp
    rcases hrx : resolve x with _ | p
    · have hgw : g w' x = w' := by rw [hg, hrx]
      rw [List.foldl_cons, hgw]
      obtain ⟨a, b, c, d, e, f, g2, h2⟩ := ih w' hdom hcp
      refine ⟨a, b, c, d, e, f, g2, ?_⟩
      intro y hy p hp
      rcases List.mem_cons.mp hy with rfl | hy
      · rw [hrx] at hp; exact Option.noConfusion hp
      · exact h2 y hy p hp
    · have hgw : g w' x = Course.add_student w' p.1 p.2 := by rw [hg, hrx]
      obtain ⟨hco3, hst3⟩ := hres x p hrx
      have hco' : (w'.courseAt p.1).isSome = true := by rw [hdom.2.2]; exact hco3
      have hst' : (w'.studentAt p.2).isSome = true := by rw [hdom.1]; exact hst3
      have hcoE := courseAt_isSome_eq w' p.1 hco'
      have hstE := studentAt_isSome_eq w' p.2 hst'
      have hlinks := add_student_links w' p.1 p.2 (coOf w' p.1) (stOf w' p.2) hcoE hstE hcp
      have hdom2 : SameDom w3 (Course.add_student w' p.1 p.2) :=
        sameDom_trans hdom (sameDom_add_student w' p.1 p.2)
      have hcp2 := coupled_add_student w' p.1 p.2 hcp
      rw [List.foldl_cons, hgw]
      obtain ⟨a, b, c, d, e, f, g2, h2⟩ := ih (Course.add_student w' p.1 p.2) hdom2 hcp2
      refine ⟨a, b, monoLinks_trans (monoLinks_add_student w' p.1 p.2) c,
        fun r => (d r).trans (instructorAt_add_student w' p.1 p.2 r),
        fun r => (e r).trans (instructorRefOf_add_student w' p.1 p.2 r),
        fun hn => f (enrolledNodup_add_student w' p.1 p.2 hn),
        fun hn => g2 (registeredNodup_add_student w' p.1 p.2 hn), ?_⟩
      intro y hy p' hp'
      rcases List.mem_cons.mp hy with rfl | hy
      · rw [hrx] at hp'
        injection hp' with hp'
        subst hp'
        exact ⟨c.1 p.1 p.2 hlinks.1, c.2 p.2 p.1 hlinks.2⟩
      · exact h2 y hy p' hp'

theorem pass2Student_run (w : World) (s : Nat) (smap cmap : IdMap) (w' : World)
    (hst : w.studentAt s = some (stOf w s)) :
    pass2Student smap cmap w' (studentDocOf w s) =
      .ok (((stOf w s).registered_courses.map (courseIdIn w)).foldl
        (fun wa cid =>
          match lookupId smap (stOf w s).student_id, lookupId cmap cid with
          | some s0, some c0 => Course.add_student wa c0 s0
          | _, _ => wa) w') := by
  simp only [pass2Student, studentDocOf, hst]
  rfl

theorem pass2_all (w w3 : World) (smap cmap : IdMap)
    (hsmapT : ∀ id0 r, lookupId smap id0 = some r → (w3.studentAt r).isSome = true)
    (hcmapT : ∀ id0 r, lookupId cmap id0 = some r → (w3.courseAt r).isSome = true) :
    ∀ (l : List Nat) (w' : World),
      (∀ s ∈ l, w.studentAt s = some (stOf w s)) →
      SameDom w3 w' → StudentCoupled w' →
      ∃ wOut, passFold (pass2Student smap cmap) w' (l.map (studentDocOf w)) = .ok wOut ∧
        SameDom w3 wOut ∧ StudentCoupled wOut ∧ MonoLinks w' wOut ∧
        (∀ r, wOut.instructorAt r = w'.instructorAt r) ∧
        (∀ r, instructorRefOf wOut r = instructorRefOf w' r) ∧
        (EnrolledNodup w' → EnrolledNodup wOut) ∧
        (RegisteredNodup w' → RegisteredNodup wOut) ∧
        (∀ s ∈ l, ∀ c ∈ (stOf w s).registered_courses, ∀ rs rc,
          lookupId smap (studentIdIn w s) = some rs →
          lookupId cmap (courseIdIn w c) = some rc →
          rs ∈ enrolledOf wOut rc ∧ rc ∈ registeredOf wOut rs) := by
  intro l
  induction l with
  | nil =>
    intro w' hT hdom hcp
    exact ⟨w', rfl, hdom, hcp, monoLinks_refl w', fun _ => rfl, fun _ => rfl, id, id,
      fun s hs => absurd hs (List.not_mem_nil s)⟩
  | cons s l ih =>
    intro w' hT hdom hcp
    have hst : w.studentAt s = some (stOf w s) := hT s (by simp)
    have hfold := fold_adds w3
      (fun cid => match lookupId smap (stOf w s).student_id, lookupId cmap cid with
        | some s0, some c0 => some (c0, s0)
        | _, _ => none)
      (fun wa cid =>
        match lookupId smap (stOf w s).student_id, lookupId cmap cid with
        | some s0, some c0 => Course.add_student wa c0 s0
        | _, _ => wa)
      (by
        intro wa cid
        dsimp only
        rcases lookupId smap (stOf w s).student_id with _ | s0 <;>
          rcases lookupId cmap cid with _ | c0 <;> rfl)
      (by
        intro cid p hp
        dsimp only at hp
        rcases hsl : lookupId smap (stOf w s).student_id with _ | s0 <;> rw [hsl] at hp
        · exact Option.noConfusion hp
        rcases hcl : lookupId cmap cid with _ | c0 <;> rw [hcl] at hp
        · exact Option.noConfusion hp
        injection hp with hp
        subst hp
        exact ⟨hcmapT cid c0 hcl, hsmapT (stOf w s).student_id s0 hsl⟩)
      ((stOf w s).registered_courses.map (courseIdIn w)) w' hdom hcp
    obtain ⟨hdom1, hcp1, hmono1, hia1, hir1, hen1, hrn1, hlinks1⟩ := hfold
    obtain ⟨wOut, hrun, hdom2, hcp2, hmono2, hia2, hir2, hen2, hrn2, hlinks2⟩ :=
      ih _ (fun x hx => hT x (by simp [hx])) hdom1 hcp1
    refine ⟨wOut, ?_, hdom2, hcp2, monoLinks_trans hmono1 hmono2,
      fun r => (hia2 r).trans (hia1 r), fun r => (hir2 r).trans (hir1 r),
      fun hn => hen2 (hen1 hn), fun hn => hrn2 (hrn1 hn), ?_⟩
    · simp only [List.map_cons, passFold, pass2Student_run w s smap cmap w' hst]
      exact hrun
    · intro s0 hs0 c hc rs rc hlrs hlrc
      rcases List.mem_cons.mp hs0 with rfl | hs0
      · have hx : courseIdIn w c ∈ (stOf w s0).registered_courses.map (courseIdIn w) :=
          List.mem_map_of_mem (courseIdIn w) hc
        have hsid : studentIdIn w s0 = (stOf w s0).student_id := studentIdIn_eq w s0 hst
        rw [hsid] at hlrs
        have hres : (match lookupId smap (stOf w s0).student_id,
            lookupId cmap (courseIdIn w c) with
          | some s1, some c1 => some (c1, s1)
          | _, _ => none) = some (rc, rs) := by
          rw [hlrs, hlrc]
        have := hlinks1 (courseIdIn w c) hx (rc, rs) hres
        exact ⟨hmono2.1 rc rs this.1, hmono2.2 rs rc this.2⟩
      · exact hlinks2 s0 hs0 c hc rs rc hlrs hlrc

theorem enrolledNodup_of_sameSC {w w' : World} (h : SameSC w w')
    (hE : EnrolledNodup w) : EnrolledNodup w' := by
  intro c co hc
  have h2 := h.2 c
  rw [hc] at h2
  rcases hc0 : w.courseAt c with _ | co0
  · rw [hc0] at h2; simp at h2
  · rw [hc0] at h2; simp at h2; rw [h2]; exact hE c co0 hc0

theorem registeredNodup_of_sameSC {w w' : World} (h : SameSC w w')
    (hR : RegisteredNodup w) : RegisteredNodup w' := by
  intro s st hs
  have h1 := h.1 s
  rw [hs] at h1
  rcases hs0 : w.studentAt s with _ | st0
  · rw [hs0] at h1; simp at h1
  · rw [hs0] at h1; simp at h1; rw [h1]; exact hR s st0 hs0

theorem pass3Course_run (w : World) (c : Nat) (smap imap cmap : IdMap) (w' w1 : World)
    (hct : w.courseAt c = some (coOf w c))
    (hw1 : (match lookupId cmap (coOf w c).course_id,
        (match (coOf w c).instructor with
         | some i => some (instructorIdIn w i)
         | none => none) with
      | some c0, some iid =>
        if iid ≠ [] then
          match lookupId imap iid with
          | some i0 => Course.set_instructor w' c0 (some i0)
          | none => w'
        else w'
      | _, _ => w') = w1) :
    pass3Course smap imap cmap w' (courseDocOf w c) =
      .ok (((coOf w c).enrolled_students.map (studentIdIn w)).foldl
        (fun wa sid =>
          match lookupId cmap (coOf w c).course_id, lookupId smap sid with
          | some c0, some s0 => Course.add_student wa c0 s0
          | _, _ => wa) w1) := by
  subst hw1
  simp only [pass3Course, courseDocOf, hct]
  rfl

theorem pass3_all (w w3 : World) (smap imap cmap : IdMap)
    (hsmT : ∀ id0 r, lookupId smap id0 = some r → (w3.studentAt r).isSome = true)
    (himT : ∀ id0 r, lookupId imap id0 = some r → (w3.instructorAt r).isSome = true)
    (hcmT : ∀ id0 r, lookupId cmap id0 = some r → (w3.courseAt r).isSome = true)
    (hkeyInj : ∀ id0 id1 r, lookupId cmap id0 = some r → lookupId cmap id1 = some r →
      id0 = id1) :
    ∀ (todo : List Nat) (w' : World),
      (∀ c ∈ todo, w.courseAt c = some (coOf w c)) →
      (∀ c ∈ todo, ∀ i, (coOf w c).instructor = some i →
        instructorIdIn w i ≠ [] ∧ ∃ ri, lookupId imap (instructorIdIn w i) = some ri) →
      todo.Pairwise (fun a b => courseIdIn w a ≠ courseIdIn w b) →
      (∀ c ∈ todo, ∃ rc, lookupId cmap (courseIdIn w c) = some rc ∧
        instructorRefOf w' rc = none) →
      SameDom w3 w' → StudentCoupled w' →
      ∃ wOut, passFold (pass3Course smap imap cmap) w' (todo.map (courseDocOf w)) =
          .ok wOut ∧
        SameDom w3 wOut ∧ StudentCoupled wOut ∧ MonoLinks w' wOut ∧
        (∀ r j, instructorRefOf w' r = some j → instructorRefOf wOut r = some j) ∧
        (∀ r x, x ∈ assignedOf w' r → x ∈ assignedOf wOut r) ∧
        (EnrolledNodup w' → RegisteredNodup w' →
          EnrolledNodup wOut ∧ RegisteredNodup wOut) ∧
        (AssignedNodup w' → AssignedNodup wOut) ∧
        (∀ c ∈ todo, ∀ i, (coOf w c).instructor = some i →
          ∀ rc ri, lookupId cmap (courseIdIn w c) = some rc →
            lookupId imap (instructorIdIn w i) = some ri →
            instructorRefOf wOut rc = some ri ∧ rc ∈ assignedOf wOut ri) := by
  intro todo
  induction todo with
  | nil =>
    intro w' hT hIns hPW hPtr hdom hcp
    exact ⟨w', rfl, hdom, hcp, monoLinks_refl w', fun _ _ h => h, fun _ _ h => h,
      fun hE hR => ⟨hE, hR⟩, id, fun c hc => absurd hc (List.not_mem_nil c)⟩
  | cons c todo ih =>
    intro w' hT hIns hPW hPtr hdom hcp
    have hct : w.courseAt c = some (coOf w c) := hT c (by simp)
    obtain ⟨rc, hrc, hptrc⟩ := hPtr c (by simp)
    have hcid : courseIdIn w c = (coOf w c).course_id := courseIdIn_eq w c hct
    have hrcX : lookupId cmap ((coOf w c).course_id) = some rc := by rw [← hcid]; exact hrc
    have hrcIsS : (w'.courseAt rc).isSome = true := by
      rw [hdom.2.2]; exact hcmT _ _ hrc
    have hrcEq : w'.courseAt rc = some (coOf w' rc) := courseAt_isSome_eq w' rc hrcIsS
    have hrcPtrNone : (coOf w' rc).instructor = none := by
      unfold instructorRefOf at hptrc
      rw [hrcEq] at hptrc
      exact hptrc
    have hPWhead : ∀ b ∈ todo, courseIdIn w c ≠ courseIdIn w b :=
      (List.pairwise_cons.mp hPW).1
    have hPWtail : todo.Pairwise (fun a b => courseIdIn w a ≠ courseIdIn w b) :=
      (List.pairwise_cons.mp hPW).2
    obtain ⟨w1, hw1eq, hw1sc, hw1dom, hw1ptr_other, hw1an, hw1amono, hw1head⟩ :
        ∃ w1, (match lookupId cmap (coOf w c).course_id,
            (match (coOf w c).instructor with
             | some i => some (instructorIdIn w i)
             | none => none) with
          | some c0, some iid =>
            if iid ≠ [] then
              match lookupId imap iid with
              | some i0 => Course.set_instructor w' c0 (some i0)
              | none => w'
            else w'
          | _, _ => w') = w1 ∧
        SameSC w' w1 ∧ SameDom w3 w1 ∧
        (∀ x, x ≠ rc → instructorRefOf w1 x = instructorRefOf w' x) ∧
        (AssignedNodup w' → AssignedNodup w1) ∧
        (∀ r x, x ∈ assignedOf w' r → x ∈ assignedOf w1 r) ∧
        (∀ i, (coOf w c).instructor = some i →
          ∀ ri, lookupId imap (instructorIdIn w i) = some ri →
            instructorRefOf w1 rc = some ri ∧ rc ∈ assignedOf w1 ri) := by
      rcases hio : (coOf w c).instructor with _ | i
      · refine ⟨w', ?_, SameSC.refl w', hdom, fun _ _ => rfl, id, fun _ _ h => h,
          fun i hi => absurd hi (fun h => Option.noConfusion h)⟩
        rw [hrcX]
      · obtain ⟨hiidne, ri, hri⟩ := hIns c (by simp) i hio
        have hriIsS : (w'.instructorAt ri).isSome = true := by
          rw [hdom.2.1]; exact himT _ _ hri
        have hriEq : w'.instructorAt ri = some (insOf w' ri) :=
          instructorAt_isSome_eq w' ri hriIsS
        obtain ⟨fsc, fdom, fptr, fptro, fassign, famono, fan⟩ :=
          set_instructor_fresh_facts w' rc ri (coOf w' rc) (insOf w' ri)
            hrcEq hrcPtrNone hriEq
        refine ⟨Course.set_instructor w' rc (some ri), ?_, fsc,
          sameDom_trans hdom fdom, fptro, fan, famono, ?_⟩
        · rw [hrcX]
          dsimp only
          rw [if_pos hiidne, hri]
        · intro i0 hi0 ri0 hri0
          injection hi0 with hi0
          subst hi0
          rw [hri0] at hri
          injection hri with hri
          subst hri
          exact ⟨fptr, fassign⟩
    have hcp1 : StudentCoupled w1 := hcp.of_sameSC hw1sc
    have hfold := fold_adds w3
      (fun sid => match lookupId cmap (coOf w c).course_id, lookupId smap sid with
        | some c0, some s0 => some (c0, s0)
        | _, _ => none)
      (fun wa sid =>
        match lookupId cmap (coOf w c).course_id, lookupId smap sid with
        | some c0, some s0 => Course.add_student wa c0 s0
        | _, _ => wa)
      (by
        intro wa sid
        dsimp only
        rcases lookupId cmap (coOf w c).course_id with _ | c0 <;>
          rcases lookupId smap sid with _ | s0 <;> rfl)
      (by
        intro sid p hp
        dsimp only at hp
        rcases hcl : lookupId cmap (coOf w c).course_id with _ | c0 <;> rw [hcl] at hp
        · exact Option.noConfusion hp
        rcases hsl : lookupId smap sid with _ | s0 <;> rw [hsl] at hp
        · exact Option.noConfusion hp
        injection hp with hp
        subst hp
        exact ⟨hcmT _ c0 hcl, hsmT sid s0 hsl⟩)
      ((coOf w c).enrolled_students.map (studentIdIn w)) w1 hw1dom hcp1
    obtain ⟨f2dom, f2cp, f2mono, f2ia, f2ir, f2en, f2rn, _⟩ := hfold
    set w2 := (((coOf w c).enrolled_students.map (studentIdIn w)).foldl
      (fun wa sid =>
        match lookupId cmap (coOf w c).course_id, lookupId smap sid with
        | some c0, some s0 => Course.add_student wa c0 s0
        | _, _ => wa) w1) with hw2def
    have hPtr2 : ∀ c0 ∈ todo, ∃ rc0, lookupId cmap (courseIdIn w c0) = some rc0 ∧
        instructorRefOf w2 rc0 = none := by
      intro c0 hc0
      obtain ⟨rc0, hrc0, hptr0⟩ := hPtr c0 (by simp [hc0])
      refine ⟨rc0, hrc0, ?_⟩
      have hne : rc0 ≠ rc := by
        intro he
        subst he
        exact hPWhead c0 hc0 (hkeyInj _ _ _ hrc hrc0)
      rw [f2ir rc0, hw1ptr_other rc0 hne]
      exact hptr0
    obtain ⟨wOut, hrunT, hdomT, hcpT, hmonoT, hptrT, hamonoT, hnodT, hanT, hheadT⟩ :=
      ih w2 (fun x hx => hT x (by simp [hx])) (fun x hx => hIns x (by simp [hx]))
        hPWtail hPtr2 f2dom f2cp
    refine ⟨wOut, ?_, hdomT, hcpT,
      monoLinks_trans (monoLinks_trans (monoLinks_of_sameSC hw1sc) f2mono) hmonoT, ?_, ?_, ?_, ?_, ?_⟩
    · simp only [List.map_cons, passFold,
        pass3Course_run w c smap imap cmap w' w1 hct hw1eq]
      exact hrunT
    · intro r j hj
      have hr_ne : r ≠ rc := by
        intro he
        subst he
        rw [hptrc] at hj
        exact Option.noConfusion hj
      refine hptrT r j ?_
      rw [f2ir r, hw1ptr_other r hr_ne]
      exact hj
    · intro r x hx
      refine hamonoT r x ?_
      have hx1 : x ∈ assignedOf w1 r := hw1amono r x hx
      unfold assignedOf at hx1 ⊢
      rw [f2ia r]
      exact hx1
    · intro hE hR
      have hE1 := enrolledNodup_of_sameSC hw1sc hE
      have hR1 := registeredNodup_of_sameSC hw1sc hR
      exact hnodT (f2en hE1) (f2rn hR1)
    · intro hn
      refine hanT ?_
      have h1 := hw1an hn
      intro i ins hi
      rw [f2ia i] at hi
      exact h1 i ins hi
    · intro c0 hc0 i hi rc0 ri0 hrc0 hri0
      rcases List.mem_cons.mp hc0 with rfl | hc0
      · rw [hrc0] at hrc
        injection hrc with hrc
        subst hrc
        obtain ⟨hp1, hp2⟩ := hw1head i hi ri0 hri0
        constructor
        · refine hptrT rc0 ri0 ?_
          rw [f2ir rc0]
          exact hp1
        · refine hamonoT ri0 rc0 ?_
          unfold assignedOf at hp2 ⊢
          rw [f2ia ri0]
          exact hp2
      · exact hheadT c0 hc0 i hi rc0 ri0 hrc0 hri0

theorem pass4Instructor_run (w : World) (i : Nat) (imap cmap : IdMap) (w' : World)
    (hit : w.instructorAt i = some (insOf w i)) :
    pass4Instructor imap cmap w' (instructorDocOf w i) =
      .ok (((insOf w i).assigned_courses.map (courseIdIn w)).foldl
        (fun wa cid =>
          match lookupId imap (insOf w i).instructor_id, lookupId cmap cid with
          | some i0, some c0 => Instructor.assign_course wa i0 c0
          | _, _ => wa) w') := by
  simp only [pass4Instructor, instructorDocOf, hit]
  rfl

theorem fold_assign_noop (w' : World) (imap cmap : IdMap) (iid : PyStr) (ri : Nat)
    (hri : lookupId imap iid = some ri) :
    ∀ (L : List PyStr),
      (∀ cid ∈ L, ∀ rc, lookupId cmap cid = some rc →
        ∃ ins co, w'.instructorAt ri = some ins ∧ rc ∈ ins.assigned_courses ∧
          w'.courseAt rc = some co ∧ co.instructor = some ri) →
      L.foldl (fun wa cid => match lookupId imap iid, lookupId cmap cid with
        | some i0, some c0 => Instructor.assign_course wa i0 c0
        | _, _ => wa) w' = w' := by
  intro L
  induction L with
  | nil => intro hL; rfl
  | cons cid L ih =>
    intro hL
    rw [List.foldl_cons]
    have hstep : (match lookupId imap iid, lookupId cmap cid with
        | some i0, some c0 => Instructor.assign_course w' i0 c0
        | _, _ => w') = w' := by
      rw [hri]
      rcases hcl : lookupId cmap cid with _ | rc
      · rfl
      · obtain ⟨ins, co, h1, h2, h3, h4⟩ := hL cid (by simp) rc hcl
        dsimp only
        exact assign_course_noop w' ri rc ins co h1 h2 h3 h4
    rw [hstep]
    exact ih (fun x hx rc h => hL x (by simp [hx]) rc h)

theorem pass4_all (w : World) (imap cmap : IdMap) :
    ∀ (l : List Nat) (w' : World),
      (∀ i ∈ l, w.instructorAt i = some (insOf w i)) →
      (∀ i ∈ l, ∃ ri, lookupId imap ((insOf w i).instructor_id) = some ri ∧
        ∀ c ∈ (insOf w i).assigned_courses, ∀ rc,
          lookupId cmap (courseIdIn w c) = some rc →
          ∃ ins co, w'.instructorAt ri = some ins ∧ rc ∈ ins.assigned_courses ∧
            w'.courseAt rc = some co ∧ co.instructor = some ri) →
      passFold (pass4Instructor imap cmap) w' (l.map (instructorDocOf w)) = .ok w' := by
  intro l
  induction l with
  | nil => intro w' hT hA; rfl
  | cons i l ih =>
    intro w' hT hA
    have hit : w.instructorAt i = some (insOf w i) := hT i (by simp)
    obtain ⟨ri, hri, hall⟩ := hA i (by simp)
    have hnoop : ((insOf w i).assigned_courses.map (courseIdIn w)).foldl
        (fun wa cid =>
          match lookupId imap (insOf w i).instructor_id, lookupId cmap cid with
          | some i0, some c0 => Instructor.assign_course wa i0 c0
          | _, _ => wa) w' = w' := by
      refine fold_assign_noop w' imap cmap _ ri hri _ ?_
      intro cid hcid rc hrc
      obtain ⟨c, hc, rfl⟩ := List.mem_map.mp hcid
      exact hall c hc rc hrc
    simp only [List.map_cons, passFold, pass4Instructor_run w i imap cmap w' hit, hnoop]
    exact ih w' (fun x hx => hT x (by simp [hx])) (fun x hx => hA x (by simp [hx]))

theorem personId_ne_nil (x : PyStr) (h : matchPersonId (pyStrip x) = true) : x ≠ [] := by
  intro hx
  subst hx
  exact absurd h (by decide)

/-- C2: `load_from_json` of `save_to_json` of a well-formed entity graph
(fields validated and normalized, links closed over the saved collections,
bidirectionally coupled, ids unique) succeeds, reproduces every
student–course registration and every course→instructor assignment
(compared by id through the returned dictionaries), and creates no
duplicate entries in any relationship list. -/
theorem C2_json_roundtrip (w : World) (ss is0 cs : List Nat)
    (hS : ∀ s ∈ ss, (w.studentAt s).isSome = true)
    (hGS : ∀ s ∈ ss, goodS (stOf w s))
    (hCloS : ∀ s ∈ ss, ∀ c ∈ (stOf w s).registered_courses, c ∈ cs)
    (hI : ∀ i ∈ is0, (w.instructorAt i).isSome = true)
    (hGI : ∀ i ∈ is0, goodI (insOf w i))
    (hCloI : ∀ i ∈ is0, ∀ c ∈ (insOf w i).assigned_courses, c ∈ cs)
    (hC : ∀ c ∈ cs, (w.courseAt c).isSome = true)
    (hGC : ∀ c ∈ cs, goodC (coOf w c))
    (hPtrI : ∀ c ∈ cs, ∀ i, (coOf w c).instructor = some i → i ∈ is0)
    (hIC : ∀ i ∈ is0, ∀ c ∈ (insOf w i).assigned_courses,
      (coOf w c).instructor = some i)
    (hNodS : (ss.map (studentIdIn w)).Nodup)
    (hNodI : (is0.map (instructorIdIn w)).Nodup)
    (hNodC : (cs.map (courseIdIn w)).Nodup) :
    ∃ w' smap imap cmap,
      load_from_json (save_to_json w ss is0 cs) = .ok (w', smap, imap, cmap) ∧
      (∀ s ∈ ss, ∀ c, c ∈ registeredOf w s →
        ∃ rs rc, lookupId smap (studentIdIn w s) = some rs ∧
          lookupId cmap (courseIdIn w c) = some rc ∧
          rs ∈ enrolledOf w' rc ∧ rc ∈ registeredOf w' rs) ∧
      (∀ c ∈ cs, ∀ i, instructorRefOf w c = some i →
        ∃ rc ri, lookupId cmap (courseIdIn w c) = some rc ∧
          lookupId imap (instructorIdIn w i) = some ri ∧
          instructorRefOf w' rc = some ri ∧ rc ∈ assignedOf w' ri) ∧
      EnrolledNodup w' ∧ RegisteredNodup w' ∧ AssignedNodup w' := by
  have hTS : ∀ s ∈ ss, w.studentAt s = some (stOf w s) :=
    fun s hs => studentAt_isSome_eq w s (hS s hs)
  have hTI : ∀ i ∈ is0, w.instructorAt i = some (insOf w i) :=
    fun i hi => instructorAt_isSome_eq w i (hI i hi)
  have hTC : ∀ c ∈ cs, w.courseAt c = some (coOf w c) :=
    fun c hc => courseAt_isSome_eq w c (hC c hc)
  obtain ⟨wA, hbA, hAlow, hAhigh, hAcont⟩ :=
    buildStudents_eval w ss hS hGS emptyWorld [] 0
  obtain ⟨wB, hbB, hBlow, hBhigh, hBcont⟩ :=
    buildInstructors_eval w is0 hI hGI wA [] (0 + ss.length)
  obtain ⟨w3, hbC, hClow, hChigh, hCcont⟩ :=
    buildCourses_eval w cs hC hGC wB [] (0 + ss.length + is0.length)
  rw [List.append_nil] at hbA hbB hbC
  -- heap segments of the freshly built world
  have hSeg1 : ∀ k, k < ss.length → ∃ s, ss.get? k = some s ∧
      w3.heap k = some (.student (cleanS (stOf w s))) := by
    intro k hk
    rcases hg : ss.get? k with _ | s
    · exact absurd (List.get?_eq_none.mp hg) (by omega)
    · refine ⟨s, rfl, ?_⟩
      have h1 : wA.heap (0 + k) = some (.student (cleanS (stOf w s))) := hAcont k s hg
      rw [hClow k (by omega), hBlow k (by omega)]
      simpa using h1
  have hSeg2 : ∀ k, k < is0.length → ∃ i, is0.get? k = some i ∧
      w3.heap (ss.length + k) = some (.instructor (cleanI (insOf w i))) := by
    intro k hk
    rcases hg : is0.get? k with _ | i
    · exact absurd (List.get?_eq_none.mp hg) (by omega)
    · refine ⟨i, rfl, ?_⟩
      have h1 : wB.heap (0 + ss.length + k) = some (.instructor (cleanI (insOf w i))) :=
        hBcont k i hg
      rw [show ss.length + k = 0 + ss.length + k by omega]
      rw [hClow (0 + ss.length + k) (by omega)]
      exact h1
  have hSeg3 : ∀ k, k < cs.length → ∃ c, cs.get? k = some c ∧
      w3.heap (ss.length + is0.length + k) = some (.course (cleanC (coOf w c))) := by
    intro k hk
    rcases hg : cs.get? k with _ | c
    · exact absurd (List.get?_eq_none.mp hg) (by omega)
    · refine ⟨c, rfl, ?_⟩
      have h1 : w3.heap (0 + ss.length + is0.length + k) =
          some (.course (cleanC (coOf w c))) := hCcont k c hg
      rw [show ss.length + is0.length + k = 0 + ss.length + is0.length + k by omega]
      exact h1
  have hSegHigh : ∀ k, ss.length + is0.length + cs.length ≤ k → w3.heap k = none := by
    intro k hk
    rw [hChigh k (by omega), hBhigh k (by omega), hAhigh k (by omega)]
    rfl
  -- every object of the built world has empty relationship lists
  have hCleanS : ∀ r st, w3.studentAt r = some st → st.registered_courses = [] := by
    intro r st hst
    unfold World.studentAt at hst
    rcases Nat.lt_or_ge r ss.length with h1 | h1
    · obtain ⟨s, _, hh⟩ := hSeg1 r h1
      rw [hh] at hst
      injection hst with hst
      subst hst
      rfl
    rcases Nat.lt_or_ge r (ss.length + is0.length) with h2 | h2
    · obtain ⟨i, _, hh⟩ := hSeg2 (r - ss.length) (by omega)
      rw [show ss.length + (r - ss.length) = r by omega] at hh
      rw [hh] at hst
      exact Option.noConfusion hst
    rcases Nat.lt_or_ge r (ss.length + is0.length + cs.length) with h3 | h3
    · obtain ⟨c, _, hh⟩ := hSeg3 (r - ss.length - is0.length) (by omega)
      rw [show ss.length + is0.length + (r - ss.length - is0.length) = r by omega] at hh
      rw [hh] at hst
      exact Option.noConfusion hst
    · rw [hSegHigh r h3] at hst
      exact Option.noConfusion hst
  have hCleanI : ∀ r ins, w3.instructorAt r = some ins → ins.assigned_courses = [] := by
    intro r ins hins
    unfold World.instructorAt at hins
    rcases Nat.lt_or_ge r ss.length with h1 | h1
    · obtain ⟨s, _, hh⟩ := hSeg1 r h1
      rw [hh] at hins
      exact Option.noConfusion hins
    rcases Nat.lt_or_ge r (ss.length + is0.length) with h2 | h2
    · obtain ⟨i, _, hh⟩ := hSeg2 (r - ss.length) (by omega)
      rw [show ss.length + (r - ss.length) = r by omega] at hh
      rw [hh] at hins
      injection hins with hins
      subst hins
      rfl
    rcases Nat.lt_or_ge r (ss.length + is0.length + cs.length) with h3 | h3
    · obtain ⟨c, _, hh⟩ := hSeg3 (r - ss.length - is0.length) (by omega)
      rw [show ss.length + is0.length + (r - ss.length - is0.length) = r by omega] at hh
      rw [hh] at hins
      exact Option.noConfusion hins
    · rw [hSegHigh r h3] at hins
      exact Option.noConfusion hins
  have hCleanC : ∀ r co, w3.courseAt r = some co →
      co.enrolled_students = [] ∧ co.instructor = none := by
    intro r co hco
    unfold World.courseAt at hco
    rcases Nat.lt_or_ge r ss.length with h1 | h1
    · obtain ⟨s, _, hh⟩ := hSeg1 r h1
      rw [hh] at hco
      exact Option.noConfusion hco
    rcases Nat.lt_or_ge r (ss.length + is0.length) with h2 | h2
    · obtain ⟨i, _, hh⟩ := hSeg2 (r - ss.length) (by omega)
      rw [show ss.length + (r - ss.length) = r by omega] at hh
      rw [hh] at hco
      exact Option.noConfusion hco
    rcases Nat.lt_or_ge r (ss.length + is0.length + cs.length) with h3 | h3
    · obtain ⟨c, _, hh⟩ := hSeg3 (r - ss.length - is0.length) (by omega)
      rw [show ss.length + is0.length + (r - ss.length - is0.length) = r by omega] at hh
      rw [hh] at hco
      injection hco with hco
      subst hco
      exact ⟨rfl, rfl⟩
    · rw [hSegHigh r h3] at hco
      exact Option.noConfusion hco
  have hCp3 : StudentCoupled w3 := by
    intro s c st co hs hc
    constructor
    · intro hmem
      rw [(hCleanC c co hc).1] at hmem
      exact absurd hmem (List.not_mem_nil s)
    · intro hmem
      rw [hCleanS s st hs] at hmem
      exact absurd hmem (List.not_mem_nil c)
  have hEN3 : EnrolledNodup w3 := fun c co hc => by
    rw [(hCleanC c co hc).1]; exact List.nodup_nil
  have hRN3 : RegisteredNodup w3 := fun s st hs => by
    rw [hCleanS s st hs]; exact List.nodup_nil
  have hAN3 : AssignedNodup w3 := fun i ins hi => by
    rw [hCleanI i ins hi]; exact List.nodup_nil
  -- map typing
  have hsmT : ∀ id0 r, lookupId (entriesOf (studentIdIn w) ss 0) id0 = some r →
      (w3.studentAt r).isSome = true := by
    intro id0 r hl
    obtain ⟨idx, s, hg, hr, hf⟩ := entriesOf_lookup_inv _ ss 0 id0 r hl
    have hk : idx < ss.length := by
      rcases Nat.lt_or_ge idx ss.length with h | h
      · exact h
      · rw [List.get?_eq_none.mpr h] at hg; exact Option.noConfusion hg
    obtain ⟨s', _, hh⟩ := hSeg1 idx hk
    have hr' : r = idx := by omega
    subst hr'
    unfold World.studentAt
    rw [hh]
    rfl
  have himT : ∀ id0 r,
      lookupId (entriesOf (instructorIdIn w) is0 (0 + ss.length)) id0 = some r →
      (w3.instructorAt r).isSome = true := by
    intro id0 r hl
    obtain ⟨idx, i, hg, hr, hf⟩ := entriesOf_lookup_inv _ is0 _ id0 r hl
    have hk : idx < is0.length := by
      rcases Nat.lt_or_ge idx is0.length with h | h
      · exact h
      · rw [List.get?_eq_none.mpr h] at hg; exact Option.noConfusion hg
    obtain ⟨i', _, hh⟩ := hSeg2 idx hk
    have hr' : r = ss.length + idx := by omega
    subst hr'
    unfold World.instructorAt
    rw [hh]
    rfl
  have hcmT : ∀ id0 r,
      lookupId (entriesOf (courseIdIn w) cs (0 + ss.length + is0.length)) id0 = some r →
      (w3.courseAt r).isSome = true := by
    intro id0 r hl
    obtain ⟨idx, c, hg, hr, hf⟩ := entriesOf_lookup_inv _ cs _ id0 r hl
    have hk : idx < cs.length := by
      rcases Nat.lt_or_ge idx cs.length with h | h
      · exact h
      · rw [List.get?_eq_none.mpr h] at hg; exact Option.noConfusion hg
    obtain ⟨c', _, hh⟩ := hSeg3 idx hk
    have hr' : r = ss.length + is0.length + idx := by omega
    subst hr'
    unfold World.courseAt
    rw [hh]
    rfl
  have hkeyInj : ∀ id0 id1 r,
      lookupId (entriesOf (courseIdIn w) cs (0 + ss.length + is0.length)) id0 = some r →
      lookupId (entriesOf (courseIdIn w) cs (0 + ss.length + is0.length)) id1 = some r →
      id0 = id1 := by
    intro id0 id1 r h0 h1
    obtain ⟨i0, s0, hg0, hr0, hf0⟩ := entriesOf_lookup_inv _ cs _ id0 r h0
    obtain ⟨i1, s1, hg1, hr1, hf1⟩ := entriesOf_lookup_inv _ cs _ id1 r h1
    have hii : i0 = i1 := by omega
    subst hii
    rw [hg0] at hg1
    injection hg1 with hg1
    subst hg1
    rw [← hf0, ← hf1]
  -- member lookups succeed
  have hLookS : ∀ s ∈ ss, ∃ idx,
      lookupId (entriesOf (studentIdIn w) ss 0) (studentIdIn w s) = some (0 + idx) ∧
      idx < ss.length := by
    intro s hs
    obtain ⟨idx, hidx⟩ := List.get?_of_mem hs
    refine ⟨idx, entriesOf_lookup _ ss hNodS 0 idx s hidx, ?_⟩
    rcases Nat.lt_or_ge idx ss.length with h | h
    · exact h
    · rw [List.get?_eq_none.mpr h] at hidx; exact Option.noConfusion hidx
  have hLookI : ∀ i ∈ is0, ∃ idx,
      lookupId (entriesOf (instructorIdIn w) is0 (0 + ss.length)) (instructorIdIn w i) =
        some (0 + ss.length + idx) ∧ idx < is0.length := by
    intro i hi
    obtain ⟨idx, hidx⟩ := List.get?_of_mem hi
    refine ⟨idx, entriesOf_lookup _ is0 hNodI _ idx i hidx, ?_⟩
    rcases Nat.lt_or_ge idx is0.length with h | h
    · exact h
    · rw [List.get?_eq_none.mpr h] at hidx; exact Option.noConfusion hidx
  have hLookC : ∀ c ∈ cs, ∃ idx,
      lookupId (entriesOf (courseIdIn w) cs (0 + ss.length + is0.length))
        (courseIdIn w c) = some (0 + ss.length + is0.length + idx) ∧ idx < cs.length := by
    intro c hc
    obtain ⟨idx, hidx⟩ := List.get?_of_mem hc
    refine ⟨idx, entriesOf_lookup _ cs hNodC _ idx c hidx, ?_⟩
    rcases Nat.lt_or_ge idx cs.length with h | h
    · exact h
    · rw [List.get?_eq_none.mpr h] at hidx; exact Option.noConfusion hidx
  -- pass 2
  obtain ⟨w4, hrun2, hdom4, hcp4, hmono4, hia4, hir4, hen4, hrn4, hlink4⟩ :=
    pass2_all w w3 (entriesOf (studentIdIn w) ss 0)
      (entriesOf (courseIdIn w) cs (0 + ss.length + is0.length)) hsmT hcmT ss w3
      hTS (sameDom_refl w3) hCp3
  -- pass 3
  have hIns3 : ∀ c ∈ cs, ∀ i, (coOf w c).instructor = some i →
      instructorIdIn w i ≠ [] ∧ ∃ ri,
        lookupId (entriesOf (instructorIdIn w) is0 (0 + ss.length))
          (instructorIdIn w i) = some ri := by
    intro c hc i hi
    have hiIn : i ∈ is0 := hPtrI c hc i hi
    have hgood := hGI i hiIn
    have hidEq : instructorIdIn w i = (insOf w i).instructor_id :=
      instructorIdIn_eq w i (hTI i hiIn)
    constructor
    · rw [hidEq]
      exact personId_ne_nil _ hgood.2.2.2.2.2.1
    · obtain ⟨idx, hlk, _⟩ := hLookI i hiIn
      exact ⟨_, hlk⟩
  have hPW : cs.Pairwise (fun a b => courseIdIn w a ≠ courseIdIn w b) :=
    List.pairwise_map.mp hNodC
  have hPtr4 : ∀ c ∈ cs, ∃ rc,
      lookupId (entriesOf (courseIdIn w) cs (0 + ss.length + is0.length))
        (courseIdIn w c) = some rc ∧ instructorRefOf w4 rc = none := by
    intro c hc
    obtain ⟨idx, hlk, hklt⟩ := hLookC c hc
    refine ⟨_, hlk, ?_⟩
    rw [hir4]
    obtain ⟨c', _, hh⟩ := hSeg3 idx hklt
    unfold instructorRefOf World.courseAt
    rw [show 0 + ss.length + is0.length + idx = ss.length + is0.length + idx by omega, hh]
    rfl
  obtain ⟨w5, hrun3, hdom5, hcp5, hmono5, hptr5, hamono5, hnod5, han5, hhead5⟩ :=
    pass3_all w w3 (entriesOf (studentIdIn w) ss 0)
      (entriesOf (instructorIdIn w) is0 (0 + ss.length))
      (entriesOf (courseIdIn w) cs (0 + ss.length + is0.length))
      hsmT himT hcmT hkeyInj cs w4 hTC hIns3 hPW hPtr4 hdom4 hcp4
  -- pass 4
  have hA4 : ∀ i ∈ is0, ∃ ri,
      lookupId (entriesOf (instructorIdIn w) is0 (0 + ss.length))
        ((insOf w i).instructor_id) = some ri ∧
      ∀ c ∈ (insOf w i).assigned_courses, ∀ rc,
        lookupId (entriesOf (courseIdIn w) cs (0 + ss.length + is0.length))
          (courseIdIn w c) = some rc →
        ∃ ins co, w5.instructorAt ri = some ins ∧ rc ∈ ins.assigned_courses ∧
          w5.courseAt rc = some co ∧ co.instructor = some ri := by
    intro i hi
    obtain ⟨idx, hlk, _⟩ := hLookI i hi
    have hidEq : instructorIdIn w i = (insOf w i).instructor_id :=
      instructorIdIn_eq w i (hTI i hi)
    refine ⟨0 + ss.length + idx, by rw [← hidEq]; exact hlk, ?_⟩
    intro c hcA rc hrc
    have hcIn : c ∈ cs := hCloI i hi c hcA
    have hinstr : (coOf w c).instructor = some i := hIC i hi c hcA
    obtain ⟨hp1, hp2⟩ := hhead5 c hcIn i hinstr rc (0 + ss.length + idx) hrc hlk
    have hriS : (w5.instructorAt (0 + ss.length + idx)).isSome = true := by
      rw [hdom5.2.1]
      exact himT _ _ hlk
    have hriEq := instructorAt_isSome_eq w5 (0 + ss.length + idx) hriS
    have hrcS : (w5.courseAt rc).isSome = true := by
      rw [hdom5.2.2]
      exact hcmT _ _ hrc
    have hrcEq := courseAt_isSome_eq w5 rc hrcS
    refine ⟨insOf w5 (0 + ss.length + idx), coOf w5 rc, hriEq, ?_, hrcEq, ?_⟩
    · unfold assignedOf at hp2
      rw [hriEq] at hp2
      exact hp2
    · unfold instructorRefOf at hp1
      rw [hrcEq] at hp1
      exact hp1
  have hrun4 := pass4_all w (entriesOf (instructorIdIn w) is0 (0 + ss.length))
    (entriesOf (courseIdIn w) cs (0 + ss.length + is0.length)) is0 w5 hTI hA4
  -- assemble
  have hload : load_from_json (save_to_json w ss is0 cs) =
      .ok (w5, entriesOf (studentIdIn w) ss 0,
        entriesOf (instructorIdIn w) is0 (0 + ss.length),
        entriesOf (courseIdIn w) cs (0 + ss.length + is0.length)) := by
    simp only [load_from_json, save_to_json, bind, Except.bind, pure, Except.pure,
      hbA, hbB, hbC, hrun2, hrun3, hrun4]
  refine ⟨w5, _, _, _, hload, ?_, ?_, ?_, ?_, ?_⟩
  · intro s hs c hcreg
    have hstEq := hTS s hs
    have hreg : c ∈ (stOf w s).registered_courses := by
      unfold registeredOf at hcreg
      rw [hstEq] at hcreg
      exact hcreg
    have hcIn : c ∈ cs := hCloS s hs c hreg
    obtain ⟨idxs, hlks, _⟩ := hLookS s hs
    obtain ⟨idxc, hlkc, _⟩ := hLookC c hcIn
    obtain ⟨hl1, hl2⟩ := hlink4 s hs c hreg _ _ hlks hlkc
    exact ⟨_, _, hlks, hlkc, hmono5.1 _ _ hl1, hmono5.2 _ _ hl2⟩
  · intro c hc i hi
    have hinstr : (coOf w c).instructor = some i := by
      unfold instructorRefOf at hi
      rw [hTC c hc] at hi
      exact hi
    have hiIn := hPtrI c hc i hinstr
    obtain ⟨idxc, hlkc, _⟩ := hLookC c hc
    obtain ⟨idxi, hlki, _⟩ := hLookI i hiIn
    obtain ⟨hp1, hp2⟩ := hhead5 c hc i hinstr _ _ hlkc hlki
    exact ⟨_, _, hlkc, hlki, hp1, hp2⟩
  · exact (hnod5 (hen4 hEN3) (hrn4 hRN3)).1
  · exact (hnod5 (hen4 hEN3) (hrn4 hRN3)).2
  · refine han5 ?_
    intro i ins hi0
    rw [hia4 i] at hi0
    exact hAN3 i ins hi0

/-- A mixed graph: 2 students, 1 instructor, 2 courses; `S001` is in both
courses, `S002` only in the second; the instructor teaches the first. -/
def c2St1 : StudentObj :=
  { name := strOf "Alice Smith", age := 20, email := strOf "alice@mail.com",
    student_id := strOf "S001", registered_courses := [30, 31] }

def c2St2 : StudentObj :=
  { name := strOf "Bob Stone", age := 21, email := strOf "bob@mail.com",
    student_id := strOf "S002", registered_courses := [31] }

def c2Ins : InstructorObj :=
  { name := strOf "Carol Jones", age := 45, email := strOf "carol@mail.com",
    instructor_id := strOf "I001", assigned_courses := [30] }

def c2Co1 : CourseObj :=
  { course_id := strOf "CS101", course_name := strOf "Intro Prog",
    instructor := some 20, enrolled_students := [10] }

def c2Co2 : CourseObj :=
  { course_id := strOf "CS102", course_name := strOf "Data Struct",
    instructor := none, enrolled_students := [10, 11] }

def c2World : World :=
  ⟨fun r => match r with
    | 10 => some (.student c2St1)
    | 11 => some (.student c2St2)
    | 20 => some (.instructor c2Ins)
    | 30 => some (.course c2Co1)
    | 31 => some (.course c2Co2)
    | _ => none⟩

theorem C2_json_roundtrip_witness :
    ∃ w' smap imap cmap,
      load_from_json (save_to_json c2World [10, 11] [20] [30, 31]) =
        .ok (w', smap, imap, cmap) ∧
      (∀ s ∈ [10, 11], ∀ c, c ∈ registeredOf c2World s →
        ∃ rs rc, lookupId smap (studentIdIn c2World s) = some rs ∧
          lookupId cmap (courseIdIn c2World c) = some rc ∧
          rs ∈ enrolledOf w' rc ∧ rc ∈ registeredOf w' rs) ∧
      (∀ c ∈ [30, 31], ∀ i, instructorRefOf c2World c = some i →
        ∃ rc ri, lookupId cmap (courseIdIn c2World c) = some rc ∧
          lookupId imap (instructorIdIn c2World i) = some ri ∧
          instructorRefOf w' rc = some ri ∧ rc ∈ assignedOf w' ri) ∧
      EnrolledNodup w' ∧ RegisteredNodup w' ∧ AssignedNodup w' := by
  refine C2_json_roundtrip c2World [10, 11] [20] [30, 31] (by decide) (by decide)
    (by decide) (by decide) (by decide) (by decide) (by decide) (by decide)
    ?_ (by decide) (by decide) (by decide) (by decide)
  intro c hc i hi
  have hc' : c = 30 ∨ c = 31 := by
    rcases List.mem_cons.mp hc with h | h
    · exact Or.inl h
    · rcases List.mem_cons.mp h with h2 | h2
      · exact Or.inr h2
      · exact absurd h2 (List.not_mem_nil c)
  rcases hc' with rfl | rfl
  · rw [show (coOf c2World 30).instructor = some 20 from rfl] at hi
    injection hi with hi
    subst hi
    decide
  · rw [show (coOf c2World 31).instructor = none from rfl] at hi
    exact Option.noConfusion hi

end School
